import Mathlib

/-!
# The type layer of the ark compiler front end

A shallow embedding of `src/parser/type.go` (the type model), of the parts of
`src/parser/inference.go` (the inference pass) and of `src/semantic/type.go`
(the checking pass) that the verified properties are about.

Conventions of the embedding:

* a Go value of interface type `Type` is a value of `Ty`; where the source lets
  such a value be `nil` (a hint, the `Type` field of an expression node, the
  return and receiver types of a function type, the argument of `Equals`) it is
  an `Option Ty` and `none` is `nil`;
* a Go function that can `panic` returns an `Option`, and `none` is the panic;
  `&&` and `||` keep their short-circuit order, so that a panic of the right
  operand only happens when Go evaluates it;
* pointers (`*Module`, `*Function`) are addresses; what a `*Function` points to is read
  from a `FunctionHeap`;
* a value of the interface `Expr` is a tree `Expr L`; the methods `setTypeHint` and `infer`
  that Go dispatches on the children of a node come from a table `ExprMethods`, and
  `GetType` has two layers of `Option`: the outer `none` is a panic, the inner one the `nil`
  type; `Expr.methods` is the table of the node kinds themselves, down to a depth of nodes
  given as fuel;
* a `PointerType` whose addressee is `nil`, as `PointerTo(nil)` builds it for a hint, is the
  constructor `PointerToNil` of `Ty`;
* the literal nodes and the tuple literals built from them are the trees `LiteralExpr`,
  with their methods defined by recursion on the tree.
-/

namespace Ark

/-! ## Primitive types -/

/-- The primitive kinds, `PrimitiveType` of `parser/type.go`, in the order of the `iota` block. -/
inductive PrimitiveType where
  | PRIMITIVE_s8
  | PRIMITIVE_s16
  | PRIMITIVE_s32
  | PRIMITIVE_s64
  | PRIMITIVE_s128
  | PRIMITIVE_u8
  | PRIMITIVE_u16
  | PRIMITIVE_u32
  | PRIMITIVE_u64
  | PRIMITIVE_u128
  | PRIMITIVE_f32
  | PRIMITIVE_f64
  | PRIMITIVE_f128
  | PRIMITIVE_rune
  | PRIMITIVE_int
  | PRIMITIVE_uint
  | PRIMITIVE_bool
  | PRIMITIVE_void
  deriving DecidableEq, Repr

open PrimitiveType

/-- The method `PrimitiveType.IsVoidType`. -/
def PrimitiveType.IsVoidType (v : PrimitiveType) : Bool :=
  decide (v = PRIMITIVE_void)

/-- The method `PrimitiveType.IsIntegerType`. -/
def PrimitiveType.IsIntegerType : PrimitiveType → Bool
  | PRIMITIVE_s8 | PRIMITIVE_s16 | PRIMITIVE_s32 | PRIMITIVE_s64 | PRIMITIVE_s128
  | PRIMITIVE_u8 | PRIMITIVE_u16 | PRIMITIVE_u32 | PRIMITIVE_u64 | PRIMITIVE_u128
  | PRIMITIVE_int | PRIMITIVE_uint => true
  | _ => false

/-- The method `PrimitiveType.IsFloatingType`. -/
def PrimitiveType.IsFloatingType : PrimitiveType → Bool
  | PRIMITIVE_f32 | PRIMITIVE_f64 | PRIMITIVE_f128 => true
  | _ => false

/-- The method `PrimitiveType.IsSigned`. -/
def PrimitiveType.IsSigned : PrimitiveType → Bool
  | PRIMITIVE_s8 | PRIMITIVE_s16 | PRIMITIVE_s32 | PRIMITIVE_s64 | PRIMITIVE_s128
  | PRIMITIVE_int => true
  | _ => false

/-! ## Attributes and pointers -/

/-- Modelled from the spec: the attribute set of a type (`AttrGroup`, declared outside `src/`),
as the list of its (key, value) entries; the Go `nil` group is the empty list. -/
abbrev AttrGroup := List (String × String)

/-- Modelled from the spec: `AttrGroup.Equals` (declared outside `src/`), equality of two
attribute sets: every entry of either is an entry of the other. -/
def AttrGroup.Equals (a b : AttrGroup) : Bool :=
  a.all (fun x => b.contains x) && b.all (fun x => a.contains x)

/-- A `*Module`, compared by address only. -/
abbrev ModulePtr := Nat

/-- A `*Function`, compared by address only. -/
abbrev FunctionPtr := Nat

/-! ## The type variants -/

/-- A non-nil value of the Go interface `Type`: one constructor for each type that implements
it in `parser/type.go`, carrying the fields of the Go struct (a `*VariableDecl` of a struct is
the name and the type of its variable; a `ParameterType` of a named type is its name; the
`UnresolvedName` of an unresolved type is its printed form). A `PointerType` is `Pointer` of
its addressee, or `PointerToNil` when the addressee is `nil`, as `PointerTo(nil)` builds it. -/
inductive Ty where
  | Primitive (v : PrimitiveType)
  | Struct (Variables : List (String × Ty)) (attrs : AttrGroup)
  | Named (Name : String) (Typ : Ty) (Parameters : List String) (ParentModule : ModulePtr)
      (Methods : List FunctionPtr)
  | Array (MemberType : Ty) (attrs : AttrGroup)
  | ConstantReference (Referrer : Ty)
  | MutableReference (Referrer : Ty)
  | Pointer (Addressee : Ty)
  | PointerToNil
  | Tuple (Members : List Ty)
  | Interface (Functions : List FunctionPtr) (attrs : AttrGroup)
  | Enum (Simple : Bool) (Members : List (String × Ty × Int)) (attrs : AttrGroup)
  | Function (attrs : AttrGroup) (Parameters : List Ty) (Return : Option Ty) (IsVariadic : Bool)
      (Receiver : Option Ty)
  | Parameter (Name : String)
  | Substitution (Name : String) (Typ : Ty)
  | Unresolved (Name : String) (Parameters : List Ty)

namespace Ty

/-- The type assertion `t.(*NamedType)` succeeds. -/
def isNamedType : Ty → Bool
  | Named _ _ _ _ _ => true
  | _ => false

/-- The value is one of the meta-variants, the types that embed `metaType`. -/
def isMetaType : Ty → Bool
  | Parameter _ | Substitution _ _ | Unresolved _ _ => true
  | _ => false

/-- The Go comparison `t == p` of an interface value with a primitive constant. -/
def isPrimitive (t : Ty) (p : PrimitiveType) : Bool :=
  match t with
  | Primitive q => decide (q = p)
  | _ => false

/-- The method `ActualType`: a named type asks its underlying type, every other variant
returns itself. -/
def ActualType : Ty → Ty
  | Named _ ty _ _ _ => ActualType ty
  | t => t

/-- The method `LevelsOfIndirection`; `none` is the panic of `metaType`, or of the method
called on the `nil` addressee of a pointer. -/
def LevelsOfIndirection : Ty → Option Nat
  | Primitive _ => some 0
  | Struct _ _ => some 0
  | Named _ ty _ _ _ => LevelsOfIndirection ty
  | Array _ _ => some 0
  | ConstantReference r => (LevelsOfIndirection r).map (· + 1)
  | MutableReference r => (LevelsOfIndirection r).map (· + 1)
  | Pointer a => (LevelsOfIndirection a).map (· + 1)
  | PointerToNil => none
  | Tuple _ => some 0
  | Interface _ _ => some 0
  | Enum _ _ _ => some 0
  | Function _ _ _ _ _ => some 0
  | Parameter _ => none
  | Substitution _ _ => none
  | Unresolved _ _ => none

/-- The method `IsIntegerType`; `none` is the panic of `metaType`. -/
def IsIntegerType : Ty → Option Bool
  | Primitive v => some v.IsIntegerType
  | Struct _ _ => some false
  | Named _ ty _ _ _ => IsIntegerType ty
  | Array _ _ => some false
  | ConstantReference _ => some true
  | MutableReference _ => some true
  | Pointer _ => some true
  | PointerToNil => some true
  | Tuple _ => some false
  | Interface _ _ => some false
  | Enum simple _ _ => some simple
  | Function _ _ _ _ _ => some false
  | Parameter _ => none
  | Substitution _ _ => none
  | Unresolved _ _ => none

/-- The method `IsFloatingType`; `none` is the panic of `metaType`. -/
def IsFloatingType : Ty → Option Bool
  | Primitive v => some v.IsFloatingType
  | Named _ ty _ _ _ => IsFloatingType ty
  | Parameter _ => none
  | Substitution _ _ => none
  | Unresolved _ _ => none
  | _ => some false

/-- The method `IsSigned`; `none` is the panic of `metaType`. -/
def IsSigned : Ty → Option Bool
  | Primitive v => some v.IsSigned
  | Named _ ty _ _ _ => IsSigned ty
  | Parameter _ => none
  | Substitution _ _ => none
  | Unresolved _ _ => none
  | _ => some false

/-- The method `IsVoidType`; `none` is the panic of `metaType`. -/
def IsVoidType : Ty → Option Bool
  | Primitive v => some v.IsVoidType
  | Named _ ty _ _ _ => IsVoidType ty
  | Parameter _ => none
  | Substitution _ _ => none
  | Unresolved _ _ => none
  | _ => some false

/-- The method `Attrs`; `none` is the panic of `metaType`. An interface type answers `nil`
whatever its `attrs` field holds. -/
def Attrs : Ty → Option AttrGroup
  | Primitive _ => some []
  | Struct _ attrs => some attrs
  | Named _ ty _ _ _ => Attrs ty
  | Array _ attrs => some attrs
  | ConstantReference _ => some []
  | MutableReference _ => some []
  | Pointer _ => some []
  | PointerToNil => some []
  | Tuple _ => some []
  | Interface _ _ => some []
  | Enum _ _ attrs => some attrs
  | Function attrs _ _ _ _ => some attrs
  | Parameter _ => none
  | Substitution _ _ => none
  | Unresolved _ _ => none

/-- The loop of `InterfaceType.Equals` over the method lists, run after the lengths were
found equal: the methods are compared as pointers; `none` is the index out of range. -/
def EqualsFunctions : List FunctionPtr → List FunctionPtr → Option Bool
  | [], _ => some true
  | _ :: _, [] => none
  | f :: fs, g :: gs => if f != g then some false else EqualsFunctions fs gs

mutual

/-- The method `Equals` of every variant, on an argument that may be `nil`; `none` is a panic
(of `metaType`, or of a method called on a `nil` return type or on a `nil` addressee). -/
def Equals : Ty → Option Ty → Option Bool
  | Primitive v, some (Primitive other) => some (decide (v = other))
  | Primitive _, _ => some false
  | Struct vars attrs, some (Struct otherVars otherAttrs) =>
      if !(AttrGroup.Equals attrs otherAttrs) then some false
      else if vars.length != otherVars.length then some false
      else EqualsVariables vars otherVars
  | Struct _ _, _ => some false
  | Named name _ _ parentModule _, some (Named otherName _ _ otherParentModule _) =>
      if parentModule != otherParentModule then some false
      else if name != otherName then some false
      else some true
  | Named _ _ _ _ _, _ => some false
  | Array memberType attrs, some (Array otherMemberType otherAttrs) =>
      if !(AttrGroup.Equals attrs otherAttrs) then some false
      else
        match Equals memberType (some otherMemberType) with
        | none => none
        | some false => some false
        | some true => some true
  | Array _ _, _ => some false
  | ConstantReference referrer, some (ConstantReference refReferrer) =>
      Equals referrer (some refReferrer)
  | ConstantReference referrer, some (Pointer addressee) => Equals referrer (some addressee)
  | ConstantReference referrer, some PointerToNil => Equals referrer none
  | ConstantReference _, _ => some false
  | MutableReference referrer, some (MutableReference refReferrer) =>
      Equals referrer (some refReferrer)
  | MutableReference referrer, some (Pointer addressee) => Equals referrer (some addressee)
  | MutableReference referrer, some PointerToNil => Equals referrer none
  | MutableReference _, _ => some false
  | Pointer addressee, some (Pointer otherAddressee) => Equals addressee (some otherAddressee)
  | Pointer addressee, some PointerToNil => Equals addressee none
  | Pointer _, _ => some false
  | PointerToNil, some (Pointer _) => none
  | PointerToNil, some PointerToNil => none
  | PointerToNil, _ => some false
  | Tuple members, some (Tuple otherMembers) =>
      if members.length != otherMembers.length then some false
      else EqualsMembers members otherMembers
  | Tuple _, _ => some false
  | Interface functions _, some (Interface otherFunctions _) =>
      if functions.length != otherFunctions.length then some false
      else EqualsFunctions functions otherFunctions
  | Interface _ _, _ => some false
  | Enum _ members attrs, some (Enum _ otherMembers otherAttrs) =>
      if !(AttrGroup.Equals attrs otherAttrs) then some false
      else if members.length != otherMembers.length then some false
      else EqualsEnumMembers members otherMembers
  | Enum _ _ _, _ => some false
  | Function attrs parameters ret isVariadic receiver,
      some (Function otherAttrs otherParameters otherRet otherIsVariadic otherReceiver) =>
      if !(AttrGroup.Equals attrs otherAttrs) then some false
      else if isVariadic != otherIsVariadic then some false
      else
        match ret with
        | none => none
        | some r =>
          match Equals r otherRet with
          | none => none
          | some false => some false
          | some true =>
            if parameters.length != otherParameters.length then some false
            else
              match EqualsMembers parameters otherParameters with
              | none => none
              | some false => some false
              | some true =>
                if receiver.isNone != otherReceiver.isNone then some false
                else
                  match receiver with
                  | none => some true
                  | some rc =>
                    match Equals rc otherReceiver with
                    | none => none
                    | some false => some false
                    | some true => some true
  | Function _ _ _ _ _, _ => some false
  | Parameter _, _ => none
  | Substitution _ _, _ => none
  | Unresolved _ _, _ => none
termination_by structural v => v

/-- The loop of `TupleType.Equals` over the members (and of `FunctionType.Equals` over the
parameters), run after the lengths were found equal; `none` is a panic. -/
def EqualsMembers : List Ty → List Ty → Option Bool
  | [], _ => some true
  | _ :: _, [] => none
  | mem :: mems, other :: others =>
      match Equals mem (some other) with
      | none => none
      | some false => some false
      | some true => EqualsMembers mems others
termination_by structural x => x

/-- The loop of `StructType.Equals` over the variables, run after the lengths were found
equal: the names, then the types; `none` is a panic. -/
def EqualsVariables : List (String × Ty) → List (String × Ty) → Option Bool
  | [], _ => some true
  | _ :: _, [] => none
  | (name, ty) :: vars, (otherName, otherTy) :: otherVars =>
      if name != otherName then some false
      else
        match Equals ty (some otherTy) with
        | none => none
        | some false => some false
        | some true => EqualsVariables vars otherVars
termination_by structural x => x

/-- The loop of `EnumType.Equals` over the members, run after the lengths were found equal:
the names, then the types, then the tags; `none` is a panic. -/
def EqualsEnumMembers : List (String × Ty × Int) → List (String × Ty × Int) → Option Bool
  | [], _ => some true
  | _ :: _, [] => none
  | (name, ty, tag) :: members, (otherName, otherTy, otherTag) :: otherMembers =>
      if name != otherName then some false
      else
        match Equals ty (some otherTy) with
        | none => none
        | some false => some false
        | some true =>
          if tag != otherTag then some false
          else EqualsEnumMembers members otherMembers
termination_by structural x => x

end

/-- The number of named types wrapped around the underlying representation. -/
def namedDepth : Ty → Nat
  | Named _ ty _ _ _ => namedDepth ty + 1
  | _ => 0

/-- The actual type is wrapped in no named type. -/
theorem namedDepth_ActualType : ∀ t : Ty, namedDepth (ActualType t) = 0
  | Named _ ty _ _ _ => by
      rw [ActualType]
      exact namedDepth_ActualType ty
  | Primitive _ => rfl
  | Struct _ _ => rfl
  | Array _ _ => rfl
  | ConstantReference _ => rfl
  | MutableReference _ => rfl
  | Pointer _ => rfl
  | PointerToNil => rfl
  | Tuple _ => rfl
  | Interface _ _ => rfl
  | Enum _ _ _ => rfl
  | Function _ _ _ _ _ => rfl
  | Parameter _ => rfl
  | Substitution _ _ => rfl
  | Unresolved _ _ => rfl

/-- The method `CanCastTo` of every variant, on a non-nil target; `none` is a panic. A named
type asks its actual type, as `NamedType.CanCastTo` does. -/
def CanCastTo (v t : Ty) : Option Bool :=
  match v with
  | Primitive p =>
      if !(p.IsIntegerType || p.IsFloatingType || decide (p = PRIMITIVE_rune)) then some false
      else
        match IsFloatingType t with
        | none => none
        | some true => some true
        | some false =>
          match IsIntegerType t with
          | none => none
          | some true => some true
          | some false => some (isPrimitive t PRIMITIVE_rune)
  | Struct _ _ => some false
  | Named name ty parameters parentModule methods =>
      CanCastTo (ActualType (Named name ty parameters parentModule methods)) t
  | Array memberType attrs => Equals (ActualType t) (some (Array memberType attrs))
  | ConstantReference _ => IsIntegerType t
  | MutableReference _ => IsIntegerType t
  | Pointer _ =>
      match IsIntegerType t with
      | none => none
      | some true => some true
      | some false => some false
  | PointerToNil =>
      match IsIntegerType t with
      | none => none
      | some true => some true
      | some false => some false
  | Tuple members => Equals (Tuple members) (some (ActualType t))
  | Interface functions attrs => Equals (Interface functions attrs) (some (ActualType t))
  | Enum simple _ _ => if !simple then some false else IsIntegerType t
  | Function _ _ _ _ _ => some false
  | Parameter _ => none
  | Substitution _ _ => none
  | Unresolved _ _ => none
termination_by namedDepth v
decreasing_by
  rw [namedDepth_ActualType]
  simp [namedDepth]

end Ty

/-! ## Diagnostics -/

/-- Modelled from the spec: an event of the diagnostics sink (the logger of `TypeInferer`, and
`SemanticAnalyzer.Err` and `SemanticAnalyzer.Warn`, are outside `src/`): an error or a warning,
with the format string the source passes; errors mark the pass as failed, warnings do not. -/
inductive Diagnostic where
  | error (format : String)
  | warning (format : String)
  deriving DecidableEq, Repr

/-- An event is an error. -/
def Diagnostic.isError : Diagnostic → Bool
  | Diagnostic.error _ => true
  | Diagnostic.warning _ => false

/-! ## The inference pass (`parser/inference.go`) -/

/-- The state of the inference pass, `TypeInferer`: the function stack, the current function
and the failure flag; `log` is what `err` and `warn` have written to the logger. The
`Submodule` field only serves to print source positions and is left out. -/
structure TypeInferer where
  functionStack : List FunctionPtr
  function : Option FunctionPtr
  shouldExit : Bool
  log : List Diagnostic

/-- The method `TypeInferer.err`: logs the error and sets the failure flag. -/
def TypeInferer.err (v : TypeInferer) (err : String) : TypeInferer :=
  { v with log := v.log ++ [Diagnostic.error err], shouldExit := true }

/-- The method `TypeInferer.warn`: logs the warning. -/
def TypeInferer.warn (v : TypeInferer) (err : String) : TypeInferer :=
  { v with log := v.log ++ [Diagnostic.warning err] }

/-- The methods of the Go interface `Expr` that the inference pass calls on a node of any
kind: `setTypeHint` and `infer` update the node (and the state of the pass), `GetType` reads
its type; `none` is a panic. -/
class ExprNode (E : Type) where
  setTypeHint : E → Option Ty → Option E
  infer : E → TypeInferer → Option (E × TypeInferer)
  GetType : E → Option Ty

/-- Modelled from the spec: the node `NumericLiteral` (declared outside `src/`), with the
fields the source reads and writes: the value of an integer literal, whether the literal is
a float literal, and the optional type of the node. -/
structure NumericLiteral where
  IntValue : Int
  IsFloat : Bool
  Typ : Option Ty

/-- The method `NumericLiteral.setTypeHint`. -/
def NumericLiteral.setTypeHint (v : NumericLiteral) (t : Option Ty) : NumericLiteral :=
  let actual : Option Ty :=
    match t with
    | some ty => some ty.ActualType
    | none => none
  if v.IsFloat then
    match actual with
    | some (Ty.Primitive PRIMITIVE_f32) | some (Ty.Primitive PRIMITIVE_f64)
    | some (Ty.Primitive PRIMITIVE_f128) => { v with Typ := t }
    | _ => { v with Typ := some (Ty.Primitive PRIMITIVE_f64) }
  else
    match actual with
    | some (Ty.Primitive PRIMITIVE_int) | some (Ty.Primitive PRIMITIVE_uint)
    | some (Ty.Primitive PRIMITIVE_s8) | some (Ty.Primitive PRIMITIVE_s16)
    | some (Ty.Primitive PRIMITIVE_s32) | some (Ty.Primitive PRIMITIVE_s64)
    | some (Ty.Primitive PRIMITIVE_s128)
    | some (Ty.Primitive PRIMITIVE_u8) | some (Ty.Primitive PRIMITIVE_u16)
    | some (Ty.Primitive PRIMITIVE_u32) | some (Ty.Primitive PRIMITIVE_u64)
    | some (Ty.Primitive PRIMITIVE_u128)
    | some (Ty.Primitive PRIMITIVE_f32) | some (Ty.Primitive PRIMITIVE_f64)
    | some (Ty.Primitive PRIMITIVE_f128) => { v with Typ := t }
    | _ => { v with Typ := some (Ty.Primitive PRIMITIVE_int) }

/-- The method `NumericLiteral.infer`, which does nothing. -/
def NumericLiteral.infer (v : NumericLiteral) (s : TypeInferer) : NumericLiteral × TypeInferer :=
  (v, s)

/-- Modelled from the spec: `NumericLiteral.GetType` (declared outside `src/`) reads the
optional type of the node. -/
def NumericLiteral.GetType (v : NumericLiteral) : Option Ty :=
  v.Typ

instance : ExprNode NumericLiteral where
  setTypeHint v t := some (v.setTypeHint t)
  infer v s := some (v.infer s)
  GetType v := v.GetType

/-- Modelled from the spec: a `Variable` (declared outside `src/`), with its name and its
declared type, `none` while no type was declared or inferred. -/
structure Variable where
  Name : String
  Typ : Option Ty

/-- Modelled from the spec: the node `VariableDecl` (declared outside `src/`): the variable
and its optional initializer, an expression node. -/
structure VariableDecl (E : Type) where
  Variable : Variable
  Assignment : Option E

/-- The method `VariableDecl.infer` (`Variable.infer` does nothing): the initializer is hinted
with the declared type and inferred; an undeclared type is taken from the initializer, and
`void` there is an error. Calling `IsVoidType` on a `nil` type panics. -/
def VariableDecl.infer {E : Type} [ExprNode E] (v : VariableDecl E) (s : TypeInferer) :
    Option (VariableDecl E × TypeInferer) :=
  match v.Assignment with
  | none => some (v, s)
  | some assignment =>
    match ExprNode.setTypeHint assignment v.Variable.Typ with
    | none => none
    | some hinted =>
      match ExprNode.infer hinted s with
      | none => none
      | some (inferred, s1) =>
        match v.Variable.Typ with
        | some _ => some ({ v with Assignment := some inferred }, s1)
        | none =>
          match ExprNode.GetType inferred with
          | none => none
          | some ty =>
            match ty.IsVoidType with
            | none => none
            | some isVoid =>
              some ({ Variable := { v.Variable with Typ := some ty }, Assignment := some inferred },
                if isVoid then s1.err "variable has incomplete type `void`" else s1)

/-! ## The checking pass (`semantic/type.go`) -/

/-- Modelled from the spec: the diagnostics sink of the checking pass (`SemanticAnalyzer`,
declared outside `src/`): the errors and warnings reported so far, in order. -/
structure SemanticAnalyzer where
  diagnostics : List Diagnostic
  deriving DecidableEq, Repr

/-- Modelled from the spec: `SemanticAnalyzer.Err` reports an error. -/
def SemanticAnalyzer.Err (s : SemanticAnalyzer) (err : String) : SemanticAnalyzer :=
  { s with diagnostics := s.diagnostics ++ [Diagnostic.error err] }

/-- Modelled from the spec: `SemanticAnalyzer.Warn` reports a warning. -/
def SemanticAnalyzer.Warn (s : SemanticAnalyzer) (err : String) : SemanticAnalyzer :=
  { s with diagnostics := s.diagnostics ++ [Diagnostic.warning err] }

/-- The number of binary digits of `n`, 0 for 0, by repeated halving; `fuel` bounds the number
of halvings and `n` itself is always enough. -/
def bitLenAux : Nat → Nat → Nat
  | 0, _ => 0
  | fuel + 1, n => if n = 0 then 0 else bitLenAux fuel (n / 2) + 1

/-- The method `BitLen` of `math/big.Int`: the length in bits of the absolute value, 0 for 0. -/
def BitLen (x : Int) : Nat :=
  bitLenAux x.natAbs x.natAbs

/-- The width that `CheckNumericLiteral` looks up for the actual type of an integer literal;
`none` is the panic `wrong type here`. -/
def literalBits (actual : Ty) : Option Nat :=
  match actual with
  | Ty.Primitive PRIMITIVE_int | Ty.Primitive PRIMITIVE_uint => some 9000
  | Ty.Primitive PRIMITIVE_u8 | Ty.Primitive PRIMITIVE_s8 => some 8
  | Ty.Primitive PRIMITIVE_u16 | Ty.Primitive PRIMITIVE_s16 => some 16
  | Ty.Primitive PRIMITIVE_u32 | Ty.Primitive PRIMITIVE_s32 => some 32
  | Ty.Primitive PRIMITIVE_u64 | Ty.Primitive PRIMITIVE_s64 => some 64
  | Ty.Primitive PRIMITIVE_u128 | Ty.Primitive PRIMITIVE_s128 => some 128
  | _ => none

/-- The method `TypeCheck.CheckNumericLiteral` (the receiver is not used). The three `if`
statements run in order, each on the sink the previous one left; `none` is a panic: a method
called on a `nil` type or on a meta-variant, or `wrong type here`. -/
def CheckNumericLiteral (s : SemanticAnalyzer) (lit : NumericLiteral) : Option SemanticAnalyzer :=
  match lit.Typ with
  | none => none
  | some ty =>
    -- if !(lit.Type.IsIntegerType() || lit.Type.IsFloatingType())
    let first : Option SemanticAnalyzer :=
      match ty.IsIntegerType with
      | none => none
      | some true => some s
      | some false =>
        match ty.IsFloatingType with
        | none => none
        | some true => some s
        | some false => some (s.Err "Numeric literal was non-integer, non-float type: %s")
    match first with
    | none => none
    | some s1 =>
      -- if lit.IsFloat && lit.Type.IsIntegerType()
      let second : Option SemanticAnalyzer :=
        if lit.IsFloat then
          match ty.IsIntegerType with
          | none => none
          | some true => some (s1.Err "Floating numeric literal has integer type: %s")
          | some false => some s1
        else some s1
      match second with
      | none => none
      | some s2 =>
        -- if lit.Type.IsFloatingType() ... else ...
        match ty.IsFloatingType with
        | none => none
        | some true => some s2
        | some false =>
          match literalBits ty.ActualType with
          | none => none
          | some bits =>
            if bits < BitLen lit.IntValue then some (s2.Warn "Integer overflows %s")
            else some s2

/-! ## Functions and expression trees -/

/-- The Go struct `FunctionType` as a value of its own, as in the field `Type` of a
`Function`: the fields of the constructor `Ty.Function`. -/
structure FunctionType where
  attrs : AttrGroup
  Parameters : List Ty
  Return : Option Ty
  IsVariadic : Bool
  Receiver : Option Ty

/-- A `FunctionType` seen as a value of the interface `Type`. -/
def FunctionType.toType (f : FunctionType) : Ty :=
  Ty.Function f.attrs f.Parameters f.Return f.IsVariadic f.Receiver

/-- The type assertion `t.(FunctionType)` on a type that may be `nil`; `none` when it fails. -/
def asFunctionType : Option Ty → Option FunctionType
  | some (Ty.Function attrs parameters ret isVariadic receiver) =>
      some ⟨attrs, parameters, ret, isVariadic, receiver⟩
  | _ => none

/-- Modelled from the spec: a `Function` (declared outside `src/`), with the fields the source
reads: its name and its function type. -/
structure Function where
  Name : String
  Typ : FunctionType

/-- What the non-nil `*Function` pointers point to. -/
abbrev FunctionHeap := FunctionPtr → Function

/-- The function `TypeWithoutPointers` on a non-nil type: the addressee below every pointer,
which is `nil` below a pointer to `nil`. -/
def Ty.TypeWithoutPointers : Ty → Option Ty
  | Ty.Pointer addressee => Ty.TypeWithoutPointers addressee
  | Ty.PointerToNil => none
  | t => some t

/-- The function `TypeWithoutPointers`, on a type that may be `nil` (`nil` is no pointer type
and is returned as it is). -/
def TypeWithoutPointers (t : Option Ty) : Option Ty :=
  t.bind Ty.TypeWithoutPointers

/-- The method `NamedType.GetMethod`, on the `Methods` of the named type: the first method of
that name, `none` (the `nil` pointer) when there is none. -/
def GetMethod (heap : FunctionHeap) : List FunctionPtr → String → Option FunctionPtr
  | [], _ => none
  | fn :: fns, name => if (heap fn).Name == name then some fn else GetMethod heap fns name

/-- The method `StructType.GetVariableDecl`, on the `Variables` of the struct type: the first
declaration of that name, `none` (the `nil` pointer) when there is none. -/
def GetVariableDecl : List (String × Ty) → String → Option (String × Ty)
  | [], _ => none
  | decl :: decls, s => if decl.1 == s then some decl else GetVariableDecl decls s

/-- A non-nil value of the Go interface `Expr`, as far as the source looks into it: the node
kinds that the source constructs (`CastExpr`, `FunctionAccessExpr`, `DerefAccessExpr`) or tests
for with a type assertion (`StructAccessExpr`, `FunctionAccessExpr`), with the fields of their
Go structs, and `Other` for a node of any other kind, of which only the interface is used. -/
inductive Expr (L : Type) where
  | Other (node : L)
  | CastExpr (expr : Expr L) (Typ : Option Ty)
  | FunctionAccessExpr (Function : Option FunctionPtr)
  | StructAccessExpr (Struct : Expr L) (Member : String) (Variable : Option Variable)
  | DerefAccessExpr (expr : Expr L) (Typ : Option Ty)

/-- Modelled from the spec: the method `GetType` of the node kinds of `Expr` (declared outside
`src/`). A cast and a dereference answer their `Type` field, a function reference the type of
its function (a `nil` function is a nil dereference, the outer `none`), a struct member access
the type of the variable it is bound to (`nil` while it is bound to none); a node of another
kind answers through the interface. The inner `none` is the `nil` type. -/
def Expr.GetType {L : Type} [ExprNode L] (heap : FunctionHeap) : Expr L → Option (Option Ty)
  | Expr.Other node => some (ExprNode.GetType node)
  | Expr.CastExpr _ ty => some ty
  | Expr.FunctionAccessExpr none => none
  | Expr.FunctionAccessExpr (some fn) => some (some (heap fn).Typ.toType)
  | Expr.StructAccessExpr _ _ none => some none
  | Expr.StructAccessExpr _ _ (some vari) => some vari.Typ
  | Expr.DerefAccessExpr _ ty => some ty

/-- The methods `setTypeHint` and `infer` that Go dispatches on a child of interface type
`Expr`: each returns the updated child (`infer` also the updated state of the pass), `none`
is a panic. The methods of a node are defined for every such table. -/
structure ExprMethods (L : Type) where
  setTypeHint : Expr L → Option Ty → Option (Expr L)
  infer : Expr L → TypeInferer → Option (Expr L × TypeInferer)

/-- The table of the nodes whose `setTypeHint` and `infer` do nothing, as those of
`VariableAccessExpr` and `FunctionAccessExpr`. -/
def ExprMethods.idle (L : Type) : ExprMethods L where
  setTypeHint e _ := some e
  infer e s := some (e, s)

/-- Modelled from the spec: the node `VariableAccessExpr` (declared outside `src/`), with the
variable it refers to. -/
structure VariableAccessExpr where
  Variable : Variable

/-- The methods `VariableAccessExpr.setTypeHint` and `VariableAccessExpr.infer`, which do
nothing; modelled from the spec: `VariableAccessExpr.GetType` (declared outside `src/`) is
the type of the variable. -/
instance : ExprNode VariableAccessExpr where
  setTypeHint v _ := some v
  infer v s := some (v, s)
  GetType v := v.Variable.Typ

/-- Modelled from the spec: the node `ReturnStat` (declared outside `src/`): the returned
value, `none` (`nil`) for a bare return. -/
structure ReturnStat (L : Type) where
  Value : Option (Expr L)

/-- The method `ReturnStat.infer`. After the error for a return outside a function the code
goes on and reads `s.function.Type`, a nil dereference; a bare return in a function that does
not return `void` calls `setTypeHint` on the `nil` value. -/
def ReturnStat.infer {L : Type} (M : ExprMethods L) (heap : FunctionHeap) (v : ReturnStat L)
    (s : TypeInferer) : Option (ReturnStat L × TypeInferer) :=
  let s1 := if s.function.isNone then s.err "Return statement must be in a function" else s
  match s1.function with
  | none => none
  | some fn =>
    match (heap fn).Typ.Return with
    | none => none
    | some ret =>
      match Ty.Equals ret (some (Ty.Primitive PRIMITIVE_void)) with
      | none => none
      | some true => some (v, s1)
      | some false =>
        match v.Value with
        | none => none
        | some value =>
          match M.setTypeHint value (some ret) with
          | none => none
          | some hinted =>
            match M.infer hinted s1 with
            | none => none
            | some (inferred, s2) => some ({ Value := some inferred }, s2)

/-- Modelled from the spec: the node `StructAccessExpr` (declared outside `src/`), with the
fields of the constructor `Expr.StructAccessExpr`. -/
structure StructAccessExpr (L : Type) where
  Struct : Expr L
  Member : String
  Variable : Option Variable

/-- The method `StructAccessExpr.infer`. The error for a `nil` type is followed by the call of
`ActualType` on it, a panic; at indirection level 1 the type is asserted to be a
`PointerType`, a panic for the two reference types. -/
def StructAccessExpr.infer {L : Type} [ExprNode L] (M : ExprMethods L) (heap : FunctionHeap)
    (v : StructAccessExpr L) (s : TypeInferer) : Option (StructAccessExpr L × TypeInferer) :=
  match M.infer v.Struct s with
  | none => none
  | some (struct1, s1) =>
    match struct1.GetType heap with
    | none => none
    | some none => none
    | some (some structType) =>
      let typ := structType.ActualType
      match typ.LevelsOfIndirection with
      | none => none
      | some levels =>
        -- if typ.LevelsOfIndirection() == 1
        let step : Option (Ty × Expr L) :=
          if levels == 1 then
            match typ with
            | Ty.Pointer addressee =>
                some (addressee.ActualType,
                  Expr.DerefAccessExpr struct1 (some addressee.ActualType))
            | _ => none
          else some (typ, struct1)
        match step with
        | none => none
        | some (typ2, struct2) =>
          -- structType, ok := typ.(StructType)
          let vars : List (String × Ty) :=
            match typ2 with
            | Ty.Struct vars _ => vars
            | _ => []
          let s2 :=
            match typ2 with
            | Ty.Struct _ _ => s1
            | _ => s1.err "Cannot access member of type `%s`"
          match GetVariableDecl vars v.Member with
          | none =>
              some ({ v with Struct := struct2 },
                s2.err "Struct `%s` does not contain member `%s`")
          | some decl =>
              some ({ v with Struct := struct2, Variable := some ⟨decl.1, some decl.2⟩ }, s2)

/-- Modelled from the spec: the node `CallExpr` (declared outside `src/`): the callee, the
arguments and the receiver expression of a method call; the callee and the receiver may be
`nil`. -/
structure CallExpr (L : Type) where
  Function : Option (Expr L)
  Arguments : List (Expr L)
  ReceiverAccess : Option (Expr L)

/-- The first of the three `if` statements of `CallExpr.infer` on the receiver: a receiver
whose type is a constant reference is wrapped in a dereference typed with the referrer. -/
def CallExpr.derefConstantReference {L : Type} [ExprNode L] (heap : FunctionHeap)
    (receiverAccess : Expr L) : Option (Expr L) :=
  match receiverAccess.GetType heap with
  | none => none
  | some (some (Ty.ConstantReference referrer)) =>
      some (Expr.DerefAccessExpr receiverAccess (some referrer))
  | some _ => some receiverAccess

/-- The second `if` statement: a receiver whose type is a mutable reference is wrapped in a
dereference typed with the referrer. -/
def CallExpr.derefMutableReference {L : Type} [ExprNode L] (heap : FunctionHeap)
    (receiverAccess : Expr L) : Option (Expr L) :=
  match receiverAccess.GetType heap with
  | none => none
  | some (some (Ty.MutableReference referrer)) =>
      some (Expr.DerefAccessExpr receiverAccess (some referrer))
  | some _ => some receiverAccess

/-- The third `if` statement: a receiver whose type is a pointer is wrapped in a dereference
typed with the addressee. -/
def CallExpr.derefPointer {L : Type} [ExprNode L] (heap : FunctionHeap)
    (receiverAccess : Expr L) : Option (Expr L) :=
  match receiverAccess.GetType heap with
  | none => none
  | some (some (Ty.Pointer addressee)) =>
      some (Expr.DerefAccessExpr receiverAccess (some addressee))
  | some (some Ty.PointerToNil) => some (Expr.DerefAccessExpr receiverAccess none)
  | some _ => some receiverAccess

/-- The body of `if accessType.LevelsOfIndirection() == recType.LevelsOfIndirection()+1` in
`CallExpr.infer`: the three `if` statements in order, each on the receiver that the one
before it has left. -/
def CallExpr.derefReceiver {L : Type} [ExprNode L] (heap : FunctionHeap)
    (receiverAccess : Expr L) : Option (Expr L) :=
  match CallExpr.derefConstantReference heap receiverAccess with
  | none => none
  | some r1 =>
    match CallExpr.derefMutableReference heap r1 with
    | none => none
    | some r2 => CallExpr.derefPointer heap r2

/-- The receiver part of `CallExpr.infer`, for a callee whose function type has the receiver
type `recType`: the receiver is dereferenced when its indirection level is that of `recType`
plus one, and left as it is otherwise; `none` is a panic (a `nil` receiver expression, a `nil`
type, `LevelsOfIndirection` on a meta-variant). -/
def CallExpr.inferReceiver {L : Type} [ExprNode L] (heap : FunctionHeap) (recType : Ty)
    (receiverAccess : Option (Expr L)) : Option (Expr L) :=
  match receiverAccess with
  | none => none
  | some receiver =>
    match receiver.GetType heap with
    | none => none
    | some none => none
    | some (some accessType) =>
      match accessType.LevelsOfIndirection, recType.LevelsOfIndirection with
      | some accessLevels, some recLevels =>
          if accessLevels == recLevels + 1 then CallExpr.derefReceiver heap receiver
          else some receiver
      | _, _ => none

/-- The first loop over the arguments in `CallExpr.infer`: the argument at index `i` is hinted
with the parameter at index `i`, and with `nil` when there is no such parameter. -/
def CallExpr.hintArguments {L : Type} (M : ExprMethods L) :
    List (Expr L) → List Ty → Option (List (Expr L))
  | [], _ => some []
  | arg :: args, [] =>
      match M.setTypeHint arg none with
      | none => none
      | some hinted => (CallExpr.hintArguments M args []).map (fun rest => hinted :: rest)
  | arg :: args, parameter :: parameters =>
      match M.setTypeHint arg (some parameter) with
      | none => none
      | some hinted => (CallExpr.hintArguments M args parameters).map (fun rest => hinted :: rest)

/-- The last loop of `CallExpr.infer`: the arguments are inferred in order. -/
def CallExpr.inferArguments {L : Type} (M : ExprMethods L) :
    List (Expr L) → TypeInferer → Option (List (Expr L) × TypeInferer)
  | [], s => some ([], s)
  | arg :: args, s =>
      match M.infer arg s with
      | none => none
      | some (inferred, s1) =>
        (CallExpr.inferArguments M args s1).map (fun r => (inferred :: r.1, r.2))

/-- The first statement of `CallExpr.infer`: a callee that is a struct member access is
replaced by a reference to the method that `GetMethod` finds on the pointer-stripped type of
the accessed value, asserted to be a named type (the reference is made whether a method was
found or not); any other callee is inferred. `none` is a panic: the failed type assertion, or
a method called on a `nil` callee. -/
def CallExpr.inferCallee {L : Type} [ExprNode L] (M : ExprMethods L) (heap : FunctionHeap)
    (function : Option (Expr L)) (s : TypeInferer) : Option (Expr L × TypeInferer) :=
  match function with
  | some (Expr.StructAccessExpr struct member _) =>
      match M.infer struct s with
      | none => none
      | some (struct1, s1) =>
        match struct1.GetType heap with
        | none => none
        | some structType =>
          match TypeWithoutPointers structType with
          | some (Ty.Named _ _ _ _ methods) =>
              some (Expr.FunctionAccessExpr (GetMethod heap methods member), s1)
          | _ => none
  | some callee => M.infer callee s
  | none => none

/-- The method `CallExpr.infer`. After `inferCallee` the callee is never `nil`, so the body
of `if v.Function != nil` always runs: a callee whose type is no function type is an error
and ends the inference of the call; otherwise the receiver is dereferenced if need be, the
arguments are hinted, and at last the arguments are inferred. -/
def CallExpr.infer {L : Type} [ExprNode L] (M : ExprMethods L) (heap : FunctionHeap)
    (v : CallExpr L) (s : TypeInferer) : Option (CallExpr L × TypeInferer) :=
  match CallExpr.inferCallee M heap v.Function s with
  | none => none
  | some (callee, s1) =>
    match callee.GetType heap with
    | none => none
    | some calleeType =>
      match asFunctionType calleeType with
      | none => some ({ v with Function := some callee }, s1.err "Cannot call non-function")
      | some fnType =>
        let receiver : Option (Option (Expr L)) :=
          match fnType.Receiver with
          | none => some v.ReceiverAccess
          | some recType => (CallExpr.inferReceiver heap recType v.ReceiverAccess).map some
        match receiver with
        | none => none
        | some receiverAccess =>
          match CallExpr.hintArguments M v.Arguments fnType.Parameters with
          | none => none
          | some hinted =>
            match CallExpr.inferArguments M hinted s1 with
            | none => none
            | some (inferred, s2) =>
              some ({ Function := some callee, Arguments := inferred,
                      ReceiverAccess := receiverAccess }, s2)

/-! ## The nodes that the checking pass visits -/

/-- Modelled from the spec: the unary operators (`UnOpType`, declared outside `src/`) that the
source names; `UNOP_other` is any other value of the type. -/
inductive UnOpType where
  | UNOP_LOG_NOT
  | UNOP_BIT_NOT
  | UNOP_NEGATIVE
  | UNOP_other
  deriving DecidableEq, Repr

/-- Modelled from the spec: the binary operators (`BinOpType`, declared outside `src/`) that
the source names; `BINOP_other` is any other value of the type. -/
inductive BinOpType where
  | BINOP_EQ | BINOP_NOT_EQ
  | BINOP_ADD | BINOP_SUB | BINOP_MUL | BINOP_DIV | BINOP_MOD
  | BINOP_GREATER | BINOP_LESS | BINOP_GREATER_EQ | BINOP_LESS_EQ
  | BINOP_BIT_AND | BINOP_BIT_OR | BINOP_BIT_XOR
  | BINOP_BIT_LEFT | BINOP_BIT_RIGHT
  | BINOP_LOG_AND | BINOP_LOG_OR
  | BINOP_other
  deriving DecidableEq, Repr

/-- Modelled from the spec: the loop kinds (`LOOP_TYPE_*`, declared outside `src/`) that the
source names; `LOOP_TYPE_other` is any other value of the type. -/
inductive LoopType where
  | LOOP_TYPE_INFINITE
  | LOOP_TYPE_CONDITIONAL
  | LOOP_TYPE_other
  deriving DecidableEq, Repr

/-- Modelled from the spec: the node `IfStat` (declared outside `src/`), with the field the
checking pass reads: the conditions, in order. -/
structure IfStat (L : Type) where
  Exprs : List (Expr L)

/-- Modelled from the spec: the node `LoopStat` (declared outside `src/`): the kind of the
loop and its condition, `nil` for an infinite loop. -/
structure LoopStat (L : Type) where
  LoopType : LoopType
  Condition : Option (Expr L)

/-- Modelled from the spec: the node `AssignStat` (declared outside `src/`): the target and
the assigned value. -/
structure AssignStat (L : Type) where
  Access : Expr L
  Assignment : Expr L

/-- Modelled from the spec: the node `BinopAssignStat` (declared outside `src/`), with the
fields the checking pass reads: the target and the assigned value. -/
structure BinopAssignStat (L : Type) where
  Access : Expr L
  Assignment : Expr L

/-- Modelled from the spec: the node `ArrayLenExpr` (declared outside `src/`): the measured
expression, which may be `nil`. -/
structure ArrayLenExpr (L : Type) where
  Expr : Option (Ark.Expr L)

/-- Modelled from the spec: the node `UnaryExpr` (declared outside `src/`): the operator, the
operand and the optional type of the node. -/
structure UnaryExpr (L : Type) where
  Op : UnOpType
  Expr : Ark.Expr L
  Typ : Option Ty

/-- Modelled from the spec: the node `BinaryExpr` (declared outside `src/`): the operator, the
two operands and the optional type of the node. -/
structure BinaryExpr (L : Type) where
  Op : BinOpType
  Lhand : Expr L
  Rhand : Expr L
  Typ : Option Ty

/-- Modelled from the spec: the node `CastExpr` (declared outside `src/`), with the fields of
the constructor `Expr.CastExpr`: the cast expression and the target type. -/
structure CastExpr (L : Type) where
  Expr : Ark.Expr L
  Typ : Option Ty

/-- Modelled from the spec: the node `ArrayAccessExpr` (declared outside `src/`): the array
and the subscript. -/
structure ArrayAccessExpr (L : Type) where
  Array : Expr L
  Subscript : Expr L

/-- Modelled from the spec: the node `TupleAccessExpr` (declared outside `src/`): the tuple
and the index, an unsigned integer. -/
structure TupleAccessExpr (L : Type) where
  Tuple : Expr L
  Index : Nat

/-- Modelled from the spec: the node `DerefAccessExpr` (declared outside `src/`), with the
fields of the constructor `Expr.DerefAccessExpr`. -/
structure DerefAccessExpr (L : Type) where
  Expr : Ark.Expr L
  Typ : Option Ty

/-- Modelled from the spec: the node `CompositeLiteral` (declared outside `src/`): the type of
the literal, the values and, in parallel, their field names (empty for a value without). -/
structure CompositeLiteral (L : Type) where
  Typ : Option Ty
  Fields : List String
  Values : List (Expr L)

/-- Modelled from the spec: the node `TupleLiteral` (declared outside `src/`): the type of the
literal and its members. -/
structure TupleLiteral (L : Type) where
  Typ : Option Ty
  Members : List (Expr L)

/-- Modelled from the spec: the node `EnumLiteral` (declared outside `src/`), with the fields
the checking pass reads: the type of the literal and the name of the chosen member. -/
structure EnumLiteral where
  Typ : Option Ty
  Member : String

/-- The nodes as `TypeCheck.Visit` tells them apart: one constructor for each case of its type
switch, `LoopStat`, and `Other` for a node of any other kind. -/
inductive Node (L : Type) where
  | FunctionDecl (Function : FunctionPtr)
  | LambdaExpr (Function : FunctionPtr)
  | VariableDecl (n : VariableDecl (Expr L))
  | ReturnStat (n : ReturnStat L)
  | IfStat (n : IfStat L)
  | AssignStat (n : AssignStat L)
  | ArrayLenExpr (n : ArrayLenExpr L)
  | BinopAssignStat (n : BinopAssignStat L)
  | UnaryExpr (n : UnaryExpr L)
  | BinaryExpr (n : BinaryExpr L)
  | CastExpr (n : CastExpr L)
  | CallExpr (n : CallExpr L)
  | ArrayAccessExpr (n : ArrayAccessExpr L)
  | TupleAccessExpr (n : TupleAccessExpr L)
  | DerefAccessExpr (n : DerefAccessExpr L)
  | NumericLiteral (n : NumericLiteral)
  | CompositeLiteral (n : CompositeLiteral L)
  | TupleLiteral (n : TupleLiteral L)
  | EnumLiteral (n : EnumLiteral)
  | LoopStat (n : LoopStat L)
  | Other

/-! ## The checks of the checking pass -/

/-- The state of the checking pass, `TypeCheck`: the stack of the functions being visited. -/
structure TypeCheck where
  functions : List FunctionPtr

/-- The method `TypeCheck.pushFunction`. -/
def TypeCheck.pushFunction (v : TypeCheck) (fn : FunctionPtr) : TypeCheck :=
  { functions := v.functions ++ [fn] }

/-- The method `TypeCheck.popFunction`; `none` is the panic of slicing the empty stack. -/
def TypeCheck.popFunction (v : TypeCheck) : Option TypeCheck :=
  if v.functions.length == 0 then none else some { functions := v.functions.dropLast }

/-- The method `TypeCheck.Function`, the top of the stack; `none` is the index out of range
on the empty stack. -/
def TypeCheck.Function (v : TypeCheck) : Option FunctionPtr :=
  v.functions.getLast?

/-- The receiver of a method called on `e.GetType()`: `none` when `GetType` panics and when
it answers `nil`, on which the call panics. -/
def Expr.typeForCall {L : Type} [ExprNode L] (heap : FunctionHeap) (e : Expr L) : Option Ty :=
  match e.GetType heap with
  | some (some ty) => some ty
  | _ => none

/-- The Go comparison `e.GetType() != p` with a primitive constant: `nil` differs from it;
`none` when `GetType` panics. -/
def Expr.typeIsNot {L : Type} [ExprNode L] (heap : FunctionHeap) (e : Expr L)
    (p : PrimitiveType) : Option Bool :=
  match e.GetType heap with
  | none => none
  | some none => some true
  | some (some ty) => some (!ty.isPrimitive p)

/-- The Go operator `||` on two calls that may panic: the right one is only run, and can only
panic, when the left one is false. -/
def orElse (a b : Option Bool) : Option Bool :=
  match a with
  | none => none
  | some true => some true
  | some false => b

/-- An error whose message prints `TypeName` of a type that may be `nil`: the call of
`TypeName` on `nil` panics before the error is reported. -/
def errNamingType (s : SemanticAnalyzer) (named : Option Ty) (err : String) :
    Option SemanticAnalyzer :=
  match named with
  | none => none
  | some _ => some (s.Err err)

/-- The method `TypeCheck.CheckVariableDecl`; the message of its error prints the type of the
initializer. -/
def CheckVariableDecl {L : Type} [ExprNode L] (heap : FunctionHeap) (s : SemanticAnalyzer)
    (decl : VariableDecl (Expr L)) : Option SemanticAnalyzer :=
  match decl.Assignment with
  | none => some s
  | some assignment =>
    match decl.Variable.Typ, assignment.GetType heap with
    | some ty, some assignmentType =>
        match ty.Equals assignmentType with
        | none => none
        | some true => some s
        | some false =>
            errNamingType s assignmentType
              "Cannot assign expression of type `%s` to variable of type `%s`"
    | _, _ => none

/-- The method `TypeCheck.CheckReturnStat`, in the function on top of the stack of the pass;
`none` is a panic: the empty stack, a `nil` return type, a `nil` type of the value, or
`Equals` on a meta-variant. -/
def CheckReturnStat {L : Type} [ExprNode L] (heap : FunctionHeap) (v : TypeCheck)
    (s : SemanticAnalyzer) (stat : ReturnStat L) : Option SemanticAnalyzer :=
  match v.Function with
  | none => none
  | some fn =>
    match (heap fn).Typ.Return with
    | none => none
    | some ret =>
      match stat.Value with
      | none =>
          match ret.Equals (some (Ty.Primitive PRIMITIVE_void)) with
          | none => none
          | some true => some s
          | some false => some (s.Err "Cannot return void from function `%s` of type `%s`")
      | some value =>
          match ret.Equals (some (Ty.Primitive PRIMITIVE_void)) with
          | none => none
          | some true => some (s.Err "Cannot return expression from void function")
          | some false =>
            match value.typeForCall heap with
            | none => none
            | some valueType =>
              match valueType.Equals (some ret) with
              | none => none
              | some true => some s
              | some false =>
                  some (s.Err
                    "Cannot return expression of type `%s` from function `%s` of type `%s`")

/-- The method `TypeCheck.CheckIfStat`: the conditions in order. -/
def CheckIfStat {L : Type} [ExprNode L] (heap : FunctionHeap) :
    SemanticAnalyzer → List (Expr L) → Option SemanticAnalyzer
  | s, [] => some s
  | s, expr :: exprs =>
      match expr.typeIsNot heap PRIMITIVE_bool with
      | none => none
      | some true => CheckIfStat heap (s.Err "If condition must have a boolean condition") exprs
      | some false => CheckIfStat heap s exprs

/-- The method `TypeCheck.CheckAssignStat`; the message of its error prints both types. -/
def CheckAssignStat {L : Type} [ExprNode L] (heap : FunctionHeap) (s : SemanticAnalyzer)
    (stat : AssignStat L) : Option SemanticAnalyzer :=
  match stat.Access.typeForCall heap, stat.Assignment.GetType heap with
  | some accessType, some assignmentType =>
      match accessType.Equals assignmentType with
      | none => none
      | some true => some s
      | some false => errNamingType s assignmentType "Mismatched types: `%s` and `%s`"
  | _, _ => none

/-- The method `TypeCheck.CheckBinopAssignStat`; the message of its error prints both
types. -/
def CheckBinopAssignStat {L : Type} [ExprNode L] (heap : FunctionHeap) (s : SemanticAnalyzer)
    (stat : BinopAssignStat L) : Option SemanticAnalyzer :=
  match stat.Access.typeForCall heap, stat.Assignment.GetType heap with
  | some accessType, some assignmentType =>
      match accessType.Equals assignmentType with
      | none => none
      | some true => some s
      | some false => errNamingType s assignmentType "Mismatched types: `%s` and `%s`"
  | _, _ => none

/-- The method `TypeCheck.CheckArrayLenExpr`, which checks nothing. -/
def CheckArrayLenExpr {L : Type} (s : SemanticAnalyzer) (_expr : ArrayLenExpr L) :
    Option SemanticAnalyzer :=
  some s

/-- The test `t.IsIntegerType() || t.IsFloatingType()` on the type of an expression. -/
def Expr.isNumeric {L : Type} [ExprNode L] (heap : FunctionHeap) (e : Expr L) : Option Bool :=
  match e.typeForCall heap with
  | none => none
  | some ty => orElse ty.IsIntegerType ty.IsFloatingType

/-- The method `TypeCheck.CheckUnaryExpr`; `none` is a panic, `unknown unary op` among them. -/
def CheckUnaryExpr {L : Type} [ExprNode L] (heap : FunctionHeap) (s : SemanticAnalyzer)
    (expr : UnaryExpr L) : Option SemanticAnalyzer :=
  match expr.Op with
  | UnOpType.UNOP_LOG_NOT =>
      match expr.Expr.typeIsNot heap PRIMITIVE_bool with
      | none => none
      | some true => some (s.Err "Used logical not on non-boolean expression")
      | some false => some s
  | UnOpType.UNOP_BIT_NOT =>
      match expr.Expr.isNumeric heap with
      | none => none
      | some true => some s
      | some false => some (s.Err "Used bitwise not on non-numeric type")
  | UnOpType.UNOP_NEGATIVE =>
      match expr.Expr.isNumeric heap with
      | none => none
      | some true => some s
      | some false => some (s.Err "Used negative on non-numeric type")
  | UnOpType.UNOP_other => none

/-- The test of `CheckBinaryExpr` on the type of the left operand of an arithmetic, comparison
or bitwise operator: `rune`, integer-like, floating or of indirection level above 0. -/
def allowedArithmetic (lht : Ty) : Option Bool :=
  orElse (some (lht.isPrimitive PRIMITIVE_rune))
    (orElse lht.IsIntegerType
      (orElse lht.IsFloatingType (lht.LevelsOfIndirection.map (fun levels => decide (levels > 0)))))

/-- The test of `CheckBinaryExpr` on the type of the left operand of `==` and `!=`: `bool`, or
what an arithmetic operator allows. -/
def allowedEquality (lht : Ty) : Option Bool :=
  orElse (some (lht.isPrimitive PRIMITIVE_bool)) (allowedArithmetic lht)

/-- The first two cases of `CheckBinaryExpr`: the operands must have equal types (the message
of that error prints both types), and then the type of the left operand must pass the test
`allowed`. -/
def checkSameTypeOperands {L : Type} [ExprNode L] (heap : FunctionHeap) (s : SemanticAnalyzer)
    (expr : BinaryExpr L) (allowed : Ty → Option Bool) (message : String) :
    Option SemanticAnalyzer :=
  match expr.Lhand.typeForCall heap, expr.Rhand.GetType heap with
  | some lht, some rht =>
      match lht.Equals rht with
      | none => none
      | some false =>
          errNamingType s rht
            "Operands for binary operator `%s` must have the same type, have `%s` and `%s`"
      | some true =>
        match allowed lht with
        | none => none
        | some true => some s
        | some false => some (s.Err message)
  | _, _ => none

/-- The method `TypeCheck.CheckBinaryExpr`; `none` is a panic, `unimplemented bin operation`
among them. -/
def CheckBinaryExpr {L : Type} [ExprNode L] (heap : FunctionHeap) (s : SemanticAnalyzer)
    (expr : BinaryExpr L) : Option SemanticAnalyzer :=
  match expr.Op with
  | BinOpType.BINOP_EQ | BinOpType.BINOP_NOT_EQ =>
      checkSameTypeOperands heap s expr allowedEquality
        "Operands for binary operator `%s` must be numeric, or pointers or booleans, have `%s`"
  | BinOpType.BINOP_ADD | BinOpType.BINOP_SUB | BinOpType.BINOP_MUL | BinOpType.BINOP_DIV
  | BinOpType.BINOP_MOD | BinOpType.BINOP_GREATER | BinOpType.BINOP_LESS
  | BinOpType.BINOP_GREATER_EQ | BinOpType.BINOP_LESS_EQ | BinOpType.BINOP_BIT_AND
  | BinOpType.BINOP_BIT_OR | BinOpType.BINOP_BIT_XOR =>
      checkSameTypeOperands heap s expr allowedArithmetic
        "Operands for binary operator `%s` must be numeric or pointers, have `%s`"
  | BinOpType.BINOP_BIT_LEFT | BinOpType.BINOP_BIT_RIGHT =>
      match expr.Lhand.typeForCall heap with
      | none => none
      | some lht =>
        match orElse lht.IsFloatingType
            (orElse lht.IsIntegerType
              (lht.LevelsOfIndirection.map (fun levels => decide (levels > 0)))) with
        | none => none
        | some false =>
            some (s.Err
              "Left-hand operand for bitshift operator `%s` must be numeric or a pointer, have `%s`")
        | some true =>
          match expr.Rhand.typeForCall heap with
          | none => none
          | some rht =>
            match rht.IsIntegerType with
            | none => none
            | some true => some s
            | some false =>
                some (s.Err
                  "Right-hand operatnd for bitshift operator `%s` must be an integer, have `%s`")
  | BinOpType.BINOP_LOG_AND | BinOpType.BINOP_LOG_OR =>
      match orElse (expr.Lhand.typeIsNot heap PRIMITIVE_bool)
          (expr.Rhand.typeIsNot heap PRIMITIVE_bool) with
      | none => none
      | some true =>
          -- the message prints the types of both operands
          match expr.Lhand.typeForCall heap, expr.Rhand.typeForCall heap with
          | some _, some _ =>
              some (s.Err
                "Operands for logical operator `%s` must have the same type, have `%s` and `%s`")
          | _, _ => none
      | some false => some s
  | BinOpType.BINOP_other => none

/-- The method `TypeCheck.CheckCastExpr`: a warning when the target type `Equals` the type of
the cast expression, else an error when that type cannot be cast to the target type. -/
def CheckCastExpr {L : Type} [ExprNode L] (heap : FunctionHeap) (s : SemanticAnalyzer)
    (expr : CastExpr L) : Option SemanticAnalyzer :=
  match expr.Typ, expr.Expr.GetType heap with
  | some target, some source =>
      match target.Equals source with
      | none => none
      | some true => some (s.Warn "Casting expression of type `%s` to the same type")
      | some false =>
        match source with
        | none => none
        | some sourceType =>
          match sourceType.CanCastTo target with
          | none => none
          | some true => some s
          | some false => some (s.Err "Cannot cast expression of type `%s` to type `%s`")
  | _, _ => none

/-- Modelled from the spec: `AttrGroup.Contains` (declared outside `src/`): the set has an
attribute of that key. -/
def AttrGroup.Contains (a : AttrGroup) (key : String) : Bool :=
  a.any (fun x => x.1 == key)

/-- The promotion of a variadic argument in `CheckCallExpr`: the argument is wrapped in a cast
to `f64`, `int` or `uint` by its actual type, or left as it is; `none` is a panic. -/
def promoteArgument {L : Type} [ExprNode L] (heap : FunctionHeap) (arg : Expr L) :
    Option (Expr L) :=
  match arg.typeForCall heap with
  | none => none
  | some ty =>
    match ty.ActualType with
    | Ty.Primitive PRIMITIVE_f32 => some (Expr.CastExpr arg (some (Ty.Primitive PRIMITIVE_f64)))
    | Ty.Primitive PRIMITIVE_s8 | Ty.Primitive PRIMITIVE_s16 =>
        some (Expr.CastExpr arg (some (Ty.Primitive PRIMITIVE_int)))
    | Ty.Primitive PRIMITIVE_u8 | Ty.Primitive PRIMITIVE_u16 =>
        some (Expr.CastExpr arg (some (Ty.Primitive PRIMITIVE_uint)))
    | _ => some arg

/-- The loop of `CheckCallExpr` over the arguments, from index `i` on: an argument past the
parameters panics unless the function is variadic and carries the attribute `c`, and is then
promoted; an argument within the parameters must have a type that `Equals` its parameter. -/
def checkArguments {L : Type} [ExprNode L] (heap : FunctionHeap) (fnType : FunctionType)
    (c : Bool) : Nat → List (Expr L) → SemanticAnalyzer → Option (List (Expr L) × SemanticAnalyzer)
  | _, [], s => some ([], s)
  | i, arg :: args, s =>
      if i ≥ fnType.Parameters.length then
        if !fnType.IsVariadic then none
        else if !c then none
        else
          match promoteArgument heap arg with
          | none => none
          | some promoted =>
            (checkArguments heap fnType c (i + 1) args s).map (fun r => (promoted :: r.1, r.2))
      else
        match fnType.Parameters.get? i, arg.typeForCall heap with
        | some par, some argType =>
            match argType.Equals (some par) with
            | none => none
            | some true =>
                (checkArguments heap fnType c (i + 1) args s).map (fun r => (arg :: r.1, r.2))
            | some false =>
                (checkArguments heap fnType c (i + 1) args
                  (s.Err "Mismatched types in function call: `%s` and `%s`")).map
                  (fun r => (arg :: r.1, r.2))
        | _, _ => none

/-- The check of the receiver in `CheckCallExpr`, for a function type with a receiver type:
the type of the receiver expression must be the receiver type itself. `same` is the Go
comparison `==` of two non-nil values of the interface `Type` (a comparison of pointers for
named types, a panic, `none`, for two values of one uncomparable kind), which the model of
the types does not determine. `none` is a panic: a `nil` receiver expression, and a receiver
of `nil` type (it differs from the receiver type, and the message of the error prints it). -/
def checkReceiver {L : Type} [ExprNode L] (heap : FunctionHeap) (same : Ty → Ty → Option Bool)
    (fnType : FunctionType) (receiverAccess : Option (Expr L)) (s : SemanticAnalyzer) :
    Option SemanticAnalyzer :=
  match fnType.Receiver with
  | none => some s
  | some recType =>
    match receiverAccess with
    | none => none
    | some receiver =>
      match receiver.GetType heap with
      | none => none
      | some none => none
      | some (some receiverType) =>
        match same receiverType recType with
        | none => none
        | some true => some s
        | some false =>
            some (s.Err "Mismatched receiver types for call to `%s`: `%s` and `%s`")

/-- The method `TypeCheck.CheckCallExpr`. `none` is a panic: a callee that is `nil` or whose
type is no function type, a reference to a `nil` function, and the panics of the check of the
receiver and of the loop over the arguments. -/
def CheckCallExpr {L : Type} [ExprNode L] (heap : FunctionHeap) (same : Ty → Ty → Option Bool)
    (s : SemanticAnalyzer) (expr : CallExpr L) : Option (CallExpr L × SemanticAnalyzer) :=
  match expr.Function with
  | none => none
  | some callee =>
    match callee.GetType heap with
    | none => none
    | some calleeType =>
      match asFunctionType calleeType with
      | none => none
      | some fnType =>
        let argLen := expr.Arguments.length
        let paramLen := fnType.Parameters.length
        let isVariadic := fnType.IsVariadic
        let c := fnType.attrs.Contains "c"
        -- fnName = fae.Function.Name
        match (match callee with
            | Expr.FunctionAccessExpr none => (none : Option Unit)
            | _ => some ()) with
        | none => none
        | some _ =>
          let s1 :=
            if argLen < paramLen then s.Err "Call to `%s` has too few arguments, expects %d, have %d"
            else if !isVariadic && argLen > paramLen then
              s.Err "Call to `%s` has too many arguments, expects %d, have %d"
            else s
          match checkReceiver heap same fnType expr.ReceiverAccess s1 with
          | none => none
          | some s2 =>
            (checkArguments heap fnType c 0 expr.Arguments s2).map
              (fun r => ({ expr with Arguments := r.1 }, r.2))

/-- The method `TypeCheck.CheckArrayAccessExpr`. -/
def CheckArrayAccessExpr {L : Type} [ExprNode L] (heap : FunctionHeap) (s : SemanticAnalyzer)
    (expr : ArrayAccessExpr L) : Option SemanticAnalyzer :=
  match expr.Array.typeForCall heap, expr.Subscript.typeForCall heap with
  | some arrayType, some subscriptType =>
      let s1 :=
        match arrayType.ActualType with
        | Ty.Array _ _ => s
        | _ => s.Err "Cannot index type `%s` as an array"
      match subscriptType.IsIntegerType with
      | none => none
      | some true => some s1
      | some false => some (s1.Err "Array subscript must be an integer type, have `%s`")
  | _, _ => none

/-- The method `TypeCheck.CheckTupleAccessExpr`; a type that is no tuple type has no members,
so that every index is then too large as well. -/
def CheckTupleAccessExpr {L : Type} [ExprNode L] (heap : FunctionHeap) (s : SemanticAnalyzer)
    (expr : TupleAccessExpr L) : Option SemanticAnalyzer :=
  match expr.Tuple.typeForCall heap with
  | none => none
  | some tupleType =>
    let members : List Ty :=
      match tupleType.ActualType with
      | Ty.Tuple ms => ms
      | _ => []
    let s1 :=
      match tupleType.ActualType with
      | Ty.Tuple _ => s
      | _ => s.Err "Cannot index type `%s` as a tuple"
    if expr.Index ≥ members.length then
      some (s1.Err "Index `%d` (element %d) is greater than size of tuple `%s`")
    else some s1

/-- The method `TypeCheck.CheckDerefAccessExpr`; the message of its error prints the type of
the operand. -/
def CheckDerefAccessExpr {L : Type} [ExprNode L] (heap : FunctionHeap) (s : SemanticAnalyzer)
    (expr : DerefAccessExpr L) : Option SemanticAnalyzer :=
  match expr.Expr.GetType heap with
  | none => none
  | some (some (Ty.Pointer _)) => some s
  | some (some Ty.PointerToNil) => some s
  | some operandType => errNamingType s operandType "Cannot dereference expression of type `%s`"

/-- The loop of `CheckTupleLiteral` over the members of the literal, against the member types
of its tuple type; `none` is a panic: a `nil` type of a member, `Equals` on a meta-variant,
and the index out of range when the literal has more members than the type. -/
def checkTupleMembers {L : Type} [ExprNode L] (heap : FunctionHeap) :
    List (Expr L) → List Ty → SemanticAnalyzer → Option SemanticAnalyzer
  | [], _, s => some s
  | _ :: _, [], _ => none
  | mem :: mems, memberType :: memberTypes, s =>
      match mem.typeForCall heap with
      | none => none
      | some memType =>
        match memType.Equals (some memberType) with
        | none => none
        | some true => checkTupleMembers heap mems memberTypes s
        | some false =>
            checkTupleMembers heap mems memberTypes
              (s.Err "Cannot use component of type `%s` in tuple position of type `%s`")

/-- The method `TypeCheck.CheckTupleLiteral`; `none` is a panic, `Type of tuple literal was
not TupleType` among them. -/
def CheckTupleLiteral {L : Type} [ExprNode L] (heap : FunctionHeap) (s : SemanticAnalyzer)
    (lit : TupleLiteral L) : Option SemanticAnalyzer :=
  match lit.Typ with
  | none => none
  | some ty =>
    match ty.ActualType with
    | Ty.Tuple memberTypes =>
        let s1 :=
          if lit.Members.length != memberTypes.length then
            s.Err "Invalid amount of entries in tuple"
          else s
        checkTupleMembers heap lit.Members memberTypes s1
    | _ => none

/-- The loop of `CheckCompositeLiteral` for an array type, over the values and, in parallel,
their field names; `none` is a panic (a value without an entry in `Fields` among them). -/
def checkArrayValues {L : Type} [ExprNode L] (heap : FunctionHeap) (memType : Ty) :
    List (Expr L) → List String → SemanticAnalyzer → Option SemanticAnalyzer
  | [], _, s => some s
  | _ :: _, [], _ => none
  | mem :: mems, field :: fields, s =>
      match mem.typeForCall heap with
      | none => none
      | some valueType =>
        match valueType.Equals (some memType) with
        | none => none
        | some equal =>
          let s1 :=
            if !equal then s.Err "Cannot use element of type `%s` in array of type `%s`" else s
          let s2 :=
            if field != "" then s1.Err "Unexpected field in array literal: `%s`" else s1
          checkArrayValues heap memType mems fields s2

/-- The loop of `CheckCompositeLiteral` for a struct type with the variables `vars`, over the
values and, in parallel, their field names. A value without a field name is an error and the
loop goes on with the next value; a field name that `GetVariableDecl` does not find is an
error, after which the code reads `decl.Variable` of the `nil` declaration, a panic. -/
def checkStructValues {L : Type} [ExprNode L] (heap : FunctionHeap) (vars : List (String × Ty)) :
    List (Expr L) → List String → SemanticAnalyzer → Option SemanticAnalyzer
  | [], _, s => some s
  | _ :: _, [], _ => none
  | mem :: mems, name :: fields, s =>
      if name == "" then
        checkStructValues heap vars mems fields (s.Err "Missing field in struct literal")
      else
        match GetVariableDecl vars name with
        | none => none
        | some decl =>
          match mem.typeForCall heap with
          | none => none
          | some valueType =>
            match valueType.Equals (some decl.2) with
            | none => none
            | some true => checkStructValues heap vars mems fields s
            | some false =>
                checkStructValues heap vars mems fields
                  (s.Err "Cannot use value of type `%s` as member of `%s` with type `%s`")

/-- The method `TypeCheck.CheckCompositeLiteral`; `none` is a panic, `composite literal has
neither struct nor array type` among them. -/
def CheckCompositeLiteral {L : Type} [ExprNode L] (heap : FunctionHeap) (s : SemanticAnalyzer)
    (lit : CompositeLiteral L) : Option SemanticAnalyzer :=
  match lit.Typ with
  | none => none
  | some ty =>
    match ty.ActualType with
    | Ty.Array memType _ => checkArrayValues heap memType lit.Values lit.Fields s
    | Ty.Struct vars _ => checkStructValues heap vars lit.Values lit.Fields s
    | _ => none

/-- The loop of `EnumType.MemberIndex`, from index `idx` on. -/
def memberIndexFrom : Nat → List (String × Ty × Int) → String → Int
  | _, [], _ => -1
  | idx, member :: members, name =>
      if member.1 == name then (idx : Int) else memberIndexFrom (idx + 1) members name

/-- The method `EnumType.MemberIndex`, on the `Members` of the enum type: the index of the
first member of that name, and -1 when there is none. -/
def MemberIndex (members : List (String × Ty × Int)) (name : String) : Int :=
  memberIndexFrom 0 members name

/-- The method `TypeCheck.CheckEnumLiteral`; `none` is a panic, `Type of enum literal was not
EnumType` among them. -/
def CheckEnumLiteral (s : SemanticAnalyzer) (lit : EnumLiteral) : Option SemanticAnalyzer :=
  match lit.Typ with
  | none => none
  | some ty =>
    match ty.ActualType with
    | Ty.Enum _ members _ =>
        let memIdx := MemberIndex members lit.Member
        if memIdx < 0 || memIdx ≥ (members.length : Int) then
          some (s.Err "Enum `%s` has no member `%s`")
        else some s
    | _ => none

/-- The method `TypeCheck.Visit`: the type switch on the kind of the visited node. A function
declaration and a lambda push their function; the kinds with a check are checked (the check
of a call may replace arguments of the node); a node of any other kind, a loop statement
among them, is left alone. `none` is a panic of the check. -/
def TypeCheck.Visit {L : Type} [ExprNode L] (heap : FunctionHeap) (same : Ty → Ty → Option Bool)
    (v : TypeCheck) (s : SemanticAnalyzer) (n : Node L) :
    Option (TypeCheck × SemanticAnalyzer × Node L) :=
  match n with
  | Node.FunctionDecl fn => some (v.pushFunction fn, s, n)
  | Node.LambdaExpr fn => some (v.pushFunction fn, s, n)
  | Node.VariableDecl decl => (CheckVariableDecl heap s decl).map (fun s1 => (v, s1, n))
  | Node.ReturnStat stat => (CheckReturnStat heap v s stat).map (fun s1 => (v, s1, n))
  | Node.IfStat stat => (CheckIfStat heap s stat.Exprs).map (fun s1 => (v, s1, n))
  | Node.AssignStat stat => (CheckAssignStat heap s stat).map (fun s1 => (v, s1, n))
  | Node.ArrayLenExpr expr => (CheckArrayLenExpr s expr).map (fun s1 => (v, s1, n))
  | Node.BinopAssignStat stat => (CheckBinopAssignStat heap s stat).map (fun s1 => (v, s1, n))
  | Node.UnaryExpr expr => (CheckUnaryExpr heap s expr).map (fun s1 => (v, s1, n))
  | Node.BinaryExpr expr => (CheckBinaryExpr heap s expr).map (fun s1 => (v, s1, n))
  | Node.CastExpr expr => (CheckCastExpr heap s expr).map (fun s1 => (v, s1, n))
  | Node.CallExpr expr =>
      (CheckCallExpr heap same s expr).map (fun r => (v, r.2, Node.CallExpr r.1))
  | Node.ArrayAccessExpr expr => (CheckArrayAccessExpr heap s expr).map (fun s1 => (v, s1, n))
  | Node.TupleAccessExpr expr => (CheckTupleAccessExpr heap s expr).map (fun s1 => (v, s1, n))
  | Node.DerefAccessExpr expr => (CheckDerefAccessExpr heap s expr).map (fun s1 => (v, s1, n))
  | Node.NumericLiteral lit => (CheckNumericLiteral s lit).map (fun s1 => (v, s1, n))
  | Node.CompositeLiteral lit => (CheckCompositeLiteral heap s lit).map (fun s1 => (v, s1, n))
  | Node.TupleLiteral lit => (CheckTupleLiteral heap s lit).map (fun s1 => (v, s1, n))
  | Node.EnumLiteral lit => (CheckEnumLiteral s lit).map (fun s1 => (v, s1, n))
  | Node.LoopStat _ => some (v, s, n)
  | Node.Other => some (v, s, n)

/-- The method `TypeCheck.PostVisit`: leaving a function declaration or a lambda pops the
stack of functions. -/
def TypeCheck.PostVisit {L : Type} (v : TypeCheck) (n : Node L) : Option TypeCheck :=
  match n with
  | Node.FunctionDecl _ => v.popFunction
  | Node.LambdaExpr _ => v.popFunction
  | _ => some v

/-! ## Programs of the scenarios -/

/-- The state of the inference pass outside every function, before any error. -/
def TypeInferer.start : TypeInferer :=
  ⟨[], none, false, []⟩

/-- The struct type `struct {x: s32, y: s32}`. -/
def pointStruct : Ty :=
  Ty.Struct [("x", Ty.Primitive PRIMITIVE_s32), ("y", Ty.Primitive PRIMITIVE_s32)] []

/-- The named type `Point` of module 1, with the underlying type `pointStruct` and no
method. -/
def pointType : Ty :=
  Ty.Named "Point" pointStruct [] 1 []

/-- A heap on which every pointer points to the function `f`, with no parameter, returning
`void`, not variadic and without receiver. -/
def voidFunctionHeap : FunctionHeap :=
  fun _ => ⟨"f", ⟨[], [], some (Ty.Primitive PRIMITIVE_void), false, none⟩⟩

/-- A heap on which every pointer points to the method `m`, with no parameter, returning
`void`, whose receiver type is the pointer to `Point`. -/
def pointerMethodHeap : FunctionHeap :=
  fun _ => ⟨"m", ⟨[], [], some (Ty.Primitive PRIMITIVE_void), false, some (Ty.Pointer pointType)⟩⟩

/-- The access of the variable `name` of type `ty`, as an expression. -/
def variableAccess (name : String) (ty : Ty) : Expr VariableAccessExpr :=
  Expr.Other ⟨⟨name, some ty⟩⟩

/-- The integer literal `n` typed `ty`, as an expression. -/
def integerLiteral (n : Int) (ty : Ty) : Expr NumericLiteral :=
  Expr.Other ⟨n, false, some ty⟩

/-- The function type of `printf`: the attribute `c`, one parameter of type pointer to `u8`,
the return type `int`, variadic, no receiver. -/
def printfType : FunctionType :=
  ⟨[("c", "")], [Ty.Pointer (Ty.Primitive PRIMITIVE_u8)], some (Ty.Primitive PRIMITIVE_int), true,
    none⟩

/-- A heap on which every pointer points to the function `printf`. -/
def printfHeap : FunctionHeap :=
  fun _ => ⟨"printf", printfType⟩

/-- The type, which may be `nil`, is exactly the primitive `bool`. -/
def isExactlyBool : Option Ty → Bool
  | some (Ty.Primitive PRIMITIVE_bool) => true
  | _ => false

/-- The simple enum `Colour`, with the members `Red` and `Green`, tagged 0 and 1, of no
payload. -/
def colourType : Ty :=
  Ty.Enum true [("Red", Ty.Tuple [], 0), ("Green", Ty.Tuple [], 1)] []

/-! ## The inference of expression nodes (`parser/inference.go`) -/

/-- The function `PointerTo`, on an addressee that may be `nil`. -/
def PointerTo : Option Ty → Ty
  | some addressee => Ty.Pointer addressee
  | none => Ty.PointerToNil

/-- The methods `setTypeHint` with an empty body, those of `StringLiteral`, `RuneLiteral`,
`BoolLiteral`, `CastExpr`, `CallExpr`, `VariableAccessExpr`, `FunctionAccessExpr`,
`StructAccessExpr`, `ArrayAccessExpr`, `TupleAccessExpr`, `AddressOfExpr`, `ArrayLenExpr`,
`LambdaExpr`, `SizeofExpr`, `EnumLiteral`, `DefaultMatchBranch` and `DefaultExpr`, on a node
`v` of that kind: the node is left as it is. -/
def setTypeHintEmpty {N : Type} (v : N) (_t : Option Ty) : N :=
  v

/-- The method `UnaryExpr.setTypeHint`; `none` is a panic, `unknown unary op` among them. -/
def UnaryExpr.setTypeHint {L : Type} (M : ExprMethods L) (v : UnaryExpr L) (t : Option Ty) :
    Option (UnaryExpr L) :=
  match v.Op with
  | UnOpType.UNOP_LOG_NOT =>
      (M.setTypeHint v.Expr (some (Ty.Primitive PRIMITIVE_bool))).map
        (fun e => { v with Expr := e })
  | UnOpType.UNOP_BIT_NOT | UnOpType.UNOP_NEGATIVE =>
      (M.setTypeHint v.Expr t).map (fun e => { v with Expr := e })
  | UnOpType.UNOP_other => none

/-- Modelled from the spec: the categories of operators (`OpCategory`, declared outside
`src/`) that the source names; `OP_other` is any other value of the type. -/
inductive OpCategory where
  | OP_ARITHMETIC
  | OP_COMPARISON
  | OP_BITWISE
  | OP_LOGICAL
  | OP_other
  deriving DecidableEq, Repr

/-- Modelled from the spec: the method `BinOpType.Category` (declared outside `src/`), by the
names of the operators. The methods of `BinaryExpr` take the category as a parameter; this
one serves where a concrete one is called for. -/
def BinOpType.Category : BinOpType → OpCategory
  | BINOP_ADD | BINOP_SUB | BINOP_MUL | BINOP_DIV | BINOP_MOD => OpCategory.OP_ARITHMETIC
  | BINOP_EQ | BINOP_NOT_EQ | BINOP_GREATER | BINOP_LESS | BINOP_GREATER_EQ | BINOP_LESS_EQ =>
      OpCategory.OP_COMPARISON
  | BINOP_BIT_AND | BINOP_BIT_OR | BINOP_BIT_XOR | BINOP_BIT_LEFT | BINOP_BIT_RIGHT =>
      OpCategory.OP_BITWISE
  | BINOP_LOG_AND | BINOP_LOG_OR => OpCategory.OP_LOGICAL
  | BINOP_other => OpCategory.OP_other

/-- The two statements `v.Lhand.setTypeHint(t); v.Rhand.setTypeHint(t)`. -/
def BinaryExpr.hintBoth {L : Type} (M : ExprMethods L) (v : BinaryExpr L) (t : Option Ty) :
    Option (BinaryExpr L) :=
  match M.setTypeHint v.Lhand t with
  | none => none
  | some lhand =>
    match M.setTypeHint v.Rhand t with
    | none => none
    | some rhand => some { v with Lhand := lhand, Rhand := rhand }

/-- The two tests of `BinaryExpr.setTypeHint` on the types of the operands: when the left
type is `nil` and the right one is not, the left operand is hinted with the right type; when
the right type is `nil` and the left one is not, the right operand is hinted with the left
type; the inner `none` says that neither test held. Both types are read on every path. -/
def BinaryExpr.crossHint {L : Type} [ExprNode L] (M : ExprMethods L) (heap : FunctionHeap)
    (v : BinaryExpr L) : Option (Option (BinaryExpr L)) :=
  match v.Lhand.GetType heap, v.Rhand.GetType heap with
  | some none, some (some rht) =>
      (M.setTypeHint v.Lhand (some rht)).map (fun lhand => some { v with Lhand := lhand })
  | some (some lht), some none =>
      (M.setTypeHint v.Rhand (some lht)).map (fun rhand => some { v with Rhand := rhand })
  | some _, some _ => some none
  | _, _ => none

/-- The method `BinaryExpr.setTypeHint`, with the method `Category` of the operators as the
parameter `category`; `none` is a panic, `missing opcategory` among them. -/
def BinaryExpr.setTypeHint {L : Type} [ExprNode L] (M : ExprMethods L) (heap : FunctionHeap)
    (category : BinOpType → OpCategory) (v : BinaryExpr L) (t : Option Ty) :
    Option (BinaryExpr L) :=
  match category v.Op with
  | OpCategory.OP_ARITHMETIC | OpCategory.OP_BITWISE =>
      if v.Op = BinOpType.BINOP_BIT_LEFT ∨ v.Op = BinOpType.BINOP_BIT_RIGHT then
        match M.setTypeHint v.Rhand none with
        | none => none
        | some rhand =>
          match M.setTypeHint v.Lhand t with
          | none => none
          | some lhand => some { v with Lhand := lhand, Rhand := rhand }
      else
        match t with
        | none =>
            match BinaryExpr.crossHint M heap v with
            | none => none
            | some (some hinted) => some hinted
            | some none => BinaryExpr.hintBoth M v none
        | some ty => BinaryExpr.hintBoth M v (some ty)
  | OpCategory.OP_COMPARISON =>
      match BinaryExpr.crossHint M heap v with
      | none => none
      | some (some hinted) => some hinted
      | some none => BinaryExpr.hintBoth M v none
  | OpCategory.OP_LOGICAL => BinaryExpr.hintBoth M v (some (Ty.Primitive PRIMITIVE_bool))
  | OpCategory.OP_other => none

/-- The three statements `v.Lhand.infer(s); v.Rhand.setTypeHint(v.Lhand.GetType());
v.Rhand.infer(s)` of `BinaryExpr.infer`; the result carries the type of the left operand. -/
def BinaryExpr.inferHinted {L : Type} [ExprNode L] (M : ExprMethods L) (heap : FunctionHeap)
    (v : BinaryExpr L) (s : TypeInferer) : Option (BinaryExpr L × Option Ty × TypeInferer) :=
  match M.infer v.Lhand s with
  | none => none
  | some (lhand, s1) =>
    match lhand.GetType heap with
    | none => none
    | some lht =>
      match M.setTypeHint v.Rhand lht with
      | none => none
      | some hinted =>
        match M.infer hinted s1 with
        | none => none
        | some (rhand, s2) => some ({ v with Lhand := lhand, Rhand := rhand }, lht, s2)

/-- The two statements `v.Lhand.infer(s); v.Rhand.infer(s)` of `BinaryExpr.infer`; the result
carries the type of the left operand. -/
def BinaryExpr.inferBoth {L : Type} [ExprNode L] (M : ExprMethods L) (heap : FunctionHeap)
    (v : BinaryExpr L) (s : TypeInferer) : Option (BinaryExpr L × Option Ty × TypeInferer) :=
  match M.infer v.Lhand s with
  | none => none
  | some (lhand, s1) =>
    match M.infer v.Rhand s1 with
    | none => none
    | some (rhand, s2) =>
      match lhand.GetType heap with
      | none => none
      | some lht => some ({ v with Lhand := lhand, Rhand := rhand }, lht, s2)

/-- The method `BinaryExpr.infer`, with the method `Category` of the operators as the
parameter `category`; `none` is a panic, `unimplemented bin operation` among them. -/
def BinaryExpr.infer {L : Type} [ExprNode L] (M : ExprMethods L) (heap : FunctionHeap)
    (category : BinOpType → OpCategory) (v : BinaryExpr L) (s : TypeInferer) :
    Option (BinaryExpr L × TypeInferer) :=
  match v.Op with
  | BinOpType.BINOP_EQ | BinOpType.BINOP_NOT_EQ =>
      match BinaryExpr.inferHinted M heap v s with
      | none => none
      | some (v1, _, s1) => some ({ v1 with Typ := some (Ty.Primitive PRIMITIVE_bool) }, s1)
  | BinOpType.BINOP_ADD | BinOpType.BINOP_SUB | BinOpType.BINOP_MUL | BinOpType.BINOP_DIV
  | BinOpType.BINOP_MOD | BinOpType.BINOP_GREATER | BinOpType.BINOP_LESS
  | BinOpType.BINOP_GREATER_EQ | BinOpType.BINOP_LESS_EQ | BinOpType.BINOP_BIT_AND
  | BinOpType.BINOP_BIT_OR | BinOpType.BINOP_BIT_XOR =>
      match BinaryExpr.inferHinted M heap v s with
      | none => none
      | some (v1, lht, s1) =>
        match category v.Op with
        | OpCategory.OP_ARITHMETIC => some ({ v1 with Typ := lht }, s1)
        | OpCategory.OP_COMPARISON =>
            some ({ v1 with Typ := some (Ty.Primitive PRIMITIVE_bool) }, s1)
        | _ => some (v1, s1.err "invalid operands specified `%s`")
  | BinOpType.BINOP_BIT_LEFT | BinOpType.BINOP_BIT_RIGHT =>
      match BinaryExpr.inferBoth M heap v s with
      | none => none
      | some (v1, lht, s1) => some ({ v1 with Typ := lht }, s1)
  | BinOpType.BINOP_LOG_AND | BinOpType.BINOP_LOG_OR =>
      match M.infer v.Lhand s with
      | none => none
      | some (lhand, s1) =>
        match M.infer v.Rhand s1 with
        | none => none
        | some (rhand, s2) =>
            some ({ v with Lhand := lhand, Rhand := rhand,
                           Typ := some (Ty.Primitive PRIMITIVE_bool) }, s2)
  | BinOpType.BINOP_other => none

/-- The method `CastExpr.infer`: the cast expression is hinted with `nil` and inferred. -/
def CastExpr.infer {L : Type} (M : ExprMethods L) (v : CastExpr L) (s : TypeInferer) :
    Option (CastExpr L × TypeInferer) :=
  match M.setTypeHint v.Expr none with
  | none => none
  | some hinted =>
    match M.infer hinted s with
    | none => none
    | some (inferred, s1) => some ({ v with Expr := inferred }, s1)

/-- The method `DerefAccessExpr.setTypeHint`: the operand is hinted with the pointer to the
hint, and the node keeps its own type. -/
def DerefAccessExpr.setTypeHint {L : Type} (M : ExprMethods L) (v : DerefAccessExpr L)
    (t : Option Ty) : Option (DerefAccessExpr L) :=
  (M.setTypeHint v.Expr (some (PointerTo t))).map (fun e => { v with Expr := e })

/-- The method `DerefAccessExpr.infer`: the operand is inferred, and the three `if`
statements in order give the node the addressee of a pointer, the referrer of a mutable
reference, the referrer of a constant reference; the type of another operand leaves the node
as it is. -/
def DerefAccessExpr.infer {L : Type} [ExprNode L] (M : ExprMethods L) (heap : FunctionHeap)
    (v : DerefAccessExpr L) (s : TypeInferer) : Option (DerefAccessExpr L × TypeInferer) :=
  match M.infer v.Expr s with
  | none => none
  | some (inferred, s1) =>
    match inferred.GetType heap with
    | none => none
    | some operandType =>
      let typ1 : Option Ty :=
        match operandType with
        | some (Ty.Pointer addressee) => some addressee
        | some Ty.PointerToNil => none
        | _ => v.Typ
      let typ2 : Option Ty :=
        match operandType with
        | some (Ty.MutableReference referrer) => some referrer
        | _ => typ1
      let typ3 : Option Ty :=
        match operandType with
        | some (Ty.ConstantReference referrer) => some referrer
        | _ => typ2
      some ({ Expr := inferred, Typ := typ3 }, s1)

/-- The method `CompositeLiteral.setTypeHint`: a hint whose actual type is a struct type or
an array type becomes the type of the literal. -/
def CompositeLiteral.setTypeHint {L : Type} (v : CompositeLiteral L) (t : Option Ty) :
    CompositeLiteral L :=
  match t with
  | none => v
  | some ty =>
    match ty.ActualType with
    | Ty.Struct _ _ | Ty.Array _ _ => { v with Typ := some ty }
    | _ => v

/-- The loop of `CompositeLiteral.infer` for an array type: each value is hinted with the
member type and inferred. -/
def inferArrayValues {L : Type} (M : ExprMethods L) (memberType : Ty) :
    List (Expr L) → TypeInferer → Option (List (Expr L) × TypeInferer)
  | [], s => some ([], s)
  | val :: vals, s =>
      match M.setTypeHint val (some memberType) with
      | none => none
      | some hinted =>
        match M.infer hinted s with
        | none => none
        | some (inferred, s1) =>
          match inferArrayValues M memberType vals s1 with
          | none => none
          | some (rest, s2) => some (inferred :: rest, s2)

/-- The loop of `CompositeLiteral.infer` for a struct type, over the values and, in parallel,
their field names: each value is hinted with the type of the member of that name, with `nil`
when there is none, and inferred; `none` is a panic (a value without an entry in `Fields`
among them). -/
def inferStructValues {L : Type} (M : ExprMethods L) (vars : List (String × Ty)) :
    List (Expr L) → List String → TypeInferer → Option (List (Expr L) × TypeInferer)
  | [], _, s => some ([], s)
  | _ :: _, [], _ => none
  | val :: vals, field :: fields, s =>
      let hint : Option Ty :=
        match GetVariableDecl vars field with
        | some decl => some decl.2
        | none => none
      match M.setTypeHint val hint with
      | none => none
      | some hinted =>
        match M.infer hinted s with
        | none => none
        | some (inferred, s1) =>
          match inferStructValues M vars vals fields s1 with
          | none => none
          | some (rest, s2) => some (inferred :: rest, s2)

/-- The method `CompositeLiteral.infer`; `none` is a panic, the call of `ActualType` on the
`nil` type of a literal that was given none among them. -/
def CompositeLiteral.infer {L : Type} (M : ExprMethods L) (v : CompositeLiteral L)
    (s : TypeInferer) : Option (CompositeLiteral L × TypeInferer) :=
  match v.Typ with
  | none => none
  | some ty =>
    match ty.ActualType with
    | Ty.Array memberType _ =>
        (inferArrayValues M memberType v.Values s).map
          (fun r => ({ v with Values := r.1 }, r.2))
    | Ty.Struct vars _ =>
        (inferStructValues M vars v.Values v.Fields s).map
          (fun r => ({ v with Values := r.1 }, r.2))
    | _ => some (v, s.err "Invalid composite literal, expected array or structure")

/-- The method `TupleLiteral.setTypeHint`: a hint whose actual type is a tuple type becomes
the type of the literal. -/
def TupleLiteral.setTypeHint {L : Type} (v : TupleLiteral L) (t : Option Ty) : TupleLiteral L :=
  match t with
  | none => v
  | some ty =>
    match ty.ActualType with
    | Ty.Tuple _ => { v with Typ := some ty }
    | _ => v

/-- The methods `setTypeHint` and `infer` as Go dispatches them on an expression, by the kind
of the node, down to `fuel` levels of nodes: a node `Other` answers through the interface, a
cast, a function reference and a struct member access ignore a hint, a function reference is
not inferred, and the other methods are those of the node kind, with the table of one level
less for the children. Without fuel there is no answer. -/
def Expr.methods {L : Type} [ExprNode L] (heap : FunctionHeap) : Nat → ExprMethods L
  | 0 => { setTypeHint := fun _ _ => none, infer := fun _ _ => none }
  | fuel + 1 =>
    { setTypeHint := fun e t =>
        match e with
        | Expr.Other node => (ExprNode.setTypeHint node t).map Expr.Other
        | Expr.CastExpr expr ty => some (setTypeHintEmpty (Expr.CastExpr expr ty) t)
        | Expr.FunctionAccessExpr fn => some (setTypeHintEmpty (Expr.FunctionAccessExpr fn) t)
        | Expr.StructAccessExpr struct member vari =>
            some (setTypeHintEmpty (Expr.StructAccessExpr struct member vari) t)
        | Expr.DerefAccessExpr expr ty =>
            (DerefAccessExpr.setTypeHint (Expr.methods heap fuel) ⟨expr, ty⟩ t).map
              (fun v => Expr.DerefAccessExpr v.Expr v.Typ)
      infer := fun e s =>
        match e with
        | Expr.Other node => (ExprNode.infer node s).map (fun r => (Expr.Other r.1, r.2))
        | Expr.CastExpr expr ty =>
            (CastExpr.infer (Expr.methods heap fuel) ⟨expr, ty⟩ s).map
              (fun r => (Expr.CastExpr r.1.Expr r.1.Typ, r.2))
        | Expr.FunctionAccessExpr fn => some (Expr.FunctionAccessExpr fn, s)
        | Expr.StructAccessExpr struct member vari =>
            (StructAccessExpr.infer (Expr.methods heap fuel) heap ⟨struct, member, vari⟩ s).map
              (fun r => (Expr.StructAccessExpr r.1.Struct r.1.Member r.1.Variable, r.2))
        | Expr.DerefAccessExpr expr ty =>
            (DerefAccessExpr.infer (Expr.methods heap fuel) heap ⟨expr, ty⟩ s).map
              (fun r => (Expr.DerefAccessExpr r.1.Expr r.1.Typ, r.2)) }

/-- A node that is of one of two kinds answers through the interface as its own kind does. -/
instance {A B : Type} [ExprNode A] [ExprNode B] : ExprNode (A ⊕ B) where
  setTypeHint v t :=
    match v with
    | Sum.inl a => (ExprNode.setTypeHint a t).map Sum.inl
    | Sum.inr b => (ExprNode.setTypeHint b t).map Sum.inr
  infer v s :=
    match v with
    | Sum.inl a => (ExprNode.infer a s).map (fun r => (Sum.inl r.1, r.2))
    | Sum.inr b => (ExprNode.infer b s).map (fun r => (Sum.inr r.1, r.2))
  GetType v :=
    match v with
    | Sum.inl a => ExprNode.GetType a
    | Sum.inr b => ExprNode.GetType b

/-! ## Literals and tuple literals of literals -/

/-- The function `tupleOf`: the tuple type of the given types, and the type itself when there
is exactly one. -/
def tupleOf (types : List Ty) : Ty :=
  match types with
  | [t] => t
  | _ => Ty.Tuple types

/-- Modelled from the spec: the literal nodes (declared outside `src/`) and the tuple
literals built from them, with the fields the inference reads and writes: the node of a
numeric literal, the kind and the optional type of a string literal, and the optional type
and the members of a tuple literal. -/
inductive LiteralExpr where
  | NumericLiteral (node : Ark.NumericLiteral)
  | StringLiteral (IsCString : Bool) (Typ : Option Ty)
  | RuneLiteral
  | BoolLiteral
  | TupleLiteral (Typ : Option Ty) (Members : List LiteralExpr)

/-- Modelled from the spec: the method `GetType` of the literal nodes (declared outside
`src/`): the `Type` field of a numeric, a string and a tuple literal, `rune` for a rune
literal and `bool` for a bool literal. -/
def LiteralExpr.GetType : LiteralExpr → Option Ty
  | LiteralExpr.NumericLiteral node => node.GetType
  | LiteralExpr.StringLiteral _ ty => ty
  | LiteralExpr.RuneLiteral => some (Ty.Primitive PRIMITIVE_rune)
  | LiteralExpr.BoolLiteral => some (Ty.Primitive PRIMITIVE_bool)
  | LiteralExpr.TupleLiteral ty _ => ty

/-- The method `setTypeHint` of a literal node: `NumericLiteral.setTypeHint`, the empty
methods of the string, rune and bool literals, and `TupleLiteral.setTypeHint`, which takes a
hint whose actual type is a tuple type as the type of the literal and hands no hint to the
members. -/
def LiteralExpr.setTypeHint : LiteralExpr → Option Ty → LiteralExpr
  | LiteralExpr.NumericLiteral node, t => LiteralExpr.NumericLiteral (node.setTypeHint t)
  | LiteralExpr.StringLiteral isCString ty, t =>
      setTypeHintEmpty (LiteralExpr.StringLiteral isCString ty) t
  | LiteralExpr.RuneLiteral, t => setTypeHintEmpty LiteralExpr.RuneLiteral t
  | LiteralExpr.BoolLiteral, t => setTypeHintEmpty LiteralExpr.BoolLiteral t
  | LiteralExpr.TupleLiteral ty members, t =>
      match t with
      | none => LiteralExpr.TupleLiteral ty members
      | some hint =>
        match hint.ActualType with
        | Ty.Tuple _ => LiteralExpr.TupleLiteral (some hint) members
        | _ => LiteralExpr.TupleLiteral ty members

mutual

/-- The number of nodes of a literal. -/
def LiteralExpr.size : LiteralExpr → Nat
  | LiteralExpr.TupleLiteral _ members => LiteralExpr.sizeList members + 1
  | LiteralExpr.NumericLiteral _ => 1
  | LiteralExpr.StringLiteral _ _ => 1
  | LiteralExpr.RuneLiteral => 1
  | LiteralExpr.BoolLiteral => 1
termination_by structural e => e

/-- The number of nodes of a list of literals. -/
def LiteralExpr.sizeList : List LiteralExpr → Nat
  | [] => 0
  | member :: members => LiteralExpr.size member + LiteralExpr.sizeList members
termination_by structural members => members

end

/-- The loop `for idx, mem := range memberTypes { v.Members[idx].setTypeHint(mem) }` of
`TupleLiteral.infer`, which runs when there are as many members as member types. -/
def hintMembers : List LiteralExpr → List Ty → List LiteralExpr
  | member :: members, memberType :: memberTypes =>
      member.setTypeHint (some memberType) :: hintMembers members memberTypes
  | members, [] => members
  | [], _ :: _ => []

/-- The loop of `TupleLiteral.infer` over the inferred members of a literal without a type:
an error for each member without a type, and the types of the members in order. -/
def collectMemberTypes : List LiteralExpr → TypeInferer → List (Option Ty) × TypeInferer
  | [], s => ([], s)
  | member :: members, s =>
      let s1 :=
        if member.GetType.isNone then s.err "Couldn't infer type of tuple component" else s
      let rest := collectMemberTypes members s1
      (member.GetType :: rest.1, rest.2)

/-- The types of a list when none of them is `nil`. -/
def allTypes : List (Option Ty) → Option (List Ty)
  | [] => some []
  | none :: _ => none
  | some t :: types => (allTypes types).map (fun rest => t :: rest)

/-- The call `tupleOf(members...)` of `TupleLiteral.infer` on types that may be `nil`: the
only member when there is exactly one, `nil` or not, and the tuple type of the members
otherwise. A tuple type with a `nil` member is no value of `Ty`: the outer `none` stands for
it. -/
def tupleOfMembers (types : List (Option Ty)) : Option (Option Ty) :=
  match types with
  | [t] => some t
  | _ => (allTypes types).map (fun tys => some (tupleOf tys))

/-- The member types that `TupleLiteral.infer` reads off the type of the literal: the members
of its actual type when the literal has a type and that is a tuple type, and none otherwise. -/
def tupleMemberTypes : Option Ty → List Ty
  | none => []
  | some t =>
    match t.ActualType with
    | Ty.Tuple tupleMembers => tupleMembers
    | _ => []

/-- Setting a hint does not change the number of nodes of a literal. -/
theorem LiteralExpr.size_setTypeHint (e : LiteralExpr) (t : Option Ty) :
    (e.setTypeHint t).size = e.size := by
  cases e with
  | TupleLiteral ty members =>
      cases t with
      | none => rfl
      | some hint =>
          simp only [LiteralExpr.setTypeHint]
          split <;> simp [LiteralExpr.size]
  | _ => simp [LiteralExpr.setTypeHint, setTypeHintEmpty, LiteralExpr.size]

/-- Hinting the members positionally does not change their number of nodes. -/
theorem LiteralExpr.sizeList_hintMembers :
    ∀ (members : List LiteralExpr) (memberTypes : List Ty),
      LiteralExpr.sizeList (hintMembers members memberTypes) = LiteralExpr.sizeList members
  | [], [] => rfl
  | [], _ :: _ => rfl
  | _ :: _, [] => rfl
  | member :: members, memberType :: memberTypes => by
      simp [hintMembers, LiteralExpr.sizeList, LiteralExpr.size_setTypeHint,
        LiteralExpr.sizeList_hintMembers members memberTypes]

/-- Hinting every member with `nil` does not change their number of nodes. -/
theorem LiteralExpr.sizeList_map_setTypeHint :
    ∀ members : List LiteralExpr,
      LiteralExpr.sizeList (members.map (fun member => member.setTypeHint none))
        = LiteralExpr.sizeList members
  | [] => rfl
  | member :: members => by
      simp [LiteralExpr.sizeList, LiteralExpr.size_setTypeHint,
        LiteralExpr.sizeList_map_setTypeHint members]

mutual

/-- The method `infer` of a literal node, with the builtin string type (declared outside
`src/`) as the parameter `stringType`: the empty methods of the numeric, rune and bool
literals, `StringLiteral.infer`, and `TupleLiteral.infer`. `none` is a panic, or the tuple
type with a `nil` member. -/
def LiteralExpr.infer (stringType : Ty) :
    LiteralExpr → TypeInferer → Option (LiteralExpr × TypeInferer)
  | LiteralExpr.NumericLiteral node, s => some (LiteralExpr.NumericLiteral node, s)
  | LiteralExpr.StringLiteral isCString ty, s =>
      match ty with
      | none =>
          if isCString then
            some (LiteralExpr.StringLiteral isCString
              (some (PointerTo (some (Ty.Primitive PRIMITIVE_u8)))), s)
          else some (LiteralExpr.StringLiteral isCString (some stringType), s)
      | some t => some (LiteralExpr.StringLiteral isCString (some t), s)
  | LiteralExpr.RuneLiteral, s => some (LiteralExpr.RuneLiteral, s)
  | LiteralExpr.BoolLiteral, s => some (LiteralExpr.BoolLiteral, s)
  | LiteralExpr.TupleLiteral ty members, s =>
      let memberTypes : List Ty := tupleMemberTypes ty
      let hinted : List LiteralExpr :=
        if members.length = memberTypes.length then hintMembers members memberTypes
        else members.map (fun member => member.setTypeHint none)
      match LiteralExpr.inferMembers stringType hinted s with
      | none => none
      | some (inferred, s1) =>
        match ty with
        | some t => some (LiteralExpr.TupleLiteral (some t) inferred, s1)
        | none =>
          let collected := collectMemberTypes inferred s1
          match tupleOfMembers collected.1 with
          | none => none
          | some typ => some (LiteralExpr.TupleLiteral typ inferred, collected.2)
termination_by e => 2 * e.size
decreasing_by
  simp only [LiteralExpr.size]
  split
  · rw [LiteralExpr.sizeList_hintMembers]
    omega
  · rw [LiteralExpr.sizeList_map_setTypeHint]
    omega

/-- The loop `for _, mem := range v.Members { mem.infer(s) }` of `TupleLiteral.infer`. -/
def LiteralExpr.inferMembers (stringType : Ty) :
    List LiteralExpr → TypeInferer → Option (List LiteralExpr × TypeInferer)
  | [], s => some ([], s)
  | member :: members, s =>
      match LiteralExpr.infer stringType member s with
      | none => none
      | some (inferred, s1) =>
        match LiteralExpr.inferMembers stringType members s1 with
        | none => none
        | some (rest, s2) => some (inferred :: rest, s2)
termination_by members => 2 * LiteralExpr.sizeList members + 1
decreasing_by
  · simp only [LiteralExpr.sizeList]
    omega
  · simp only [LiteralExpr.sizeList]
    have h : 0 < LiteralExpr.size member := by cases member <;> simp [LiteralExpr.size]
    omega

end

/-- The actual type is a tuple type with exactly one member. -/
def Ty.isTupleOfOne (t : Ty) : Bool :=
  match t.ActualType with
  | Ty.Tuple [_] => true
  | _ => false

mutual

/-- No numeric, string or tuple literal of the tree has a type yet, as before the first
inference. -/
def LiteralExpr.untyped : LiteralExpr → Bool
  | LiteralExpr.NumericLiteral node => node.Typ.isNone
  | LiteralExpr.StringLiteral _ ty => ty.isNone
  | LiteralExpr.RuneLiteral => true
  | LiteralExpr.BoolLiteral => true
  | LiteralExpr.TupleLiteral ty members => ty.isNone && LiteralExpr.untypedList members
termination_by structural e => e

/-- No literal of the list has a type yet. -/
def LiteralExpr.untypedList : List LiteralExpr → Bool
  | [] => true
  | member :: members => LiteralExpr.untyped member && LiteralExpr.untypedList members
termination_by structural members => members

end

/-- The literal, hinted with `nil` and inferred, becomes a literal `e1` of a type `T` that is
no tuple type of one member, nothing is reported, and `e1` hinted with `nil` or with `T` and
inferred again is `e1`, with nothing reported. -/
def LiteralExpr.InfersStably (stringType : Ty) (e : LiteralExpr) : Prop :=
  ∃ (e1 : LiteralExpr) (T : Ty),
    (∀ s, LiteralExpr.infer stringType (e.setTypeHint none) s = some (e1, s)) ∧
    e1.GetType = some T ∧ T.isTupleOfOne = false ∧
    (∀ s, LiteralExpr.infer stringType (e1.setTypeHint none) s = some (e1, s)) ∧
    (∀ s, LiteralExpr.infer stringType (e1.setTypeHint (some T)) s = some (e1, s))

/-- The tuple literal `("a", (1, 2.5))`, before the inference. -/
def nestedTupleLiteral : LiteralExpr :=
  LiteralExpr.TupleLiteral none
    [LiteralExpr.StringLiteral false none,
      LiteralExpr.TupleLiteral none
        [LiteralExpr.NumericLiteral ⟨1, false, none⟩, LiteralExpr.NumericLiteral ⟨0, true, none⟩]]

/-- A builtin string type for the examples: the named type `string` of module 0 over the
array of `u8`. -/
def exampleStringType : Ty :=
  Ty.Named "string" (Ty.Array (Ty.Primitive PRIMITIVE_u8) []) [] 0 []

/-! ## The names of the meta-variants, the function stack and the pass as a whole -/

/-- The method `TypeName` of the three meta-variants, `ParameterType.TypeName`,
`SubstitutionType.TypeName` and `UnresolvedType.TypeName`, on a type that is one of them: the
name, and `unresolved(...)` around the printed name of an unresolved type. -/
def Ty.metaTypeName : (t : Ty) → t.isMetaType = true → String
  | Ty.Parameter name, _ => name
  | Ty.Substitution name _, _ => name
  | Ty.Unresolved name _, _ => "unresolved(" ++ name ++ ")"
  | Ty.Primitive _, h => nomatch h
  | Ty.Struct _ _, h => nomatch h
  | Ty.Named _ _ _ _ _, h => nomatch h
  | Ty.Array _ _, h => nomatch h
  | Ty.ConstantReference _, h => nomatch h
  | Ty.MutableReference _, h => nomatch h
  | Ty.Pointer _, h => nomatch h
  | Ty.PointerToNil, h => nomatch h
  | Ty.Tuple _, h => nomatch h
  | Ty.Interface _ _, h => nomatch h
  | Ty.Enum _ _ _, h => nomatch h
  | Ty.Function _ _ _ _ _, h => nomatch h

/-- The method `TypeInferer.pushFunction`. -/
def TypeInferer.pushFunction (v : TypeInferer) (f : FunctionPtr) : TypeInferer :=
  { v with functionStack := v.functionStack ++ [f], function := some f }

/-- The method `TypeInferer.popFunction`; `none` is the panic `tried to pop empty function
stack`. -/
def TypeInferer.popFunction (v : TypeInferer) : Option TypeInferer :=
  if v.functionStack.length = 0 then none
  else
    let stack := v.functionStack.dropLast
    some { v with functionStack := stack,
                  function := if stack.length = 0 then none else stack.getLast? }

/-- A call of `pushFunction` or of `popFunction`. -/
inductive StackCall where
  | pushFunction (f : FunctionPtr)
  | popFunction
  deriving DecidableEq, Repr

/-- A sequence of calls of `pushFunction` and `popFunction` in order, each on the state the
one before left; `none` when one of them panics. -/
def TypeInferer.calls : List StackCall → TypeInferer → Option TypeInferer
  | [], v => some v
  | StackCall.pushFunction f :: rest, v => TypeInferer.calls rest (v.pushFunction f)
  | StackCall.popFunction :: rest, v =>
      match v.popFunction with
      | none => none
      | some v1 => TypeInferer.calls rest v1

/-- The loop `for _, node := range v.Submodule.Nodes { node.infer(v) }` of
`TypeInferer.Infer`, with the method `infer` that Go dispatches on a node as the parameter
`infer`: each node is inferred on the state the one before left, whatever that state holds;
`none` is a panic of a node. -/
def TypeInferer.inferNodes {N : Type} (infer : N → TypeInferer → Option (N × TypeInferer)) :
    List N → TypeInferer → Option (List N × TypeInferer)
  | [], v => some ([], v)
  | node :: nodes, v =>
      match infer node v with
      | none => none
      | some (inferred, v1) =>
        match TypeInferer.inferNodes infer nodes v1 with
        | none => none
        | some (rest, v2) => some (inferred :: rest, v2)

/-- The method `TypeInferer.Infer` on the top-level nodes of the submodule: the failure flag
is cleared, the nodes are inferred in order, and the pass ends in `os.Exit` when the flag is
set, which the Boolean of the result says. -/
def TypeInferer.Infer {N : Type} (infer : N → TypeInferer → Option (N × TypeInferer))
    (nodes : List N) (v : TypeInferer) : Option (List N × TypeInferer × Bool) :=
  match TypeInferer.inferNodes infer nodes { v with shouldExit := false } with
  | none => none
  | some (inferred, v1) => some (inferred, v1, v1.shouldExit)

/-- The state `after` comes from the state `before` by writing `added` to the log, and its
failure flag is set when the flag of `before` was or when an error is among `added`. -/
def TypeInferer.Records (before after : TypeInferer) (added : List Diagnostic) : Prop :=
  after.log = before.log ++ added ∧
  after.shouldExit = (before.shouldExit || added.any Diagnostic.isError)

/-- A call of a method of the pass. In `parser/inference.go` the fields of a `TypeInferer` are
written in `pushFunction`, `popFunction`, `err` and `Infer` and nowhere else: the `infer`
method of a node changes the pass by calls of these methods only. -/
inductive InfererCall where
  | err (err : String)
  | warn (err : String)
  | pushFunction (f : FunctionPtr)
  | popFunction
  deriving DecidableEq, Repr

/-- One call of a method of the pass; `none` is the panic of `popFunction`. -/
def TypeInferer.call (v : TypeInferer) : InfererCall → Option TypeInferer
  | InfererCall.err err => some (v.err err)
  | InfererCall.warn err => some (v.warn err)
  | InfererCall.pushFunction f => some (v.pushFunction f)
  | InfererCall.popFunction => v.popFunction

/-- Calls of methods of the pass in order, each on the state the one before left. -/
def TypeInferer.callAll : List InfererCall → TypeInferer → Option TypeInferer
  | [], v => some v
  | call :: calls, v =>
      match v.call call with
      | none => none
      | some v1 => TypeInferer.callAll calls v1

/-- The state `after` comes from the state `before` by calls of methods of the pass. -/
def TypeInferer.ByCalls (before after : TypeInferer) : Prop :=
  ∃ calls, TypeInferer.callAll calls before = some after

end Ark

/-! ## Properties of the type model -/

namespace Ark

open Ty PrimitiveType

/-- An operation that a named type hands to its underlying type gives on the actual type of
any type what it gives on the type itself. -/
theorem ActualType_transparent {α : Type} (f : Ty → α)
    (hf : ∀ name ty ps m ms, f (Named name ty ps m ms) = f ty) :
    ∀ t : Ty, f (ActualType t) = f t
  | Named name ty ps m ms => by
      rw [ActualType, hf]
      exact ActualType_transparent f hf ty
  | Primitive _ => rfl
  | Struct _ _ => rfl
  | Ty.Array _ _ => rfl
  | ConstantReference _ => rfl
  | MutableReference _ => rfl
  | Pointer _ => rfl
  | PointerToNil => rfl
  | Tuple _ => rfl
  | Interface _ _ => rfl
  | Enum _ _ _ => rfl
  | Ty.Function _ _ _ _ _ => rfl
  | Parameter _ => rfl
  | Substitution _ _ => rfl
  | Unresolved _ _ => rfl

/-- The actual type of a type is never a named type. -/
theorem ActualType_not_named : ∀ t : Ty, (ActualType t).isNamedType = false
  | Named _ ty _ _ _ => by
      rw [ActualType]
      exact ActualType_not_named ty
  | Primitive _ => rfl
  | Struct _ _ => rfl
  | Ty.Array _ _ => rfl
  | ConstantReference _ => rfl
  | MutableReference _ => rfl
  | Pointer _ => rfl
  | PointerToNil => rfl
  | Tuple _ => rfl
  | Interface _ _ => rfl
  | Enum _ _ _ => rfl
  | Ty.Function _ _ _ _ _ => rfl
  | Parameter _ => rfl
  | Substitution _ _ => rfl
  | Unresolved _ _ => rfl

/-- A variant other than the named type is its own actual type. -/
theorem ActualType_of_not_named (t : Ty) (h : t.isNamedType = false) : ActualType t = t := by
  cases t <;> first | rfl | simp [isNamedType] at h

/-- A variant other than the named type never `Equals` a named type: the type assertion of
its `Equals` fails (or, for a meta-variant, `Equals` panics). -/
theorem Equals_named_of_not_named (v : Ty) (h : v.isNamedType = false) (name : String) (ty : Ty)
    (ps : List String) (m : ModulePtr) (ms : List FunctionPtr) :
    Equals v (some (Named name ty ps m ms)) ≠ some true := by
  cases v <;> simp [Equals, isNamedType] at h ⊢

/-- `CanCastTo` of a named type is `CanCastTo` of its actual type. -/
theorem CanCastTo_named (name : String) (ty : Ty) (ps : List String) (m : ModulePtr)
    (ms : List FunctionPtr) (t : Ty) :
    CanCastTo (Named name ty ps m ms) t = CanCastTo (ActualType (Named name ty ps m ms)) t := by
  rw [CanCastTo]

/-- C1: a named type `Equals` another named type exactly when both have the same owning module
and the same name, whatever their underlying types, parameters and methods; it never panics;
and it never `Equals` a value that is not a named type, nor `nil`. -/
theorem NamedType_Equals_is_nominal (name : String) (ty : Ty) (ps : List String) (m : ModulePtr)
    (ms : List FunctionPtr) :
    (∀ (otherName : String) (otherTy : Ty) (otherPs : List String) (otherM : ModulePtr)
        (otherMs : List FunctionPtr),
      Equals (Named name ty ps m ms) (some (Named otherName otherTy otherPs otherM otherMs))
          = some (decide (m = otherM ∧ name = otherName)) ∧
      (Equals (Named name ty ps m ms) (some (Named otherName otherTy otherPs otherM otherMs))
          = some true ↔ (m = otherM ∧ name = otherName))) ∧
    (∀ t : Ty, t.isNamedType = false → Equals (Named name ty ps m ms) (some t) = some false) ∧
    Equals (Named name ty ps m ms) none = some false := by
  refine ⟨?_, ?_, ?_⟩
  · intro otherName otherTy otherPs otherM otherMs
    have h : Equals (Named name ty ps m ms) (some (Named otherName otherTy otherPs otherM otherMs))
        = some (decide (m = otherM ∧ name = otherName)) := by
      by_cases hm : m = otherM <;> by_cases hn : name = otherName <;> simp [Equals, hm, hn]
    refine ⟨h, ?_⟩
    rw [h]
    simp
  · intro t ht
    cases t <;> simp [Equals, isNamedType] at ht ⊢
  · simp [Equals]

/-- The witness of C1: the named type `Point` of module 1 does not equal its own underlying
struct, and does not equal the structurally identical `Vec` of the same module. -/
theorem NamedType_Equals_is_nominal_witness :
    Equals (Named "Point" (Struct [("x", Primitive PRIMITIVE_s32)] []) [] 1 [])
        (some (Struct [("x", Primitive PRIMITIVE_s32)] [])) = some false ∧
    Equals (Named "Point" (Struct [("x", Primitive PRIMITIVE_s32)] []) [] 1 [])
        (some (Named "Vec" (Struct [("x", Primitive PRIMITIVE_s32)] []) [] 1 [])) = some false :=
  ⟨(NamedType_Equals_is_nominal "Point" (Struct [("x", Primitive PRIMITIVE_s32)] []) [] 1 []).2.1
      (Struct [("x", Primitive PRIMITIVE_s32)] []) rfl,
    by decide⟩

/-- C2, the counterexample: `s8` equals itself, yet a pointer to `s8` `Equals` neither the
constant reference nor the mutable reference to `s8`. -/
theorem PointerType_Equals_reference_counterexample :
    Equals (Primitive PRIMITIVE_s8) (some (Primitive PRIMITIVE_s8)) = some true ∧
    Equals (Pointer (Primitive PRIMITIVE_s8)) (some (ConstantReference (Primitive PRIMITIVE_s8)))
      = some false ∧
    Equals (Pointer (Primitive PRIMITIVE_s8)) (some (MutableReference (Primitive PRIMITIVE_s8)))
      = some false := by
  decide

/-- C2, as amended: for a type `T` that `Equals` itself, the constant reference and the
mutable reference to `T` both `Equals` the pointer to `T`; the pointer to `T` `Equals`
neither reference (its `Equals` accepts a pointer only); and the two references do not
`Equals` each other, in either direction. -/
theorem reference_Equals_pointer_one_way (T : Ty) (h : Equals T (some T) = some true) :
    Equals (ConstantReference T) (some (Pointer T)) = some true ∧
    Equals (MutableReference T) (some (Pointer T)) = some true ∧
    Equals (Pointer T) (some (ConstantReference T)) = some false ∧
    Equals (Pointer T) (some (MutableReference T)) = some false ∧
    Equals (ConstantReference T) (some (MutableReference T)) = some false ∧
    Equals (MutableReference T) (some (ConstantReference T)) = some false := by
  refine ⟨?_, ?_, ?_, ?_, ?_, ?_⟩ <;> simp [Equals, h]

/-- The witness of C2 as amended, at `T = s8`. -/
theorem reference_Equals_pointer_one_way_witness :
    Equals (ConstantReference (Primitive PRIMITIVE_s8)) (some (Pointer (Primitive PRIMITIVE_s8)))
      = some true ∧
    Equals (MutableReference (Primitive PRIMITIVE_s8)) (some (Pointer (Primitive PRIMITIVE_s8)))
      = some true ∧
    Equals (Pointer (Primitive PRIMITIVE_s8)) (some (ConstantReference (Primitive PRIMITIVE_s8)))
      = some false ∧
    Equals (Pointer (Primitive PRIMITIVE_s8)) (some (MutableReference (Primitive PRIMITIVE_s8)))
      = some false ∧
    Equals (ConstantReference (Primitive PRIMITIVE_s8))
      (some (MutableReference (Primitive PRIMITIVE_s8))) = some false ∧
    Equals (MutableReference (Primitive PRIMITIVE_s8))
      (some (ConstantReference (Primitive PRIMITIVE_s8))) = some false :=
  reference_Equals_pointer_one_way (Primitive PRIMITIVE_s8) (by decide)

/-- C3, the counterexample: the tuple type `(s8, s8)`, the array type `[]s8` and the
interface type of the method at address 7 can each be cast to themselves. -/
theorem CanCastTo_self_counterexample :
    CanCastTo (Tuple [Primitive PRIMITIVE_s8, Primitive PRIMITIVE_s8])
      (Tuple [Primitive PRIMITIVE_s8, Primitive PRIMITIVE_s8]) = some true ∧
    CanCastTo (Ty.Array (Primitive PRIMITIVE_s8) []) (Ty.Array (Primitive PRIMITIVE_s8) [])
      = some true ∧
    CanCastTo (Interface [7] []) (Interface [7] []) = some true := by
  refine ⟨?_, ?_, ?_⟩ <;> rw [CanCastTo] <;> decide

/-- C3, as amended: a struct type and a function type can be cast to no type; an array type
can be cast to `t` exactly when the actual type of `t` `Equals` it, a tuple type and an
interface type exactly when they `Equals` the actual type of `t`, and then the actual type of
`t` is an array, a tuple, an interface type; an enum type can be cast to `t` exactly when it
is simple and `t` is integer-like. -/
theorem CanCastTo_of_compound_types :
    (∀ (vars : List (String × Ty)) (attrs : AttrGroup) (t : Ty),
      CanCastTo (Struct vars attrs) t = some false) ∧
    (∀ (attrs : AttrGroup) (ps : List Ty) (ret : Option Ty) (variadic : Bool) (rc : Option Ty)
        (t : Ty), CanCastTo (Ty.Function attrs ps ret variadic rc) t = some false) ∧
    (∀ (mt : Ty) (attrs : AttrGroup) (t : Ty),
      CanCastTo (Ty.Array mt attrs) t = Equals (ActualType t) (some (Ty.Array mt attrs)) ∧
      (CanCastTo (Ty.Array mt attrs) t = some true →
        ∃ mt2 attrs2, ActualType t = Ty.Array mt2 attrs2)) ∧
    (∀ (ms : List Ty) (t : Ty),
      CanCastTo (Tuple ms) t = Equals (Tuple ms) (some (ActualType t)) ∧
      (CanCastTo (Tuple ms) t = some true → ∃ ms2, ActualType t = Tuple ms2)) ∧
    (∀ (fs : List FunctionPtr) (attrs : AttrGroup) (t : Ty),
      CanCastTo (Interface fs attrs) t = Equals (Interface fs attrs) (some (ActualType t)) ∧
      (CanCastTo (Interface fs attrs) t = some true →
        ∃ fs2 attrs2, ActualType t = Interface fs2 attrs2)) ∧
    (∀ (simple : Bool) (members : List (String × Ty × Int)) (attrs : AttrGroup) (t : Ty),
      CanCastTo (Enum simple members attrs) t = some true ↔
        (simple = true ∧ IsIntegerType t = some true)) := by
  refine ⟨?_, ?_, ?_, ?_, ?_, ?_⟩
  · intro vars attrs t
    rw [CanCastTo]
  · intro attrs ps ret variadic rc t
    rw [CanCastTo]
  · intro mt attrs t
    have h : CanCastTo (Ty.Array mt attrs) t = Equals (ActualType t) (some (Ty.Array mt attrs)) := by
      rw [CanCastTo]
    refine ⟨h, ?_⟩
    rw [h]
    generalize ActualType t = a
    cases a <;> simp [Equals]
  · intro ms t
    have h : CanCastTo (Tuple ms) t = Equals (Tuple ms) (some (ActualType t)) := by
      rw [CanCastTo]
    refine ⟨h, ?_⟩
    rw [h]
    generalize ActualType t = a
    cases a <;> simp [Equals]
  · intro fs attrs t
    have h : CanCastTo (Interface fs attrs) t
        = Equals (Interface fs attrs) (some (ActualType t)) := by
      rw [CanCastTo]
    refine ⟨h, ?_⟩
    rw [h]
    generalize ActualType t = a
    cases a <;> simp [Equals]
  · intro simple members attrs t
    rw [CanCastTo]
    cases simple <;> simp

/-- The witness of C3 as amended: the tuple type `(s8, s8)` can be cast to the named type
`Pair` whose underlying type it is, and the actual type of `Pair` is a tuple type. -/
theorem CanCastTo_of_compound_types_witness :
    ∃ ms2, ActualType (Named "Pair" (Tuple [Primitive PRIMITIVE_s8, Primitive PRIMITIVE_s8])
      [] 1 []) = Tuple ms2 :=
  (CanCastTo_of_compound_types.2.2.2.1 [Primitive PRIMITIVE_s8, Primitive PRIMITIVE_s8]
    (Named "Pair" (Tuple [Primitive PRIMITIVE_s8, Primitive PRIMITIVE_s8]) [] 1 [])).2
    (by rw [CanCastTo]; decide)

/-- C4: a primitive kind can be cast to a primitive kind exactly when each of the two is an
integer, a floating-point or the rune kind; the check never panics; `bool` and `void` are
neither castable from nor castable to. -/
theorem PrimitiveType_CanCastTo_primitive (p q : PrimitiveType) :
    CanCastTo (Primitive p) (Primitive q)
      = some ((p.IsIntegerType || p.IsFloatingType || decide (p = PRIMITIVE_rune)) &&
          (q.IsIntegerType || q.IsFloatingType || decide (q = PRIMITIVE_rune))) ∧
    (CanCastTo (Primitive p) (Primitive q) = some true ↔
      ((p.IsIntegerType = true ∨ p.IsFloatingType = true ∨ p = PRIMITIVE_rune) ∧
        (q.IsIntegerType = true ∨ q.IsFloatingType = true ∨ q = PRIMITIVE_rune))) ∧
    CanCastTo (Primitive PRIMITIVE_bool) (Primitive q) = some false ∧
    CanCastTo (Primitive PRIMITIVE_void) (Primitive q) = some false ∧
    CanCastTo (Primitive p) (Primitive PRIMITIVE_bool) = some false ∧
    CanCastTo (Primitive p) (Primitive PRIMITIVE_void) = some false := by
  have key : ∀ a b : PrimitiveType, CanCastTo (Primitive a) (Primitive b)
      = some ((a.IsIntegerType || a.IsFloatingType || decide (a = PRIMITIVE_rune)) &&
          (b.IsIntegerType || b.IsFloatingType || decide (b = PRIMITIVE_rune))) := by
    intro a b
    rw [CanCastTo]
    cases a <;> cases b <;> decide
  refine ⟨key p q, ?_, ?_, ?_, ?_, ?_⟩
  · rw [key]
    simp [or_assoc]
  · rw [key]
    rfl
  · rw [key]
    rfl
  · rw [key]
    cases p <;> rfl
  · rw [key]
    cases p <;> rfl

/-- C5: `ActualType` is a total function on the types built by finitely many constructors
(it returns on every such input); it is idempotent; its result is never a named type; and on
every variant other than the named type it returns the value itself. -/
theorem ActualType_idempotent_never_named (t : Ty) :
    ActualType (ActualType t) = ActualType t ∧
    (ActualType t).isNamedType = false ∧
    (t.isNamedType = false → ActualType t = t) :=
  ⟨ActualType_of_not_named (ActualType t) (ActualType_not_named t), ActualType_not_named t,
    ActualType_of_not_named t⟩

/-- The witness of C5: the actual type of the pointer to the alias `Byte` is that pointer
itself (the alias below the pointer is not peeled). -/
theorem ActualType_idempotent_never_named_witness :
    ActualType (Pointer (Named "Byte" (Primitive PRIMITIVE_u8) [] 1 []))
      = Pointer (Named "Byte" (Primitive PRIMITIVE_u8) [] 1 []) :=
  (ActualType_idempotent_never_named (Pointer (Named "Byte" (Primitive PRIMITIVE_u8) [] 1 []))).2.2
    rfl

/-- C6: for a named type `N` with underlying type `T`, the actual type of `N` is the actual
type of `T`, and `IsIntegerType`, `IsFloatingType`, `IsSigned`, `IsVoidType`,
`LevelsOfIndirection`, `Attrs` and `CanCastTo` (to every target) give on `N` what they give on
the actual type of `N` (a panic included); `Equals` differs: `N` equals itself, and its actual
type does not equal `N`. -/
theorem NamedType_alias_transparency (name : String) (T : Ty) (ps : List String) (m : ModulePtr)
    (ms : List FunctionPtr) :
    ActualType (Named name T ps m ms) = ActualType T ∧
    IsIntegerType (Named name T ps m ms) = IsIntegerType (ActualType (Named name T ps m ms)) ∧
    IsFloatingType (Named name T ps m ms) = IsFloatingType (ActualType (Named name T ps m ms)) ∧
    IsSigned (Named name T ps m ms) = IsSigned (ActualType (Named name T ps m ms)) ∧
    IsVoidType (Named name T ps m ms) = IsVoidType (ActualType (Named name T ps m ms)) ∧
    LevelsOfIndirection (Named name T ps m ms)
      = LevelsOfIndirection (ActualType (Named name T ps m ms)) ∧
    Attrs (Named name T ps m ms) = Attrs (ActualType (Named name T ps m ms)) ∧
    (∀ x : Ty, CanCastTo (Named name T ps m ms) x
      = CanCastTo (ActualType (Named name T ps m ms)) x) ∧
    Equals (Named name T ps m ms) (some (Named name T ps m ms)) = some true ∧
    Equals (ActualType (Named name T ps m ms)) (some (Named name T ps m ms)) ≠ some true := by
  refine ⟨rfl, ?_, ?_, ?_, ?_, ?_, ?_, ?_, ?_, ?_⟩
  · exact (ActualType_transparent IsIntegerType (fun _ _ _ _ _ => rfl) _).symm
  · exact (ActualType_transparent IsFloatingType (fun _ _ _ _ _ => rfl) _).symm
  · exact (ActualType_transparent IsSigned (fun _ _ _ _ _ => rfl) _).symm
  · exact (ActualType_transparent IsVoidType (fun _ _ _ _ _ => rfl) _).symm
  · exact (ActualType_transparent LevelsOfIndirection (fun _ _ _ _ _ => rfl) _).symm
  · exact (ActualType_transparent Attrs (fun _ _ _ _ _ => rfl) _).symm
  · intro x
    exact CanCastTo_named name T ps m ms x
  · simp [Equals]
  · exact Equals_named_of_not_named _ (ActualType_not_named _) name T ps m ms

/-- C7: a numeric literal hinted with a type whose actual type is a primitive of the
literal's own kind (a floating-point primitive for a float literal, an integer primitive for
an integer literal) takes the hint itself as its type, and keeps its value and its kind. -/
theorem NumericLiteral_setTypeHint_adopts_hint (v : NumericLiteral) (t : Ty) (p : PrimitiveType)
    (hactual : ActualType t = Primitive p)
    (hkind : if v.IsFloat = true then p.IsFloatingType = true else p.IsIntegerType = true) :
    (v.setTypeHint (some t)).Typ = some t ∧
    (v.setTypeHint (some t)).IntValue = v.IntValue ∧
    (v.setTypeHint (some t)).IsFloat = v.IsFloat := by
  unfold NumericLiteral.setTypeHint
  simp only [hactual]
  cases hf : v.IsFloat <;> simp only [hf] at hkind <;> cases p <;>
    simp_all [PrimitiveType.IsFloatingType, PrimitiveType.IsIntegerType]

/-- The witness of C7: the integer literal `5` hinted with the alias `Byte` of `u8` is typed
`Byte`, not `u8`. -/
theorem NumericLiteral_setTypeHint_adopts_hint_witness :
    (NumericLiteral.setTypeHint ⟨5, false, none⟩
      (some (Named "Byte" (Primitive PRIMITIVE_u8) [] 1 []))).Typ
      = some (Named "Byte" (Primitive PRIMITIVE_u8) [] 1 []) :=
  (NumericLiteral_setTypeHint_adopts_hint ⟨5, false, none⟩
    (Named "Byte" (Primitive PRIMITIVE_u8) [] 1 []) PRIMITIVE_u8 rfl (by decide)).1

/-- C8, the counterexample: the integer literal `5` hinted with `f32` is typed `f32`, not
with the default integer type. -/
theorem NumericLiteral_setTypeHint_float_hint_counterexample :
    (NumericLiteral.setTypeHint ⟨5, false, none⟩ (some (Primitive PRIMITIVE_f32))).Typ
      = some (Primitive PRIMITIVE_f32) ∧
    (NumericLiteral.setTypeHint ⟨5, false, none⟩ (some (Primitive PRIMITIVE_f32))).Typ
      ≠ some (Primitive PRIMITIVE_int) := by
  constructor
  · rfl
  · intro h
    have h2 : some (Primitive PRIMITIVE_f32) = some (Primitive PRIMITIVE_int) := h
    cases h2

/-- C8, as amended: an integer literal gets the default integer type `int` when the hint is
`nil` or its actual type is neither an integer nor a floating-point primitive (an integer
literal hinted with a floating-point primitive keeps that hint); a float literal gets `f64`
when the hint is `nil` or its actual type is not a floating-point primitive, so also when the
hint is an integer primitive. -/
theorem NumericLiteral_setTypeHint_default (v : NumericLiteral) (t : Option Ty) :
    (v.IsFloat = false →
      (∀ p : PrimitiveType, t.map ActualType = some (Primitive p) →
        p.IsIntegerType = false ∧ p.IsFloatingType = false) →
      (v.setTypeHint t).Typ = some (Primitive PRIMITIVE_int)) ∧
    (v.IsFloat = true →
      (∀ p : PrimitiveType, t.map ActualType = some (Primitive p) → p.IsFloatingType = false) →
      (v.setTypeHint t).Typ = some (Primitive PRIMITIVE_f64)) := by
  constructor
  · intro hf h
    unfold NumericLiteral.setTypeHint
    cases t with
    | none => simp [hf]
    | some ty =>
      simp only [Option.map_some'] at h
      simp only [hf]
      generalize ActualType ty = a at h
      cases a with
      | Primitive q =>
        have hq := h q rfl
        cases q <;> simp_all [PrimitiveType.IsFloatingType, PrimitiveType.IsIntegerType]
      | _ => simp
  · intro hf h
    unfold NumericLiteral.setTypeHint
    cases t with
    | none => simp [hf]
    | some ty =>
      simp only [Option.map_some'] at h
      simp only [hf]
      generalize ActualType ty = a at h
      cases a with
      | Primitive q =>
        have hq := h q rfl
        cases q <;> simp_all [PrimitiveType.IsFloatingType, PrimitiveType.IsIntegerType]
      | _ => simp

/-- The witness of C8 as amended: the integer literal `5` hinted with `bool` is typed `int`,
and the float literal hinted with `s32` is typed `f64`. -/
theorem NumericLiteral_setTypeHint_default_witness :
    (NumericLiteral.setTypeHint ⟨5, false, none⟩ (some (Primitive PRIMITIVE_bool))).Typ
      = some (Primitive PRIMITIVE_int) ∧
    (NumericLiteral.setTypeHint ⟨0, true, none⟩ (some (Primitive PRIMITIVE_s32))).Typ
      = some (Primitive PRIMITIVE_f64) :=
  ⟨(NumericLiteral_setTypeHint_default ⟨5, false, none⟩ (some (Primitive PRIMITIVE_bool))).1 rfl
      (by
        intro p hp
        have hp2 : some (Primitive PRIMITIVE_bool) = some (Primitive p) := hp
        cases hp2
        exact ⟨rfl, rfl⟩),
    (NumericLiteral_setTypeHint_default ⟨0, true, none⟩ (some (Primitive PRIMITIVE_s32))).2 rfl
      (by
        intro p hp
        have hp2 : some (Primitive PRIMITIVE_s32) = some (Primitive p) := hp
        cases hp2
        rfl)⟩

/-! ## Properties of the check of numeric literals -/

/-- With enough fuel, `k` is below the number of binary digits of `n` exactly when
`2 ^ k ≤ n`. -/
theorem lt_bitLenAux_iff : ∀ (fuel n : Nat), n ≤ fuel → ∀ k : Nat,
    (k < bitLenAux fuel n ↔ 2 ^ k ≤ n) := by
  intro fuel
  induction fuel with
  | zero =>
    intro n hn k
    have h0 : n = 0 := Nat.le_zero.mp hn
    subst h0
    simp [bitLenAux]
  | succ fuel ih =>
    intro n hn k
    by_cases h0 : n = 0
    · subst h0
      simp [bitLenAux]
    · have hhalf : n / 2 ≤ fuel := by omega
      rw [bitLenAux, if_neg h0]
      cases k with
      | zero =>
        simp
        omega
      | succ k =>
        rw [Nat.succ_lt_succ_iff, ih (n / 2) hhalf k, Nat.le_div_iff_mul_le (by decide : 0 < 2),
          pow_succ]

/-- The bit length of `x` exceeds `k` exactly when the magnitude of `x` is at least `2 ^ k`. -/
theorem lt_BitLen_iff (x : Int) (k : Nat) : k < BitLen x ↔ 2 ^ k ≤ x.natAbs :=
  lt_bitLenAux_iff x.natAbs x.natAbs (Nat.le_refl _) k

/-- Reporting a warning changes the sink. -/
theorem SemanticAnalyzer.Warn_ne (s : SemanticAnalyzer) (msg : String) : s.Warn msg ≠ s := by
  intro h
  have hlen := congrArg (fun r => r.diagnostics.length) h
  simp [SemanticAnalyzer.Warn] at hlen

/-- A type for which a width is looked up is an integer primitive. -/
theorem literalBits_integer (p : PrimitiveType) (w : Nat)
    (hw : literalBits (Primitive p) = some w) :
    p.IsIntegerType = true ∧ p.IsFloatingType = false := by
  cases p <;> simp [literalBits] at hw <;> exact ⟨rfl, rfl⟩

/-- The check of an integer literal whose type has an integer primitive of looked-up width `w`
as its actual type: no panic, no error, and the overflow warning exactly when the bit length
of the value exceeds `w`. -/
theorem CheckNumericLiteral_of_integer (s : SemanticAnalyzer) (n : Int) (ty : Ty)
    (p : PrimitiveType) (w : Nat) (hactual : ActualType ty = Primitive p)
    (hw : literalBits (Primitive p) = some w) :
    CheckNumericLiteral s ⟨n, false, some ty⟩
      = some (if w < BitLen n then s.Warn "Integer overflows %s" else s) := by
  obtain ⟨hint, hfloat⟩ := literalBits_integer p w hw
  have h1 : IsIntegerType ty = some true := by
    rw [← ActualType_transparent IsIntegerType (fun _ _ _ _ _ => rfl) ty, hactual]
    simp [Ty.IsIntegerType, hint]
  have h2 : IsFloatingType ty = some false := by
    rw [← ActualType_transparent IsFloatingType (fun _ _ _ _ _ => rfl) ty, hactual]
    simp [Ty.IsFloatingType, hfloat]
  simp only [CheckNumericLiteral, h1, h2, hactual, hw]
  by_cases hlt : w < BitLen n <;> simp [hlt]

/-- C9, the counterexample: for `x: s8 = 200` inference types the literal `s8`; its magnitude
is at least `2 ^ 7`, beyond the signed range of 8 bits; and the check of the literal reports
nothing, neither warning nor error. -/
theorem CheckNumericLiteral_s8_200_counterexample :
    VariableDecl.infer
        (⟨⟨"x", some (Primitive PRIMITIVE_s8)⟩, some ⟨200, false, none⟩⟩ :
          VariableDecl NumericLiteral)
        ⟨[], none, false, []⟩
      = some (⟨⟨"x", some (Primitive PRIMITIVE_s8)⟩,
          some ⟨200, false, some (Primitive PRIMITIVE_s8)⟩⟩, ⟨[], none, false, []⟩) ∧
    2 ^ (8 - 1) ≤ (200 : Int).natAbs ∧
    CheckNumericLiteral ⟨[]⟩ ⟨200, false, some (Primitive PRIMITIVE_s8)⟩ = some ⟨[]⟩ := by
  refine ⟨rfl, by decide, by decide⟩

/-- C9, as amended: for an integer literal typed with a signed fixed-width integer primitive
(or an alias of one) of width `w`, one of 8, 16, 32, 64 and 128, the check reports the
overflow warning and no error when the magnitude is at least `2 ^ w`, and reports nothing
when it is below `2 ^ w`: the sign bit is not set aside. For `x: s8 = 200` inference types
the literal `s8` and the check reports nothing; for `x: s8 = 256` it reports the warning. -/
theorem CheckNumericLiteral_signed_overflow (s : SemanticAnalyzer) (n : Int) (ty : Ty)
    (p : PrimitiveType) (w : Nat) (hactual : ActualType ty = Primitive p)
    (hsigned : p.IsSigned = true) (hfixed : p ≠ PRIMITIVE_int)
    (hw : literalBits (Primitive p) = some w) :
    (w = 8 ∨ w = 16 ∨ w = 32 ∨ w = 64 ∨ w = 128) ∧
    (2 ^ w ≤ n.natAbs →
      CheckNumericLiteral s ⟨n, false, some ty⟩ = some (s.Warn "Integer overflows %s")) ∧
    (n.natAbs < 2 ^ w → CheckNumericLiteral s ⟨n, false, some ty⟩ = some s) ∧
    (VariableDecl.infer
        (⟨⟨"x", some (Primitive PRIMITIVE_s8)⟩, some ⟨200, false, none⟩⟩ :
          VariableDecl NumericLiteral)
        ⟨[], none, false, []⟩
      = some (⟨⟨"x", some (Primitive PRIMITIVE_s8)⟩,
          some ⟨200, false, some (Primitive PRIMITIVE_s8)⟩⟩, ⟨[], none, false, []⟩)) ∧
    CheckNumericLiteral ⟨[]⟩ ⟨200, false, some (Primitive PRIMITIVE_s8)⟩ = some ⟨[]⟩ ∧
    CheckNumericLiteral ⟨[]⟩ ⟨256, false, some (Primitive PRIMITIVE_s8)⟩
      = some ⟨[Diagnostic.warning "Integer overflows %s"]⟩ := by
  refine ⟨?_, ?_, ?_, rfl, by decide, by decide⟩
  · cases p <;> simp_all [literalBits, PrimitiveType.IsSigned]
  · intro h
    rw [CheckNumericLiteral_of_integer s n ty p w hactual hw, if_pos ((lt_BitLen_iff n w).mpr h)]
  · intro h
    rw [CheckNumericLiteral_of_integer s n ty p w hactual hw,
      if_neg (fun hlt => absurd ((lt_BitLen_iff n w).mp hlt) (Nat.not_le.mpr h))]

/-- The witness of C9 as amended: the literal `-300` typed with the alias `Small` of `s8`
has a magnitude of at least `2 ^ 8`, and its check on the empty sink reports the warning. -/
theorem CheckNumericLiteral_signed_overflow_witness :
    CheckNumericLiteral ⟨[]⟩ ⟨-300, false, some (Named "Small" (Primitive PRIMITIVE_s8) [] 1 [])⟩
      = some (SemanticAnalyzer.Warn ⟨[]⟩ "Integer overflows %s") :=
  (CheckNumericLiteral_signed_overflow ⟨[]⟩ (-300) (Named "Small" (Primitive PRIMITIVE_s8) [] 1 [])
    PRIMITIVE_s8 8 rfl rfl (by decide) rfl).2.1 (by decide)

/-- C10: for an integer literal of value `n` whose type has as its actual type an integer
primitive of looked-up width `w` (8, 16, 32, 64 or 128 for the fixed-width primitives, signed
and unsigned alike, and 9000 for `int` and `uint`), the check never panics and never reports
an error, and it reports the overflow warning exactly when the bit length of `n` exceeds `w`,
that is when the magnitude of `n` is at least `2 ^ w`; so for `int` and `uint` it reports
nothing while the magnitude is below `2 ^ 9000`. -/
theorem CheckNumericLiteral_overflow_iff_bitlen (s : SemanticAnalyzer) (n : Int) (ty : Ty)
    (p : PrimitiveType) (w : Nat) (hactual : ActualType ty = Primitive p)
    (hw : literalBits (Primitive p) = some w) :
    CheckNumericLiteral s ⟨n, false, some ty⟩
      = some (if w < BitLen n then s.Warn "Integer overflows %s" else s) ∧
    (CheckNumericLiteral s ⟨n, false, some ty⟩ = some (s.Warn "Integer overflows %s")
      ↔ w < BitLen n) ∧
    (CheckNumericLiteral s ⟨n, false, some ty⟩ = some s ↔ ¬ w < BitLen n) ∧
    (w < BitLen n ↔ 2 ^ w ≤ n.natAbs) ∧
    (literalBits (Primitive PRIMITIVE_s8) = some 8 ∧ literalBits (Primitive PRIMITIVE_u8) = some 8 ∧
      literalBits (Primitive PRIMITIVE_s16) = some 16 ∧
      literalBits (Primitive PRIMITIVE_u16) = some 16 ∧
      literalBits (Primitive PRIMITIVE_s32) = some 32 ∧
      literalBits (Primitive PRIMITIVE_u32) = some 32 ∧
      literalBits (Primitive PRIMITIVE_s64) = some 64 ∧
      literalBits (Primitive PRIMITIVE_u64) = some 64 ∧
      literalBits (Primitive PRIMITIVE_s128) = some 128 ∧
      literalBits (Primitive PRIMITIVE_u128) = some 128 ∧
      literalBits (Primitive PRIMITIVE_int) = some 9000 ∧
      literalBits (Primitive PRIMITIVE_uint) = some 9000) ∧
    ((p = PRIMITIVE_int ∨ p = PRIMITIVE_uint) → n.natAbs < 2 ^ 9000 →
      CheckNumericLiteral s ⟨n, false, some ty⟩ = some s) := by
  have hcheck := CheckNumericLiteral_of_integer s n ty p w hactual hw
  refine ⟨hcheck, ?_, ?_, lt_BitLen_iff n w, ?_, ?_⟩
  · rw [hcheck]
    by_cases hlt : w < BitLen n
    · simp [hlt]
    · simp only [hlt, if_false, iff_false]
      intro h
      exact SemanticAnalyzer.Warn_ne s _ (Option.some.inj h).symm
  · rw [hcheck]
    by_cases hlt : w < BitLen n
    · simp only [hlt, if_true, not_true, iff_false]
      intro h
      exact SemanticAnalyzer.Warn_ne s _ (Option.some.inj h)
    · simp [hlt]
  · exact ⟨rfl, rfl, rfl, rfl, rfl, rfl, rfl, rfl, rfl, rfl, rfl, rfl⟩
  · intro hp hn
    have hw9000 : w = 9000 := by
      rcases hp with hp | hp <;> subst hp <;> simp [literalBits] at hw <;> exact hw.symm
    subst hw9000
    rw [hcheck, if_neg (fun hlt => absurd ((lt_BitLen_iff n 9000).mp hlt) (Nat.not_le.mpr hn))]

/-- The witness of C10: the literal `65535` typed `u16` is checked without a diagnostic, and
the literal `65536` typed `u16` gets the overflow warning. -/
theorem CheckNumericLiteral_overflow_iff_bitlen_witness :
    CheckNumericLiteral ⟨[]⟩ ⟨65535, false, some (Primitive PRIMITIVE_u16)⟩
      = some (if 16 < BitLen 65535 then SemanticAnalyzer.Warn ⟨[]⟩ "Integer overflows %s"
          else ⟨[]⟩) ∧
    (16 < BitLen 65536 ↔ 2 ^ 16 ≤ (65536 : Int).natAbs) :=
  ⟨(CheckNumericLiteral_overflow_iff_bitlen ⟨[]⟩ 65535 (Primitive PRIMITIVE_u16) PRIMITIVE_u16 16
      rfl rfl).1,
    (CheckNumericLiteral_overflow_iff_bitlen ⟨[]⟩ 65536 (Primitive PRIMITIVE_u16) PRIMITIVE_u16 16
      rfl rfl).2.2.2.1⟩

/-! ## Properties of the checks of statements and calls -/

/-- Reporting an error changes the sink. -/
theorem SemanticAnalyzer.Err_ne (s : SemanticAnalyzer) (msg : String) : s.Err msg ≠ s := by
  intro h
  have hlen := congrArg (fun r => r.diagnostics.length) h
  simp [SemanticAnalyzer.Err] at hlen

/-- C11: in a function whose declared return type `R` answers `isVoid` to `Equals(void)`, the
check of a bare return reports an error exactly when `isVoid` is false; the check of a return
with a value reports an error when `isVoid` is true, whatever the value, and otherwise
exactly when the type of the value does not `Equals` `R`; in all these cases the check
returns, with at most that one error. -/
theorem CheckReturnStat_error_iff {L : Type} [ExprNode L] (heap : FunctionHeap) (v : TypeCheck)
    (s : SemanticAnalyzer) (fn : FunctionPtr) (R : Ty) (isVoid : Bool)
    (hfn : v.Function = some fn) (hR : (heap fn).Typ.Return = some R)
    (hvoid : R.Equals (some (Primitive PRIMITIVE_void)) = some isVoid) :
    (CheckReturnStat heap v s (⟨none⟩ : ReturnStat L)
        = some (if isVoid then s
            else s.Err "Cannot return void from function `%s` of type `%s`") ∧
      (CheckReturnStat heap v s (⟨none⟩ : ReturnStat L) = some s ↔ isVoid = true)) ∧
    (∀ value : Expr L, isVoid = true →
      CheckReturnStat heap v s ⟨some value⟩
        = some (s.Err "Cannot return expression from void function")) ∧
    (∀ (value : Expr L) (valueType : Ty) (equal : Bool), isVoid = false →
      value.GetType heap = some (some valueType) → valueType.Equals (some R) = some equal →
      CheckReturnStat heap v s ⟨some value⟩
          = some (if equal then s
              else s.Err
                "Cannot return expression of type `%s` from function `%s` of type `%s`") ∧
        (CheckReturnStat heap v s ⟨some value⟩ = some s ↔ equal = true)) := by
  refine ⟨?_, ?_, ?_⟩
  · have h : CheckReturnStat heap v s (⟨none⟩ : ReturnStat L)
        = some (if isVoid then s
            else s.Err "Cannot return void from function `%s` of type `%s`") := by
      simp only [CheckReturnStat, hfn, hR, hvoid]
      cases isVoid <;> rfl
    refine ⟨h, ?_⟩
    rw [h]
    cases isVoid
    · simp only [Bool.false_eq_true, if_false, iff_false]
      intro h2
      exact SemanticAnalyzer.Err_ne s _ (Option.some.inj h2)
    · simp
  · intro value hv
    subst hv
    simp only [CheckReturnStat, hfn, hR, hvoid]
  · intro value valueType equal hv hty heq
    subst hv
    have h : CheckReturnStat heap v s ⟨some value⟩
        = some (if equal then s
            else s.Err
              "Cannot return expression of type `%s` from function `%s` of type `%s`") := by
      simp only [CheckReturnStat, hfn, hR, hvoid, Expr.typeForCall, hty, heq]
      cases equal <;> rfl
    refine ⟨h, ?_⟩
    rw [h]
    cases equal
    · simp only [Bool.false_eq_true, if_false, iff_false]
      intro h2
      exact SemanticAnalyzer.Err_ne s _ (Option.some.inj h2)
    · simp

/-- The witness of C11: `return 5;` in the function `f`, declared to return `void`, is an
error. -/
theorem CheckReturnStat_error_iff_witness :
    CheckReturnStat voidFunctionHeap ⟨[0]⟩ ⟨[]⟩
        ⟨some (integerLiteral 5 (Primitive PRIMITIVE_int))⟩
      = some (SemanticAnalyzer.Err ⟨[]⟩ "Cannot return expression from void function") :=
  (CheckReturnStat_error_iff voidFunctionHeap ⟨[0]⟩ ⟨[]⟩ 0 (Primitive PRIMITIVE_void) true
    rfl rfl (by decide)).2.1 (integerLiteral 5 (Primitive PRIMITIVE_int)) rfl

/-- C12, on the code: the inference of a return statement outside every function panics,
whatever the statement: the call of `err` sets the failure flag and leaves the current
function `nil`, and the code then reads `s.function.Type` of that `nil` function. -/
theorem ReturnStat_infer_outside_function_panics {L : Type} (M : ExprMethods L)
    (heap : FunctionHeap) (v : ReturnStat L) (s : TypeInferer) (h : s.function = none) :
    (s.err "Return statement must be in a function").shouldExit = true ∧
    (s.err "Return statement must be in a function").function = none ∧
    ReturnStat.infer M heap v s = none := by
  have herr : (s.err "Return statement must be in a function").function = none := h
  refine ⟨rfl, herr, ?_⟩
  unfold ReturnStat.infer
  simp only [h, Option.isNone_none, if_true, herr]

/-- The witness of C12: `return 5;` outside every function, in the starting state. -/
theorem ReturnStat_infer_outside_function_panics_witness :
    ReturnStat.infer (ExprMethods.idle NumericLiteral) voidFunctionHeap
      ⟨some (integerLiteral 5 (Primitive PRIMITIVE_int))⟩ TypeInferer.start = none :=
  (ReturnStat_infer_outside_function_panics (ExprMethods.idle NumericLiteral) voidFunctionHeap
    ⟨some (integerLiteral 5 (Primitive PRIMITIVE_int))⟩ TypeInferer.start rfl).2.2

/-- The loop of `CheckCallExpr` panics on the first argument past the parameters of a function
that is not variadic. -/
theorem checkArguments_surplus_panics {L : Type} [ExprNode L] (heap : FunctionHeap)
    (fnType : FunctionType) (c : Bool) (hvar : fnType.IsVariadic = false) :
    ∀ (args : List (Expr L)) (i : Nat) (s : SemanticAnalyzer),
      i ≤ fnType.Parameters.length → fnType.Parameters.length < i + args.length →
      checkArguments heap fnType c i args s = none := by
  intro args
  induction args with
  | nil =>
    intro i s hle hlt
    simp at hlt
    omega
  | cons arg args ih =>
    intro i s hle hlt
    rw [checkArguments]
    by_cases hi : i ≥ fnType.Parameters.length
    · simp [hi, hvar]
    · have hrec : ∀ s2, checkArguments heap fnType c (i + 1) args s2 = none := by
        intro s2
        apply ih
        · omega
        · simp at hlt
          omega
      simp only [hi, if_false]
      split
      · split <;> simp [hrec]
      · rfl

/-- C13, on the code: the check of a call with more arguments than parameters to a function
that is not variadic panics (after the error for too many arguments was reported): the loop
over the arguments reaches `panic("woah")`, or panics before. -/
theorem CheckCallExpr_too_many_arguments_panics {L : Type} [ExprNode L] (heap : FunctionHeap)
    (same : Ty → Ty → Option Bool) (s : SemanticAnalyzer) (expr : CallExpr L) (callee : Expr L)
    (calleeType : Option Ty) (fnType : FunctionType)
    (hcallee : expr.Function = some callee) (htype : callee.GetType heap = some calleeType)
    (hfn : asFunctionType calleeType = some fnType) (hvar : fnType.IsVariadic = false)
    (hmany : fnType.Parameters.length < expr.Arguments.length) :
    CheckCallExpr heap same s expr = none := by
  have hloop : ∀ s2, checkArguments heap fnType (fnType.attrs.Contains "c") 0 expr.Arguments s2
      = none := by
    intro s2
    apply checkArguments_surplus_panics heap fnType _ hvar
    · omega
    · omega
  simp only [CheckCallExpr, hcallee, htype, hfn]
  split
  · rfl
  · split
    · rfl
    · simp [hloop]

/-- The witness of C13: the call `f(1)` of the function `f`, which has no parameter and is not
variadic. -/
theorem CheckCallExpr_too_many_arguments_panics_witness :
    CheckCallExpr voidFunctionHeap (fun _ _ => some true) ⟨[]⟩
      ⟨some (Expr.FunctionAccessExpr (some 0)), [integerLiteral 1 (Primitive PRIMITIVE_int)],
        none⟩ = none :=
  CheckCallExpr_too_many_arguments_panics voidFunctionHeap (fun _ _ => some true) ⟨[]⟩
    ⟨some (Expr.FunctionAccessExpr (some 0)), [integerLiteral 1 (Primitive PRIMITIVE_int)], none⟩
    (Expr.FunctionAccessExpr (some 0))
    (some (Ty.Function [] [] (some (Primitive PRIMITIVE_void)) false none))
    ⟨[], [], some (Primitive PRIMITIVE_void), false, none⟩ rfl rfl rfl rfl (by decide)

/-- The promotion of a typed variadic argument, by its actual type. -/
theorem promoteArgument_of_typed {L : Type} [ExprNode L] (heap : FunctionHeap) (arg : Expr L)
    (ty : Ty) (hty : arg.GetType heap = some (some ty)) :
    (ty.ActualType = Primitive PRIMITIVE_f32 →
      promoteArgument heap arg = some (Expr.CastExpr arg (some (Primitive PRIMITIVE_f64)))) ∧
    ((ty.ActualType = Primitive PRIMITIVE_s8 ∨ ty.ActualType = Primitive PRIMITIVE_s16) →
      promoteArgument heap arg = some (Expr.CastExpr arg (some (Primitive PRIMITIVE_int)))) ∧
    ((ty.ActualType = Primitive PRIMITIVE_u8 ∨ ty.ActualType = Primitive PRIMITIVE_u16) →
      promoteArgument heap arg = some (Expr.CastExpr arg (some (Primitive PRIMITIVE_uint)))) ∧
    ((ty.ActualType ≠ Primitive PRIMITIVE_f32 ∧ ty.ActualType ≠ Primitive PRIMITIVE_s8 ∧
        ty.ActualType ≠ Primitive PRIMITIVE_s16 ∧ ty.ActualType ≠ Primitive PRIMITIVE_u8 ∧
        ty.ActualType ≠ Primitive PRIMITIVE_u16) →
      promoteArgument heap arg = some arg) := by
  simp only [promoteArgument, Expr.typeForCall, hty]
  refine ⟨?_, ?_, ?_, ?_⟩
  · intro h
    rw [h]
  · intro h
    rcases h with h | h <;> rw [h]
  · intro h
    rcases h with h | h <;> rw [h]
  · intro h
    obtain ⟨h1, h2, h3, h4, h5⟩ := h
    split <;> first | rfl | contradiction

/-- The loop of `CheckCallExpr` on a variadic function with the attribute `c`, when every
argument has a type that `Equals` can compare with the parameters: the loop returns as many
arguments as it got, those within the parameters as they were and the others promoted. -/
theorem checkArguments_variadic {L : Type} [ExprNode L] (heap : FunctionHeap)
    (fnType : FunctionType) (hvar : fnType.IsVariadic = true) :
    ∀ (args : List (Expr L)) (i : Nat) (s : SemanticAnalyzer),
      (∀ arg ∈ args, ∃ ty, arg.GetType heap = some (some ty) ∧
        ∀ par ∈ fnType.Parameters, (ty.Equals (some par)).isSome = true) →
      ∃ (r : List (Expr L)) (s2 : SemanticAnalyzer),
        checkArguments heap fnType true i args s = some (r, s2) ∧ r.length = args.length ∧
        ∀ (j : Nat) (arg : Expr L), args.get? j = some arg →
          r.get? j = if i + j < fnType.Parameters.length then some arg
            else promoteArgument heap arg := by
  intro args
  induction args with
  | nil =>
    intro i s _
    exact ⟨[], s, rfl, rfl, fun j arg h => by simp at h⟩
  | cons arg args ih =>
    intro i s hargs
    obtain ⟨ty, hty, heq⟩ := hargs arg (List.mem_cons_self _ _)
    have hrest : ∀ a ∈ args, ∃ ty, a.GetType heap = some (some ty) ∧
        ∀ par ∈ fnType.Parameters, (ty.Equals (some par)).isSome = true :=
      fun a ha => hargs a (List.mem_cons_of_mem _ ha)
    by_cases hi : i ≥ fnType.Parameters.length
    · have hpromoted : ∃ promoted, promoteArgument heap arg = some promoted := by
        simp only [promoteArgument, Expr.typeForCall, hty]
        split <;> exact ⟨_, rfl⟩
      obtain ⟨promoted, hp⟩ := hpromoted
      obtain ⟨r, s2, hr, hlen, hget⟩ := ih (i + 1) s hrest
      refine ⟨promoted :: r, s2, ?_, by simp [hlen], ?_⟩
      · rw [checkArguments]
        simp [hi, hvar, hp, hr]
      · intro j a ha
        cases j with
        | zero =>
          simp at ha
          subst ha
          have hnot : ¬ i < fnType.Parameters.length := by omega
          simp [hnot, hp]
        | succ j =>
          simp at ha
          have h2 := hget j a (by simpa using ha)
          have hidx : i + (j + 1) = i + 1 + j := by omega
          simpa [hidx] using h2
    · have hlt : i < fnType.Parameters.length := by omega
      obtain ⟨par, hpar⟩ : ∃ par, fnType.Parameters.get? i = some par := by
        rw [List.get?_eq_get hlt]
        exact ⟨_, rfl⟩
      have hmem : par ∈ fnType.Parameters := List.get?_mem hpar
      have hpar2 : fnType.Parameters[i]? = some par := by simpa using hpar
      obtain ⟨b, hb⟩ : ∃ b, ty.Equals (some par) = some b :=
        Option.isSome_iff_exists.mp (heq par hmem)
      cases b with
      | true =>
        obtain ⟨r, s2, hr, hlen, hget⟩ := ih (i + 1) s hrest
        refine ⟨arg :: r, s2, ?_, by simp [hlen], ?_⟩
        · rw [checkArguments]
          simp [hi, hpar2, Expr.typeForCall, hty, hb, hr]
        · intro j a ha
          cases j with
          | zero =>
            simp at ha
            subst ha
            simp [hlt]
          | succ j =>
            simp at ha
            have h2 := hget j a (by simpa using ha)
            have hidx : i + (j + 1) = i + 1 + j := by omega
            simpa [hidx] using h2
      | false =>
        obtain ⟨r, s2, hr, hlen, hget⟩ :=
          ih (i + 1) (s.Err "Mismatched types in function call: `%s` and `%s`") hrest
        refine ⟨arg :: r, s2, ?_, by simp [hlen], ?_⟩
        · rw [checkArguments]
          simp [hi, hpar2, Expr.typeForCall, hty, hb, hr]
        · intro j a ha
          cases j with
          | zero =>
            simp at ha
            subst ha
            simp [hlt]
          | succ j =>
            simp at ha
            have h2 := hget j a (by simpa using ha)
            have hidx : i + (j + 1) = i + 1 + j := by omega
            simpa [hidx] using h2

/-- C14: the check of a call to a variadic function with the attribute `c` and `n` parameters,
when the check of the receiver returns and every argument has a type that `Equals` can
compare with the parameters, returns; it keeps the callee, the receiver and the number of
arguments; it leaves every argument at an index below `n` as it was; and it replaces an
argument at an index from `n` on by a cast of that argument to `f64` when its actual type is
`f32`, to `int` when it is `s8` or `s16`, to `uint` when it is `u8` or `u16`, and leaves it
as it was for every other actual type. -/
theorem CheckCallExpr_promotes_variadic_arguments {L : Type} [ExprNode L] (heap : FunctionHeap)
    (same : Ty → Ty → Option Bool) (s : SemanticAnalyzer) (expr : CallExpr L) (callee : Expr L)
    (calleeType : Option Ty) (fnType : FunctionType)
    (hcallee : expr.Function = some callee) (htype : callee.GetType heap = some calleeType)
    (hfn : asFunctionType calleeType = some fnType) (hvar : fnType.IsVariadic = true)
    (hc : fnType.attrs.Contains "c" = true)
    (hreceiver : ∀ s1, (checkReceiver heap same fnType expr.ReceiverAccess s1).isSome = true)
    (hargs : ∀ arg ∈ expr.Arguments, ∃ ty, arg.GetType heap = some (some ty) ∧
      ∀ par ∈ fnType.Parameters, (ty.Equals (some par)).isSome = true) :
    ∃ (result : CallExpr L) (s2 : SemanticAnalyzer),
      CheckCallExpr heap same s expr = some (result, s2) ∧
      result.Function = expr.Function ∧ result.ReceiverAccess = expr.ReceiverAccess ∧
      result.Arguments.length = expr.Arguments.length ∧
      ∀ (j : Nat) (arg : Expr L) (ty : Ty), expr.Arguments.get? j = some arg →
        arg.GetType heap = some (some ty) →
        (j < fnType.Parameters.length → result.Arguments.get? j = some arg) ∧
        (fnType.Parameters.length ≤ j →
          (ty.ActualType = Primitive PRIMITIVE_f32 →
            result.Arguments.get? j
              = some (Expr.CastExpr arg (some (Primitive PRIMITIVE_f64)))) ∧
          ((ty.ActualType = Primitive PRIMITIVE_s8 ∨ ty.ActualType = Primitive PRIMITIVE_s16) →
            result.Arguments.get? j
              = some (Expr.CastExpr arg (some (Primitive PRIMITIVE_int)))) ∧
          ((ty.ActualType = Primitive PRIMITIVE_u8 ∨ ty.ActualType = Primitive PRIMITIVE_u16) →
            result.Arguments.get? j
              = some (Expr.CastExpr arg (some (Primitive PRIMITIVE_uint)))) ∧
          ((ty.ActualType ≠ Primitive PRIMITIVE_f32 ∧ ty.ActualType ≠ Primitive PRIMITIVE_s8 ∧
              ty.ActualType ≠ Primitive PRIMITIVE_s16 ∧ ty.ActualType ≠ Primitive PRIMITIVE_u8 ∧
              ty.ActualType ≠ Primitive PRIMITIVE_u16) →
            result.Arguments.get? j = some arg)) := by
  -- the callee is no reference to a `nil` function: its `GetType` has returned
  have hname : ∀ e : Expr L, e.GetType heap = some calleeType →
      (match e with
        | Expr.FunctionAccessExpr none => (none : Option Unit)
        | _ => some ()) = some () := by
    intro e he
    cases e with
    | FunctionAccessExpr fn =>
      cases fn with
      | none => simp [Expr.GetType] at he
      | some _ => rfl
    | _ => rfl
  -- the arity errors and the check of the receiver
  let s1 : SemanticAnalyzer :=
    if expr.Arguments.length < fnType.Parameters.length then
      s.Err "Call to `%s` has too few arguments, expects %d, have %d"
    else if !fnType.IsVariadic && expr.Arguments.length > fnType.Parameters.length then
      s.Err "Call to `%s` has too many arguments, expects %d, have %d"
    else s
  obtain ⟨s2, hs2⟩ := Option.isSome_iff_exists.mp (hreceiver s1)
  obtain ⟨r, s3, hr, hlen, hget⟩ := checkArguments_variadic heap fnType hvar expr.Arguments 0 s2 hargs
  refine ⟨{ expr with Arguments := r }, s3, ?_, rfl, rfl, hlen, ?_⟩
  · have hs2b : checkReceiver heap same fnType expr.ReceiverAccess s1 = some s2 := hs2
    simp only [s1] at hs2b
    simp only [CheckCallExpr, hcallee, htype, hfn, hname callee htype, hc, hs2b, hr,
      Option.map_some']
  · intro j arg ty harg hty
    have hj := hget j arg harg
    simp only [Nat.zero_add] at hj
    obtain ⟨h1, h2, h3, h4⟩ := promoteArgument_of_typed heap arg ty hty
    refine ⟨?_, ?_⟩
    · intro hlt
      show r.get? j = some arg
      rw [hj, if_pos hlt]
    · intro hge
      have hnot : ¬ j < fnType.Parameters.length := by omega
      have hj2 : r.get? j = promoteArgument heap arg := by rw [hj, if_neg hnot]
      refine ⟨?_, ?_, ?_, ?_⟩
      · intro h
        show r.get? j = _
        rw [hj2, h1 h]
      · intro h
        show r.get? j = _
        rw [hj2, h2 h]
      · intro h
        show r.get? j = _
        rw [hj2, h3 h]
      · intro h
        show r.get? j = _
        rw [hj2, h4 h]

/-- The witness of C14: in the call `printf(fmt, x, y)` with `x: s8` and `y: f32`, the check
keeps `fmt` and replaces `x` by a cast to `int` and `y` by a cast to `f64`. -/
theorem CheckCallExpr_promotes_variadic_arguments_witness :
    ∃ (result : CallExpr VariableAccessExpr) (s2 : SemanticAnalyzer),
      CheckCallExpr printfHeap (fun _ _ => some true) ⟨[]⟩
          ⟨some (Expr.FunctionAccessExpr (some 0)),
            [variableAccess "fmt" (Pointer (Primitive PRIMITIVE_u8)),
              variableAccess "x" (Primitive PRIMITIVE_s8),
              variableAccess "y" (Primitive PRIMITIVE_f32)], none⟩
        = some (result, s2) ∧
      result.Arguments.get? 0 = some (variableAccess "fmt" (Pointer (Primitive PRIMITIVE_u8))) ∧
      result.Arguments.get? 1
        = some (Expr.CastExpr (variableAccess "x" (Primitive PRIMITIVE_s8))
            (some (Primitive PRIMITIVE_int))) ∧
      result.Arguments.get? 2
        = some (Expr.CastExpr (variableAccess "y" (Primitive PRIMITIVE_f32))
            (some (Primitive PRIMITIVE_f64))) := by
  obtain ⟨result, s2, hcheck, _, _, _, hget⟩ :=
    CheckCallExpr_promotes_variadic_arguments printfHeap (fun _ _ => some true) ⟨[]⟩
      (⟨some (Expr.FunctionAccessExpr (some 0)),
        [variableAccess "fmt" (Pointer (Primitive PRIMITIVE_u8)),
          variableAccess "x" (Primitive PRIMITIVE_s8),
          variableAccess "y" (Primitive PRIMITIVE_f32)], none⟩ : CallExpr VariableAccessExpr)
      (Expr.FunctionAccessExpr (some 0)) (some printfType.toType) printfType rfl rfl rfl rfl
      (by decide) (fun _ => rfl)
      (by
        intro arg harg
        simp only [List.mem_cons, List.mem_singleton, List.not_mem_nil, or_false] at harg
        rcases harg with h | h | h <;> subst h
        · exact ⟨Pointer (Primitive PRIMITIVE_u8), rfl, by decide⟩
        · exact ⟨Primitive PRIMITIVE_s8, rfl, by decide⟩
        · exact ⟨Primitive PRIMITIVE_f32, rfl, by decide⟩)
  refine ⟨result, s2, hcheck, ?_, ?_, ?_⟩
  · exact (hget 0 _ (Pointer (Primitive PRIMITIVE_u8)) rfl rfl).1 (by decide)
  · exact ((hget 1 _ (Primitive PRIMITIVE_s8) rfl rfl).2 (by decide)).2.1 (Or.inl rfl)
  · exact ((hget 2 _ (Primitive PRIMITIVE_f32) rfl rfl).2 (by decide)).1 rfl

/-! ## Properties of the inference of calls and member accesses -/

/-- C15, on the code: the method `m` has the receiver type `^Point`, and the receiver `p` of
the call has the type `&^Point`, of indirection level 2, one above the level 1 of `^Point`.
The inference wraps `p` in two dereference nodes, the first typed `^Point` and the second
typed `Point`: the three `if` statements run one after the other, and the third one sees the
pointer type that the first one has left. The level of the new receiver is 0, not 1. -/
theorem CallExpr_infer_dereferences_twice :
    LevelsOfIndirection (ConstantReference (Pointer pointType)) = some 2 ∧
    LevelsOfIndirection (Pointer pointType) = some 1 ∧
    CallExpr.infer (ExprMethods.idle VariableAccessExpr) pointerMethodHeap
        ⟨some (Expr.FunctionAccessExpr (some 0)), [],
          some (variableAccess "p" (ConstantReference (Pointer pointType)))⟩
        TypeInferer.start
      = some (⟨some (Expr.FunctionAccessExpr (some 0)), [],
          some (Expr.DerefAccessExpr
            (Expr.DerefAccessExpr (variableAccess "p" (ConstantReference (Pointer pointType)))
              (some (Pointer pointType)))
            (some pointType))⟩, TypeInferer.start) ∧
    LevelsOfIndirection pointType = some 0 := by
  refine ⟨rfl, rfl, rfl, rfl⟩

/-- C16, on the code: for the call `s.m()` with `s` of type `s32`, no named type, the
inference panics at the type assertion; and for `s` of the named type `Point`, which has no
method `m`, the callee is replaced by a function reference all the same, one that holds the
`nil` function, and the inference then panics when it asks that reference for its type. -/
theorem CallExpr_infer_unresolved_method :
    CallExpr.infer (ExprMethods.idle VariableAccessExpr) voidFunctionHeap
        ⟨some (Expr.StructAccessExpr (variableAccess "s" (Primitive PRIMITIVE_s32)) "m" none), [],
          none⟩ TypeInferer.start = none ∧
    CallExpr.inferCallee (ExprMethods.idle VariableAccessExpr) voidFunctionHeap
        (some (Expr.StructAccessExpr (variableAccess "s" pointType) "m" none)) TypeInferer.start
      = some (Expr.FunctionAccessExpr none, TypeInferer.start) ∧
    CallExpr.infer (ExprMethods.idle VariableAccessExpr) voidFunctionHeap
        ⟨some (Expr.StructAccessExpr (variableAccess "s" pointType) "m" none), [], none⟩
        TypeInferer.start = none := by
  refine ⟨rfl, rfl, rfl⟩

/-- C17, on the code: the access `s.x` of a member of the struct `Point` through a constant
reference and through a mutable reference panics, at the type assertion to `PointerType`;
through a pointer the accessed value is wrapped in one dereference node, typed with the
struct type, and the access is bound to the member `x`, without error. -/
theorem StructAccessExpr_infer_through_reference :
    StructAccessExpr.infer (ExprMethods.idle VariableAccessExpr) voidFunctionHeap
        ⟨variableAccess "s" (ConstantReference pointType), "x", none⟩ TypeInferer.start = none ∧
    StructAccessExpr.infer (ExprMethods.idle VariableAccessExpr) voidFunctionHeap
        ⟨variableAccess "s" (MutableReference pointType), "x", none⟩ TypeInferer.start = none ∧
    StructAccessExpr.infer (ExprMethods.idle VariableAccessExpr) voidFunctionHeap
        ⟨variableAccess "s" (Pointer pointType), "x", none⟩ TypeInferer.start
      = some (⟨Expr.DerefAccessExpr (variableAccess "s" (Pointer pointType)) (some pointStruct),
          "x", some ⟨"x", some (Primitive PRIMITIVE_s32)⟩⟩, TypeInferer.start) := by
  refine ⟨rfl, rfl, rfl⟩

/-! ## Properties of the checks of conditions, casts and composite literals -/

/-- The loop of `CheckIfStat` over conditions whose `GetType` returns the types `types`: one
error for each type that is not exactly `bool`. -/
theorem CheckIfStat_of_types {L : Type} [ExprNode L] (heap : FunctionHeap) :
    ∀ (exprs : List (Expr L)) (types : List (Option Ty)) (s : SemanticAnalyzer),
      exprs.map (fun e => e.GetType heap) = types.map some →
      CheckIfStat heap s exprs
        = some ⟨s.diagnostics ++ (types.filter (fun t => !isExactlyBool t)).map
            (fun _ => Diagnostic.error "If condition must have a boolean condition")⟩ := by
  intro exprs
  induction exprs with
  | nil =>
    intro types s h
    cases types with
    | nil => simp [CheckIfStat]
    | cons t ts => simp at h
  | cons e es ih =>
    intro types s h
    cases types with
    | nil => simp at h
    | cons t ts =>
      simp only [List.map_cons, List.cons.injEq] at h
      obtain ⟨he, hes⟩ := h
      rw [CheckIfStat]
      have hnot : e.typeIsNot heap PRIMITIVE_bool = some (!isExactlyBool t) := by
        simp only [Expr.typeIsNot, he]
        cases t with
        | none => rfl
        | some ty =>
          cases ty with
          | Primitive q => cases q <;> rfl
          | _ => rfl
      rw [hnot]
      cases hb : isExactlyBool t
      · simp only [Bool.not_false]
        rw [ih ts _ hes]
        simp [SemanticAnalyzer.Err, List.filter, hb]
      · simp only [Bool.not_true]
        rw [ih ts _ hes]
        simp [List.filter, hb]

/-- C18, on the code: the visit of an if statement whose conditions have the types `types`
(a `nil` type included) reports, in order, one error for each condition whose type is not
exactly `bool`, and nothing for a condition of type `bool`; but the visit of a loop statement
of any kind reports nothing and changes nothing, whatever the type of its condition:
`TypeCheck.Visit` has no case for a loop statement, so a condition that is not of type
`bool` goes unreported there. -/
theorem Visit_checks_conditions_of_IfStat_only {L : Type} [ExprNode L] (heap : FunctionHeap)
    (same : Ty → Ty → Option Bool) (v : TypeCheck) (s : SemanticAnalyzer) :
    (∀ (stat : IfStat L) (types : List (Option Ty)),
      stat.Exprs.map (fun e => e.GetType heap) = types.map some →
      TypeCheck.Visit heap same v s (Node.IfStat stat)
        = some (v, ⟨s.diagnostics ++ (types.filter (fun t => !isExactlyBool t)).map
            (fun _ => Diagnostic.error "If condition must have a boolean condition")⟩,
          Node.IfStat stat)) ∧
    (∀ loop : LoopStat L,
      TypeCheck.Visit heap same v s (Node.LoopStat loop) = some (v, s, Node.LoopStat loop)) := by
  refine ⟨?_, ?_⟩
  · intro stat types h
    simp only [TypeCheck.Visit, CheckIfStat_of_types heap stat.Exprs types s h, Option.map_some']
  · intro loop
    rfl

/-- C18, at the if statement with the conditions `a: bool` and `n: s32`, and at the
conditional loop `for n` with the same `n: s32`: the if statement gets one error, for `n`; the
loop, whose condition is not of type `bool`, gets none. -/
theorem Visit_checks_conditions_of_IfStat_only_witness :
    TypeCheck.Visit voidFunctionHeap (fun _ _ => some true) ⟨[]⟩ ⟨[]⟩
        (Node.IfStat ⟨[variableAccess "a" (Primitive PRIMITIVE_bool),
          variableAccess "n" (Primitive PRIMITIVE_s32)]⟩)
      = some (⟨[]⟩, ⟨[] ++ ([some (Primitive PRIMITIVE_bool),
            some (Primitive PRIMITIVE_s32)].filter (fun t => !isExactlyBool t)).map
            (fun _ => Diagnostic.error "If condition must have a boolean condition")⟩,
          Node.IfStat ⟨[variableAccess "a" (Primitive PRIMITIVE_bool),
            variableAccess "n" (Primitive PRIMITIVE_s32)]⟩) ∧
    ([] ++ ([some (Primitive PRIMITIVE_bool),
        some (Primitive PRIMITIVE_s32)].filter (fun t => !isExactlyBool t)).map
        (fun _ => Diagnostic.error "If condition must have a boolean condition"))
      = [Diagnostic.error "If condition must have a boolean condition"] ∧
    TypeCheck.Visit voidFunctionHeap (fun _ _ => some true) ⟨[]⟩ ⟨[]⟩
        (Node.LoopStat ⟨LoopType.LOOP_TYPE_CONDITIONAL,
          some (variableAccess "n" (Primitive PRIMITIVE_s32))⟩)
      = some (⟨[]⟩, ⟨[]⟩,
          Node.LoopStat ⟨LoopType.LOOP_TYPE_CONDITIONAL,
            some (variableAccess "n" (Primitive PRIMITIVE_s32))⟩) ∧
    isExactlyBool (some (Primitive PRIMITIVE_s32)) = false :=
  ⟨(Visit_checks_conditions_of_IfStat_only voidFunctionHeap (fun _ _ => some true) ⟨[]⟩ ⟨[]⟩).1
      ⟨[variableAccess "a" (Primitive PRIMITIVE_bool),
        variableAccess "n" (Primitive PRIMITIVE_s32)]⟩
      [some (Primitive PRIMITIVE_bool), some (Primitive PRIMITIVE_s32)] rfl,
    by rfl,
    (Visit_checks_conditions_of_IfStat_only voidFunctionHeap (fun _ _ => some true) ⟨[]⟩ ⟨[]⟩).2
      ⟨LoopType.LOOP_TYPE_CONDITIONAL, some (variableAccess "n" (Primitive PRIMITIVE_s32))⟩,
    by rfl⟩

/-- C19, the counterexample: the cast of `s`, of the struct type `struct {x: s32, y: s32}`, to
that same type gets the warning and no error, although the struct type cannot be cast to
itself. -/
theorem CheckCastExpr_struct_to_itself_counterexample :
    CanCastTo pointStruct pointStruct = some false ∧
    CheckCastExpr voidFunctionHeap ⟨[]⟩ ⟨variableAccess "s" pointStruct, some pointStruct⟩
      = some ⟨[Diagnostic.warning "Casting expression of type `%s` to the same type"]⟩ := by
  refine ⟨by unfold pointStruct; rw [CanCastTo], by decide⟩

/-- C19, as amended: for a cast of an expression of type `S` to the type `T`, the check
reports the warning, and nothing else, when `T.Equals(S)`; when `T` does not equal `S` it
reports the error if `S.CanCastTo(T)` is false and nothing if it is true. -/
theorem CheckCastExpr_warning_else_error {L : Type} [ExprNode L] (heap : FunctionHeap)
    (s : SemanticAnalyzer) (expr : CastExpr L) (S T : Ty) (hT : expr.Typ = some T)
    (hS : expr.Expr.GetType heap = some (some S)) :
    (T.Equals (some S) = some true →
      CheckCastExpr heap s expr
        = some (s.Warn "Casting expression of type `%s` to the same type")) ∧
    (T.Equals (some S) = some false → S.CanCastTo T = some false →
      CheckCastExpr heap s expr
        = some (s.Err "Cannot cast expression of type `%s` to type `%s`")) ∧
    (T.Equals (some S) = some false → S.CanCastTo T = some true →
      CheckCastExpr heap s expr = some s) := by
  refine ⟨?_, ?_, ?_⟩
  · intro h
    simp only [CheckCastExpr, hT, hS, h]
  · intro h hc
    simp only [CheckCastExpr, hT, hS, h, hc]
  · intro h hc
    simp only [CheckCastExpr, hT, hS, h, hc]

/-- The witness of C19 as amended: the cast of `b: bool` to `s32` is an error, and the cast of
`n: s8` to `s32` is accepted without a diagnostic. -/
theorem CheckCastExpr_warning_else_error_witness :
    CheckCastExpr voidFunctionHeap ⟨[]⟩
        ⟨variableAccess "b" (Primitive PRIMITIVE_bool), some (Primitive PRIMITIVE_s32)⟩
      = some (SemanticAnalyzer.Err ⟨[]⟩ "Cannot cast expression of type `%s` to type `%s`") ∧
    CheckCastExpr voidFunctionHeap ⟨[]⟩
        ⟨variableAccess "n" (Primitive PRIMITIVE_s8), some (Primitive PRIMITIVE_s32)⟩
      = some ⟨[]⟩ :=
  ⟨(CheckCastExpr_warning_else_error voidFunctionHeap ⟨[]⟩
      ⟨variableAccess "b" (Primitive PRIMITIVE_bool), some (Primitive PRIMITIVE_s32)⟩
      (Primitive PRIMITIVE_bool) (Primitive PRIMITIVE_s32) rfl rfl).2.1 (by decide)
      (by rw [CanCastTo]; rfl),
    (CheckCastExpr_warning_else_error voidFunctionHeap ⟨[]⟩
      ⟨variableAccess "n" (Primitive PRIMITIVE_s8), some (Primitive PRIMITIVE_s32)⟩
      (Primitive PRIMITIVE_s8) (Primitive PRIMITIVE_s32) rfl rfl).2.2 (by decide)
      (by rw [CanCastTo]; rfl)⟩

/-- C20, on the code: the check of the literal `Point{z: 1}`, whose field name matches no
member of the struct `Point`, panics: after the error for the missing member the code reads
`decl.Variable` of the `nil` declaration. The literal `Point{x: 1, y: 2}` is checked without
a diagnostic, and a value without a field name is an error after which the check goes on. -/
theorem CheckCompositeLiteral_unknown_field :
    CheckCompositeLiteral voidFunctionHeap ⟨[]⟩
        ⟨some pointType, ["z"], [integerLiteral 1 (Primitive PRIMITIVE_s32)]⟩ = none ∧
    CheckCompositeLiteral voidFunctionHeap ⟨[]⟩
        ⟨some pointType, ["x", "y"],
          [integerLiteral 1 (Primitive PRIMITIVE_s32), integerLiteral 2 (Primitive PRIMITIVE_s32)]⟩
      = some ⟨[]⟩ ∧
    CheckCompositeLiteral voidFunctionHeap ⟨[]⟩
        ⟨some pointType, ["", "y"],
          [integerLiteral 1 (Primitive PRIMITIVE_s32), integerLiteral 2 (Primitive PRIMITIVE_s32)]⟩
      = some ⟨[Diagnostic.error "Missing field in struct literal"]⟩ := by
  refine ⟨by decide, by decide, by decide⟩

/-! ## Enum literals -/

/-- The loop of `MemberIndex` from index `idx` on: it answers -1 exactly when no member has
the name, and otherwise `idx` plus the position of the first member that has it. -/
theorem memberIndexFrom_first (name : String) :
    ∀ (members : List (String × Ty × Int)) (idx : Nat),
      (memberIndexFrom idx members name = -1 ↔ ∀ m ∈ members, m.1 ≠ name) ∧
      ((∃ m ∈ members, m.1 = name) →
        ∃ i : Nat, memberIndexFrom idx members name = ((idx + i : Nat) : Int) ∧
          i < members.length ∧ (members.get? i).map (fun m => m.1) = some name ∧
          ∀ j, j < i → (members.get? j).map (fun m => m.1) ≠ some name)
  | [], idx => by
      refine ⟨by simp [memberIndexFrom], ?_⟩
      rintro ⟨m, hm, _⟩
      simp at hm
  | member :: members, idx => by
      obtain ⟨ih1, ih2⟩ := memberIndexFrom_first name members (idx + 1)
      by_cases h : member.1 = name
      · have hval : memberIndexFrom idx (member :: members) name = (idx : Int) := by
          simp [memberIndexFrom, h]
        refine ⟨?_, fun _ => ⟨0, by simpa using hval, by simp, by simp [h], by simp⟩⟩
        rw [hval]
        constructor
        · intro hneg
          omega
        · intro hall
          exact absurd h (hall member (List.mem_cons_self _ _))
      · have hval : memberIndexFrom idx (member :: members) name
            = memberIndexFrom (idx + 1) members name := by
          simp [memberIndexFrom, h]
        rw [hval]
        constructor
        · rw [ih1]
          constructor
          · intro hall m hm
            rcases List.mem_cons.1 hm with rfl | hm
            · exact h
            · exact hall m hm
          · intro hall m hm
            exact hall m (List.mem_cons_of_mem _ hm)
        · rintro ⟨m, hm, hname⟩
          have hex : ∃ m ∈ members, m.1 = name := by
            rcases List.mem_cons.1 hm with rfl | hm
            · exact absurd hname h
            · exact ⟨m, hm, hname⟩
          obtain ⟨i, hi, hlt, hget, hbefore⟩ := ih2 hex
          refine ⟨i + 1, ?_, by simpa using hlt, by simpa using hget, ?_⟩
          · rw [hi]
            congr 1
            omega
          · intro j hj
            cases j with
            | zero => simpa using h
            | succ j =>
                have := hbefore j (by omega)
                simpa using this

/-- C30: for an enum literal whose type resolves to an enum type, `MemberIndex` answers -1
exactly when no member of the enum has the name of the literal, and otherwise the index of
the first member that has it, an index below the number of members; `CheckEnumLiteral`
returns, with exactly one error added in the first case and with the sink unchanged in the
second, so the test for an index past the members never decides. -/
theorem CheckEnumLiteral_error_iff_no_member (s : SemanticAnalyzer) (lit : EnumLiteral)
    (ty : Ty) (simple : Bool) (members : List (String × Ty × Int)) (attrs : AttrGroup)
    (hty : lit.Typ = some ty) (hactual : ty.ActualType = Ty.Enum simple members attrs) :
    (MemberIndex members lit.Member = -1 ↔ ∀ m ∈ members, m.1 ≠ lit.Member) ∧
    ((∃ m ∈ members, m.1 = lit.Member) →
      ∃ i : Nat, MemberIndex members lit.Member = (i : Int) ∧ i < members.length ∧
        (members.get? i).map (fun m => m.1) = some lit.Member ∧
        ∀ j, j < i → (members.get? j).map (fun m => m.1) ≠ some lit.Member) ∧
    ¬ (0 ≤ MemberIndex members lit.Member ∧
        MemberIndex members lit.Member ≥ (members.length : Int)) ∧
    ((∀ m ∈ members, m.1 ≠ lit.Member) →
      CheckEnumLiteral s lit = some (s.Err "Enum `%s` has no member `%s`")) ∧
    ((∃ m ∈ members, m.1 = lit.Member) → CheckEnumLiteral s lit = some s) := by
  obtain ⟨h1, h2⟩ := memberIndexFrom_first lit.Member members 0
  have hfound : (∃ m ∈ members, m.1 = lit.Member) →
      ∃ i : Nat, MemberIndex members lit.Member = (i : Int) ∧ i < members.length ∧
        (members.get? i).map (fun m => m.1) = some lit.Member ∧
        ∀ j, j < i → (members.get? j).map (fun m => m.1) ≠ some lit.Member := by
    intro hex
    obtain ⟨i, hi, hlt, hget, hbefore⟩ := h2 hex
    exact ⟨i, by simpa [MemberIndex] using hi, hlt, hget, hbefore⟩
  refine ⟨h1, hfound, ?_, ?_, ?_⟩
  · rintro ⟨hpos, hge⟩
    by_cases hex : ∃ m ∈ members, m.1 = lit.Member
    · obtain ⟨i, hi, hlt, _, _⟩ := hfound hex
      rw [hi] at hge
      omega
    · have hall : ∀ m ∈ members, m.1 ≠ lit.Member := fun m hm hname => hex ⟨m, hm, hname⟩
      have hneg : MemberIndex members lit.Member = -1 := h1.2 hall
      omega
  · intro hall
    have hneg : MemberIndex members lit.Member = -1 := h1.2 hall
    simp [CheckEnumLiteral, hty, hactual, hneg]
  · intro hex
    obtain ⟨i, hi, hlt, _, _⟩ := hfound hex
    have hno : ¬ ((i : Int) < 0 ∨ members.length ≤ i) := by omega
    simp [CheckEnumLiteral, hty, hactual, hi, hno]

/-- C30, at the enum `Colour` with the members `Red` and `Green`: the literal `Colour::Green`
is checked without a diagnostic, the literal `Colour::Blue` with one error. -/
theorem CheckEnumLiteral_error_iff_no_member_witness :
    CheckEnumLiteral ⟨[]⟩ ⟨some colourType, "Green"⟩ = some ⟨[]⟩ ∧
    CheckEnumLiteral ⟨[]⟩ ⟨some colourType, "Blue"⟩
      = some ⟨[Diagnostic.error "Enum `%s` has no member `%s`"]⟩ :=
  ⟨(CheckEnumLiteral_error_iff_no_member ⟨[]⟩ ⟨some colourType, "Green"⟩ colourType true
      [("Red", Tuple [], 0), ("Green", Tuple [], 1)] [] rfl rfl).2.2.2.2
      ⟨("Green", Tuple [], 1), by simp, rfl⟩,
    (CheckEnumLiteral_error_iff_no_member ⟨[]⟩ ⟨some colourType, "Blue"⟩ colourType true
      [("Red", Tuple [], 0), ("Green", Tuple [], 1)] [] rfl rfl).2.2.2.1
      (by decide)⟩

/-! ## Binary expressions, tuple literals and declarations in the checking pass -/

/-- The first two cases of `CheckBinaryExpr`, on operands that have types: one error when the
types are not equal, otherwise one error when the left type fails the test, otherwise none. -/
theorem checkSameTypeOperands_of_types {L : Type} [ExprNode L] (heap : FunctionHeap)
    (s : SemanticAnalyzer) (expr : BinaryExpr L) (allowed : Ty → Option Bool)
    (message : String) (lht rht : Ty) (eq ok : Bool)
    (hl : expr.Lhand.GetType heap = some (some lht))
    (hr : expr.Rhand.GetType heap = some (some rht))
    (heq : lht.Equals (some rht) = some eq) (hok : allowed lht = some ok) :
    checkSameTypeOperands heap s expr allowed message
      = some (if eq = false then
                s.Err
                  "Operands for binary operator `%s` must have the same type, have `%s` and `%s`"
              else if ok = true then s else s.Err message) := by
  cases eq <;> cases ok <;>
    simp [checkSameTypeOperands, Expr.typeForCall, hl, hr, heq, hok, errNamingType]

/-- C26: `CheckBinaryExpr` on an equality, arithmetic, comparison or bitwise and/or/xor
operator whose operands have the types `lht` and `rht` (with `Equals` and the tests of the
left type answering) reports exactly one error when `lht` does not equal `rht`, exactly one
error when the types are equal and `lht` is outside the allowed set, and none otherwise. The
allowed set is: `rune`, integer-like, floating or of indirection level above 0, and for `==`
and `!=` also `bool`. -/
theorem CheckBinaryExpr_one_error_or_none {L : Type} [ExprNode L] (heap : FunctionHeap)
    (s : SemanticAnalyzer) (expr : BinaryExpr L) (lht rht : Ty) (eq isInteger isFloating : Bool)
    (levels : Nat)
    (hl : expr.Lhand.GetType heap = some (some lht))
    (hr : expr.Rhand.GetType heap = some (some rht))
    (heq : lht.Equals (some rht) = some eq)
    (hinteger : lht.IsIntegerType = some isInteger)
    (hfloating : lht.IsFloatingType = some isFloating)
    (hlevels : lht.LevelsOfIndirection = some levels) :
    (expr.Op = BinOpType.BINOP_EQ ∨ expr.Op = BinOpType.BINOP_NOT_EQ →
      CheckBinaryExpr heap s expr
        = some (if eq = false then
                  s.Err
                    "Operands for binary operator `%s` must have the same type, have `%s` and `%s`"
                else if (lht.isPrimitive PRIMITIVE_bool || lht.isPrimitive PRIMITIVE_rune
                    || isInteger || isFloating || decide (levels > 0)) = true then s
                else
                  s.Err
                    "Operands for binary operator `%s` must be numeric, or pointers or booleans, have `%s`")) ∧
    (expr.Op ∈ [BinOpType.BINOP_ADD, BinOpType.BINOP_SUB, BinOpType.BINOP_MUL,
        BinOpType.BINOP_DIV, BinOpType.BINOP_MOD, BinOpType.BINOP_GREATER,
        BinOpType.BINOP_LESS, BinOpType.BINOP_GREATER_EQ, BinOpType.BINOP_LESS_EQ,
        BinOpType.BINOP_BIT_AND, BinOpType.BINOP_BIT_OR, BinOpType.BINOP_BIT_XOR] →
      CheckBinaryExpr heap s expr
        = some (if eq = false then
                  s.Err
                    "Operands for binary operator `%s` must have the same type, have `%s` and `%s`"
                else if (lht.isPrimitive PRIMITIVE_rune
                    || isInteger || isFloating || decide (levels > 0)) = true then s
                else
                  s.Err
                    "Operands for binary operator `%s` must be numeric or pointers, have `%s`")) := by
  have harith : allowedArithmetic lht
      = some (lht.isPrimitive PRIMITIVE_rune || isInteger || isFloating
          || decide (levels > 0)) := by
    simp only [allowedArithmetic, hinteger, hfloating, hlevels, Option.map_some']
    cases lht.isPrimitive PRIMITIVE_rune <;> cases isInteger <;> cases isFloating <;>
      simp [orElse]
  have hequal : allowedEquality lht
      = some (lht.isPrimitive PRIMITIVE_bool || lht.isPrimitive PRIMITIVE_rune || isInteger
          || isFloating || decide (levels > 0)) := by
    simp only [allowedEquality, harith]
    cases lht.isPrimitive PRIMITIVE_bool <;> simp [orElse]
  constructor
  · intro hop
    have hcheck := checkSameTypeOperands_of_types heap s expr allowedEquality
      "Operands for binary operator `%s` must be numeric, or pointers or booleans, have `%s`"
      lht rht eq _ hl hr heq hequal
    rcases hop with hop | hop <;> simp only [CheckBinaryExpr, hop] <;> exact hcheck
  · intro hop
    have hcheck := checkSameTypeOperands_of_types heap s expr allowedArithmetic
      "Operands for binary operator `%s` must be numeric or pointers, have `%s`"
      lht rht eq _ hl hr heq harith
    simp only [List.mem_cons, List.mem_singleton, List.not_mem_nil, or_false] at hop
    rcases hop with hop | hop | hop | hop | hop | hop | hop | hop | hop | hop | hop | hop <;>
      simp only [CheckBinaryExpr, hop] <;> exact hcheck

/-- C26, at operands of one type: two operands of the struct type `Point` are rejected by
`==`, two operands of type `bool` are accepted by `==` and rejected by `+`, and an operand
of type `s32` against one of type `s8` is the error of unequal types. -/
theorem CheckBinaryExpr_one_error_or_none_witness :
    CheckBinaryExpr voidFunctionHeap ⟨[]⟩
        ⟨BinOpType.BINOP_EQ, variableAccess "p" pointType, variableAccess "q" pointType, none⟩
      = some ⟨[Diagnostic.error
          "Operands for binary operator `%s` must be numeric, or pointers or booleans, have `%s`"]⟩ ∧
    CheckBinaryExpr voidFunctionHeap ⟨[]⟩
        ⟨BinOpType.BINOP_EQ, variableAccess "a" (Primitive PRIMITIVE_bool),
          variableAccess "b" (Primitive PRIMITIVE_bool), none⟩
      = some ⟨[]⟩ ∧
    CheckBinaryExpr voidFunctionHeap ⟨[]⟩
        ⟨BinOpType.BINOP_ADD, variableAccess "a" (Primitive PRIMITIVE_bool),
          variableAccess "b" (Primitive PRIMITIVE_bool), none⟩
      = some ⟨[Diagnostic.error
          "Operands for binary operator `%s` must be numeric or pointers, have `%s`"]⟩ ∧
    CheckBinaryExpr voidFunctionHeap ⟨[]⟩
        ⟨BinOpType.BINOP_ADD, variableAccess "m" (Primitive PRIMITIVE_s32),
          variableAccess "n" (Primitive PRIMITIVE_s8), none⟩
      = some ⟨[Diagnostic.error
          "Operands for binary operator `%s` must have the same type, have `%s` and `%s`"]⟩ :=
  ⟨(CheckBinaryExpr_one_error_or_none voidFunctionHeap ⟨[]⟩
      ⟨BinOpType.BINOP_EQ, variableAccess "p" pointType, variableAccess "q" pointType, none⟩
      pointType pointType true false false 0 rfl rfl (by decide) rfl rfl rfl).1 (Or.inl rfl),
    (CheckBinaryExpr_one_error_or_none voidFunctionHeap ⟨[]⟩
      ⟨BinOpType.BINOP_EQ, variableAccess "a" (Primitive PRIMITIVE_bool),
        variableAccess "b" (Primitive PRIMITIVE_bool), none⟩
      (Primitive PRIMITIVE_bool) (Primitive PRIMITIVE_bool) true false false 0 rfl rfl
      (by decide) rfl rfl rfl).1 (Or.inl rfl),
    (CheckBinaryExpr_one_error_or_none voidFunctionHeap ⟨[]⟩
      ⟨BinOpType.BINOP_ADD, variableAccess "a" (Primitive PRIMITIVE_bool),
        variableAccess "b" (Primitive PRIMITIVE_bool), none⟩
      (Primitive PRIMITIVE_bool) (Primitive PRIMITIVE_bool) true false false 0 rfl rfl
      (by decide) rfl rfl rfl).2 (by decide),
    (CheckBinaryExpr_one_error_or_none voidFunctionHeap ⟨[]⟩
      ⟨BinOpType.BINOP_ADD, variableAccess "m" (Primitive PRIMITIVE_s32),
        variableAccess "n" (Primitive PRIMITIVE_s8), none⟩
      (Primitive PRIMITIVE_s32) (Primitive PRIMITIVE_s8) false true false 0 rfl rfl
      (by decide) rfl rfl rfl).2 (by decide)⟩

/-- The loop of `CheckTupleLiteral` panics when the literal has more members than the tuple
type has member types: the index into the member types runs out of range. -/
theorem checkTupleMembers_surplus_panics {L : Type} [ExprNode L] (heap : FunctionHeap) :
    ∀ (members : List (Expr L)) (memberTypes : List Ty) (s : SemanticAnalyzer),
      memberTypes.length < members.length → checkTupleMembers heap members memberTypes s = none
  | [], _, _, h => by simp at h
  | _ :: _, [], _, _ => rfl
  | mem :: mems, memberType :: memberTypes, s, h => by
      have hlen : memberTypes.length < mems.length := by simpa using h
      have ih := fun s1 => checkTupleMembers_surplus_panics heap mems memberTypes s1 hlen
      simp only [checkTupleMembers]
      split
      · rfl
      · split
        · rfl
        · exact ih _
        · exact ih _

/-- C22, on the code: `CheckTupleLiteral` on a literal with more members than its tuple type
has member types does not run to completion: after the error for the number of entries, the
loop over the members reads a member type past the end and panics. -/
theorem CheckTupleLiteral_more_members_panics {L : Type} [ExprNode L] (heap : FunctionHeap)
    (s : SemanticAnalyzer) (lit : TupleLiteral L) (ty : Ty) (memberTypes : List Ty)
    (hty : lit.Typ = some ty) (hactual : ty.ActualType = Ty.Tuple memberTypes)
    (hlen : memberTypes.length < lit.Members.length) :
    CheckTupleLiteral heap s lit = none := by
  simp only [CheckTupleLiteral, hty, hactual]
  exact checkTupleMembers_surplus_panics heap lit.Members memberTypes _ hlen

/-- C22, at the literal `(1, 2, 3)` typed with the tuple type `(int, int)`: the check panics;
the literal `(1, 2)` of that type is checked without a diagnostic, and the literal `(1,)` of
that type with the error for the number of entries. -/
theorem CheckTupleLiteral_more_members_panics_witness :
    CheckTupleLiteral voidFunctionHeap ⟨[]⟩
        ⟨some (Tuple [Primitive PRIMITIVE_int, Primitive PRIMITIVE_int]),
          [integerLiteral 1 (Primitive PRIMITIVE_int), integerLiteral 2 (Primitive PRIMITIVE_int),
            integerLiteral 3 (Primitive PRIMITIVE_int)]⟩ = none ∧
    CheckTupleLiteral voidFunctionHeap ⟨[]⟩
        ⟨some (Tuple [Primitive PRIMITIVE_int, Primitive PRIMITIVE_int]),
          [integerLiteral 1 (Primitive PRIMITIVE_int), integerLiteral 2 (Primitive PRIMITIVE_int)]⟩
      = some ⟨[]⟩ ∧
    CheckTupleLiteral voidFunctionHeap ⟨[]⟩
        ⟨some (Tuple [Primitive PRIMITIVE_int, Primitive PRIMITIVE_int]),
          [integerLiteral 1 (Primitive PRIMITIVE_int)]⟩
      = some ⟨[Diagnostic.error "Invalid amount of entries in tuple"]⟩ :=
  ⟨CheckTupleLiteral_more_members_panics voidFunctionHeap ⟨[]⟩
      ⟨some (Tuple [Primitive PRIMITIVE_int, Primitive PRIMITIVE_int]),
        [integerLiteral 1 (Primitive PRIMITIVE_int), integerLiteral 2 (Primitive PRIMITIVE_int),
          integerLiteral 3 (Primitive PRIMITIVE_int)]⟩
      (Tuple [Primitive PRIMITIVE_int, Primitive PRIMITIVE_int])
      [Primitive PRIMITIVE_int, Primitive PRIMITIVE_int] rfl rfl (by decide),
    by decide, by decide⟩

/-- `Equals` of a type that is no meta-variant with a primitive type is the comparison with
that primitive type. -/
theorem Equals_primitive_of_not_meta (t : Ty) (p : PrimitiveType) (h : t.isMetaType = false) :
    Equals t (some (Primitive p)) = some (t.isPrimitive p) := by
  cases t <;> simp [Equals, isPrimitive, isMetaType] at h ⊢

/-- An integer literal hinted with a type whose actual type is no numeric primitive gets the
default type `int`. -/
theorem NumericLiteral_setTypeHint_not_numeric (lit : NumericLiteral) (t : Ty)
    (hint : lit.IsFloat = false)
    (hnum : ∀ p, t.ActualType = Primitive p → p.IsIntegerType = false ∧ p.IsFloatingType = false) :
    lit.setTypeHint (some t) = { lit with Typ := some (Primitive PRIMITIVE_int) } := by
  simp only [NumericLiteral.setTypeHint, hint]
  generalize t.ActualType = a at hnum
  cases a with
  | Primitive p =>
      have hp := hnum p rfl
      cases p <;> simp [PrimitiveType.IsIntegerType, PrimitiveType.IsFloatingType] at hp ⊢
  | _ => simp

/-- C25: a variable declaration with the declared type `T`, no meta-variant and with an
actual type that is no integer and no floating primitive, and with an integer literal as
its initializer: `VariableDecl.infer` gives the literal the default type `int` and reports
nothing, and `CheckVariableDecl` on the inferred declaration reports the error of an
assignment of another type. -/
theorem VariableDecl_integer_literal_for_non_numeric_type (heap : FunctionHeap)
    (s : TypeInferer) (sem : SemanticAnalyzer) (name : String) (T : Ty) (lit : NumericLiteral)
    (hint : lit.IsFloat = false) (hmeta : T.isMetaType = false)
    (hnum : ∀ p, T.ActualType = Primitive p → p.IsIntegerType = false ∧ p.IsFloatingType = false) :
    VariableDecl.infer ⟨⟨name, some T⟩, some lit⟩ s
      = some (⟨⟨name, some T⟩, some { lit with Typ := some (Primitive PRIMITIVE_int) }⟩, s) ∧
    CheckVariableDecl heap sem
        ⟨⟨name, some T⟩, some (Expr.Other { lit with Typ := some (Primitive PRIMITIVE_int) })⟩
      = some (sem.Err "Cannot assign expression of type `%s` to variable of type `%s`") := by
  have hhint := NumericLiteral_setTypeHint_not_numeric lit T hint hnum
  have hnot : T.isPrimitive PRIMITIVE_int = false := by
    cases T with
    | Primitive p =>
        have hp := hnum p rfl
        cases p <;> simp [PrimitiveType.IsIntegerType] at hp <;> rfl
    | _ => rfl
  constructor
  · simp [VariableDecl.infer, ExprNode.setTypeHint, ExprNode.infer, NumericLiteral.infer, hhint]
  · simp [CheckVariableDecl, Expr.GetType, ExprNode.GetType, NumericLiteral.GetType,
      Equals_primitive_of_not_meta T PRIMITIVE_int hmeta, hnot, errNamingType]

/-- C25, at the declaration `b: bool = 5`: the literal is typed `int` and the check reports
the error. -/
theorem VariableDecl_integer_literal_for_non_numeric_type_witness :
    VariableDecl.infer
        (⟨⟨"b", some (Primitive PRIMITIVE_bool)⟩, some ⟨5, false, none⟩⟩ :
          VariableDecl NumericLiteral)
        TypeInferer.start
      = some (⟨⟨"b", some (Primitive PRIMITIVE_bool)⟩,
          some ⟨5, false, some (Primitive PRIMITIVE_int)⟩⟩, TypeInferer.start) ∧
    CheckVariableDecl voidFunctionHeap ⟨[]⟩
        ⟨⟨"b", some (Primitive PRIMITIVE_bool)⟩,
          some (Expr.Other (⟨5, false, some (Primitive PRIMITIVE_int)⟩ : NumericLiteral))⟩
      = some ⟨[Diagnostic.error
          "Cannot assign expression of type `%s` to variable of type `%s`"]⟩ :=
  VariableDecl_integer_literal_for_non_numeric_type voidFunctionHeap TypeInferer.start ⟨[]⟩
    "b" (Primitive PRIMITIVE_bool) ⟨5, false, none⟩ rfl rfl (by
      intro p hp
      cases hp
      exact ⟨rfl, rfl⟩)

/-! ## Hints and inference of the expression nodes -/

/-- C28: `BinaryExpr.setTypeHint` on an arithmetic or bitwise operator that is no shift. With
the hint `nil`: when only the right operand has a type, the left operand is hinted with that
type and the right operand gets no hint; when only the left operand has a type, the right
operand is hinted with it and the left operand gets no hint; when both or neither have a
type, the left and then the right operand are hinted with `nil`. With a hint `ty` that is not
`nil`, the left and then the right operand are hinted with `ty`. The node keeps its operator
and its type, and is a panic when a hint of an operand is. -/
theorem BinaryExpr_setTypeHint_cross_hints {L : Type} [ExprNode L] (M : ExprMethods L)
    (heap : FunctionHeap) (category : BinOpType → OpCategory) (v : BinaryExpr L)
    (hcategory : category v.Op = OpCategory.OP_ARITHMETIC ∨
      category v.Op = OpCategory.OP_BITWISE)
    (hshift : v.Op ≠ BinOpType.BINOP_BIT_LEFT ∧ v.Op ≠ BinOpType.BINOP_BIT_RIGHT) :
    (∀ rht, v.Lhand.GetType heap = some none → v.Rhand.GetType heap = some (some rht) →
      BinaryExpr.setTypeHint M heap category v none
        = (M.setTypeHint v.Lhand (some rht)).map (fun lhand => { v with Lhand := lhand })) ∧
    (∀ lht, v.Lhand.GetType heap = some (some lht) → v.Rhand.GetType heap = some none →
      BinaryExpr.setTypeHint M heap category v none
        = (M.setTypeHint v.Rhand (some lht)).map (fun rhand => { v with Rhand := rhand })) ∧
    (∀ lht rht, v.Lhand.GetType heap = some (some lht) →
      v.Rhand.GetType heap = some (some rht) →
      BinaryExpr.setTypeHint M heap category v none
        = match M.setTypeHint v.Lhand none with
          | none => none
          | some lhand =>
            match M.setTypeHint v.Rhand none with
            | none => none
            | some rhand => some ⟨v.Op, lhand, rhand, v.Typ⟩) ∧
    (v.Lhand.GetType heap = some none → v.Rhand.GetType heap = some none →
      BinaryExpr.setTypeHint M heap category v none
        = match M.setTypeHint v.Lhand none with
          | none => none
          | some lhand =>
            match M.setTypeHint v.Rhand none with
            | none => none
            | some rhand => some ⟨v.Op, lhand, rhand, v.Typ⟩) ∧
    (∀ ty, BinaryExpr.setTypeHint M heap category v (some ty)
      = match M.setTypeHint v.Lhand (some ty) with
        | none => none
        | some lhand =>
          match M.setTypeHint v.Rhand (some ty) with
          | none => none
          | some rhand => some ⟨v.Op, lhand, rhand, v.Typ⟩) := by
  have hno : ¬ (v.Op = BinOpType.BINOP_BIT_LEFT ∨ v.Op = BinOpType.BINOP_BIT_RIGHT) := by
    rintro (h | h)
    · exact hshift.1 h
    · exact hshift.2 h
  have hboth : ∀ hint : Option Ty, BinaryExpr.hintBoth M v hint
      = match M.setTypeHint v.Lhand hint with
        | none => none
        | some lhand =>
          match M.setTypeHint v.Rhand hint with
          | none => none
          | some rhand => some ⟨v.Op, lhand, rhand, v.Typ⟩ := by
    intro hint
    simp only [BinaryExpr.hintBoth]
  refine ⟨?_, ?_, ?_, ?_, ?_⟩
  · intro rht hl hr
    rcases hcategory with hc | hc <;>
      simp only [BinaryExpr.setTypeHint, hc, hno, if_false, BinaryExpr.crossHint, hl, hr] <;>
      cases M.setTypeHint v.Lhand (some rht) <;> rfl
  · intro lht hl hr
    rcases hcategory with hc | hc <;>
      simp only [BinaryExpr.setTypeHint, hc, hno, if_false, BinaryExpr.crossHint, hl, hr] <;>
      cases M.setTypeHint v.Rhand (some lht) <;> rfl
  · intro lht rht hl hr
    rw [← hboth none]
    rcases hcategory with hc | hc <;>
      simp only [BinaryExpr.setTypeHint, hc, hno, if_false, BinaryExpr.crossHint, hl, hr]
  · intro hl hr
    rw [← hboth none]
    rcases hcategory with hc | hc <;>
      simp only [BinaryExpr.setTypeHint, hc, hno, if_false, BinaryExpr.crossHint, hl, hr]
  · intro ty
    rw [← hboth (some ty)]
    rcases hcategory with hc | hc <;>
      simp only [BinaryExpr.setTypeHint, hc, hno, if_false]

/-- C28, at the expression `1 + x` with `x` typed `s8` and the literal `1` not yet typed: the
hint `nil` types the literal `s8` and leaves `x` alone. At the expression `1 + 2` with
neither literal typed: the hint `nil` hints both with `nil`, which types both `int`, and the
hint `s16` types both `s16`. At `1 + 2` with both literals typed `s8`: the hint `nil` hints
both with `nil`, which types both `int`. -/
theorem BinaryExpr_setTypeHint_cross_hints_witness :
    BinaryExpr.setTypeHint (Expr.methods voidFunctionHeap 1) voidFunctionHeap BinOpType.Category
        (⟨BinOpType.BINOP_ADD, Expr.Other (Sum.inr ⟨1, false, none⟩),
          Expr.Other (Sum.inl ⟨⟨"x", some (Primitive PRIMITIVE_s8)⟩⟩), none⟩ :
          BinaryExpr (VariableAccessExpr ⊕ NumericLiteral)) none
      = some ⟨BinOpType.BINOP_ADD, Expr.Other (Sum.inr ⟨1, false, some (Primitive PRIMITIVE_s8)⟩),
          Expr.Other (Sum.inl ⟨⟨"x", some (Primitive PRIMITIVE_s8)⟩⟩), none⟩ ∧
    BinaryExpr.setTypeHint (Expr.methods voidFunctionHeap 1) voidFunctionHeap BinOpType.Category
        (⟨BinOpType.BINOP_ADD, Expr.Other ⟨1, false, none⟩, Expr.Other ⟨2, false, none⟩, none⟩ :
          BinaryExpr NumericLiteral) none
      = some ⟨BinOpType.BINOP_ADD, integerLiteral 1 (Primitive PRIMITIVE_int),
          integerLiteral 2 (Primitive PRIMITIVE_int), none⟩ ∧
    BinaryExpr.setTypeHint (Expr.methods voidFunctionHeap 1) voidFunctionHeap BinOpType.Category
        (⟨BinOpType.BINOP_ADD, Expr.Other ⟨1, false, none⟩, Expr.Other ⟨2, false, none⟩, none⟩ :
          BinaryExpr NumericLiteral) (some (Primitive PRIMITIVE_s16))
      = some ⟨BinOpType.BINOP_ADD, integerLiteral 1 (Primitive PRIMITIVE_s16),
          integerLiteral 2 (Primitive PRIMITIVE_s16), none⟩ ∧
    BinaryExpr.setTypeHint (Expr.methods voidFunctionHeap 1) voidFunctionHeap BinOpType.Category
        (⟨BinOpType.BINOP_ADD, integerLiteral 1 (Primitive PRIMITIVE_s8),
          integerLiteral 2 (Primitive PRIMITIVE_s8), none⟩ : BinaryExpr NumericLiteral) none
      = some ⟨BinOpType.BINOP_ADD, integerLiteral 1 (Primitive PRIMITIVE_int),
          integerLiteral 2 (Primitive PRIMITIVE_int), none⟩ :=
  ⟨(BinaryExpr_setTypeHint_cross_hints (Expr.methods voidFunctionHeap 1) voidFunctionHeap
      BinOpType.Category
      (⟨BinOpType.BINOP_ADD, Expr.Other (Sum.inr ⟨1, false, none⟩),
        Expr.Other (Sum.inl ⟨⟨"x", some (Primitive PRIMITIVE_s8)⟩⟩), none⟩ :
        BinaryExpr (VariableAccessExpr ⊕ NumericLiteral))
      (Or.inl rfl) (by decide)).1 (Primitive PRIMITIVE_s8) rfl rfl,
    (BinaryExpr_setTypeHint_cross_hints (Expr.methods voidFunctionHeap 1) voidFunctionHeap
      BinOpType.Category
      (⟨BinOpType.BINOP_ADD, Expr.Other ⟨1, false, none⟩, Expr.Other ⟨2, false, none⟩, none⟩ :
        BinaryExpr NumericLiteral)
      (Or.inl rfl) (by decide)).2.2.2.1 rfl rfl,
    (BinaryExpr_setTypeHint_cross_hints (Expr.methods voidFunctionHeap 1) voidFunctionHeap
      BinOpType.Category
      (⟨BinOpType.BINOP_ADD, Expr.Other ⟨1, false, none⟩, Expr.Other ⟨2, false, none⟩, none⟩ :
        BinaryExpr NumericLiteral)
      (Or.inl rfl) (by decide)).2.2.2.2 (Primitive PRIMITIVE_s16),
    (BinaryExpr_setTypeHint_cross_hints (Expr.methods voidFunctionHeap 1) voidFunctionHeap
      BinOpType.Category
      (⟨BinOpType.BINOP_ADD, integerLiteral 1 (Primitive PRIMITIVE_s8),
        integerLiteral 2 (Primitive PRIMITIVE_s8), none⟩ : BinaryExpr NumericLiteral)
      (Or.inl rfl) (by decide)).2.2.1 (Primitive PRIMITIVE_s8) (Primitive PRIMITIVE_s8) rfl rfl⟩

/-- A numeric literal has a type after every hint. -/
theorem NumericLiteral_setTypeHint_typed (v : NumericLiteral) (t : Option Ty) :
    (v.setTypeHint t).Typ ≠ none := by
  cases t with
  | none =>
      simp only [NumericLiteral.setTypeHint]
      split <;> simp
  | some ty =>
      simp only [NumericLiteral.setTypeHint]
      split <;> split <;> simp

/-- C29: `setTypeHint` of a unary, a binary and a dereference expression leaves the `Type`
field (and the operator) of the node as it is and only hands hints to the operands, for
every hint; the methods `setTypeHint` with an empty body change nothing; and the methods of
the numeric, the composite and the tuple literal assign the `Type` field: the numeric one
always, the composite one the hint whose actual type is a struct or an array type, the tuple
one the hint whose actual type is a tuple type. -/
theorem setTypeHint_assigns_only_in_literals {L : Type} [ExprNode L] (M : ExprMethods L)
    (heap : FunctionHeap) (category : BinOpType → OpCategory) (t : Option Ty) :
    (∀ v hinted : UnaryExpr L, UnaryExpr.setTypeHint M v t = some hinted →
      hinted.Typ = v.Typ ∧ hinted.Op = v.Op ∧ ∃ hint, M.setTypeHint v.Expr hint = some hinted.Expr) ∧
    (∀ v hinted : BinaryExpr L, BinaryExpr.setTypeHint M heap category v t = some hinted →
      hinted.Typ = v.Typ ∧ hinted.Op = v.Op ∧
      (hinted.Lhand = v.Lhand ∨ ∃ hint, M.setTypeHint v.Lhand hint = some hinted.Lhand) ∧
      (hinted.Rhand = v.Rhand ∨ ∃ hint, M.setTypeHint v.Rhand hint = some hinted.Rhand)) ∧
    (∀ v hinted : DerefAccessExpr L, DerefAccessExpr.setTypeHint M v t = some hinted →
      hinted.Typ = v.Typ ∧ M.setTypeHint v.Expr (some (PointerTo t)) = some hinted.Expr) ∧
    (∀ (N : Type) (v : N), setTypeHintEmpty v t = v) ∧
    (∀ v : NumericLiteral, (v.setTypeHint t).Typ ≠ none) ∧
    (∀ (v : CompositeLiteral L) (ty : Ty) vars attrs, t = some ty →
      ty.ActualType = Ty.Struct vars attrs → (v.setTypeHint t).Typ = some ty) ∧
    (∀ (v : CompositeLiteral L) (ty : Ty) memberType attrs, t = some ty →
      ty.ActualType = Ty.Array memberType attrs → (v.setTypeHint t).Typ = some ty) ∧
    (∀ (v : TupleLiteral L) (ty : Ty) members, t = some ty →
      ty.ActualType = Ty.Tuple members → (v.setTypeHint t).Typ = some ty) := by
  have hboth : ∀ (v hinted : BinaryExpr L) (hint : Option Ty),
      BinaryExpr.hintBoth M v hint = some hinted →
      hinted.Typ = v.Typ ∧ hinted.Op = v.Op ∧
      (hinted.Lhand = v.Lhand ∨ ∃ hint, M.setTypeHint v.Lhand hint = some hinted.Lhand) ∧
      (hinted.Rhand = v.Rhand ∨ ∃ hint, M.setTypeHint v.Rhand hint = some hinted.Rhand) := by
    intro v hinted hint h
    simp only [BinaryExpr.hintBoth] at h
    cases hl : M.setTypeHint v.Lhand hint with
    | none => simp [hl] at h
    | some lhand =>
        cases hr : M.setTypeHint v.Rhand hint with
        | none => simp [hl, hr] at h
        | some rhand =>
            simp only [hl, hr, Option.some.injEq] at h
            subst h
            exact ⟨rfl, rfl, Or.inr ⟨hint, hl⟩, Or.inr ⟨hint, hr⟩⟩
  have hcross : ∀ (v hinted : BinaryExpr L),
      BinaryExpr.crossHint M heap v = some (some hinted) →
      hinted.Typ = v.Typ ∧ hinted.Op = v.Op ∧
      (hinted.Lhand = v.Lhand ∨ ∃ hint, M.setTypeHint v.Lhand hint = some hinted.Lhand) ∧
      (hinted.Rhand = v.Rhand ∨ ∃ hint, M.setTypeHint v.Rhand hint = some hinted.Rhand) := by
    intro v hinted h
    simp only [BinaryExpr.crossHint] at h
    split at h
    · rename_i rht _ _
      cases hl : M.setTypeHint v.Lhand (some rht) with
      | none => simp [hl] at h
      | some lhand =>
          simp only [hl, Option.map_some', Option.some.injEq] at h
          subst h
          exact ⟨rfl, rfl, Or.inr ⟨_, hl⟩, Or.inl rfl⟩
    · rename_i lht _ _
      cases hr : M.setTypeHint v.Rhand (some lht) with
      | none => simp [hr] at h
      | some rhand =>
          simp only [hr, Option.map_some', Option.some.injEq] at h
          subst h
          exact ⟨rfl, rfl, Or.inl rfl, Or.inr ⟨_, hr⟩⟩
    · simp at h
    · simp at h
  have hfall : ∀ (v hinted : BinaryExpr L),
      (match BinaryExpr.crossHint M heap v with
        | none => none
        | some (some hinted) => some hinted
        | some none => BinaryExpr.hintBoth M v none) = some hinted →
      hinted.Typ = v.Typ ∧ hinted.Op = v.Op ∧
      (hinted.Lhand = v.Lhand ∨ ∃ hint, M.setTypeHint v.Lhand hint = some hinted.Lhand) ∧
      (hinted.Rhand = v.Rhand ∨ ∃ hint, M.setTypeHint v.Rhand hint = some hinted.Rhand) := by
    intro v hinted h
    cases hc : BinaryExpr.crossHint M heap v with
    | none => simp [hc] at h
    | some r =>
        cases r with
        | none =>
            simp only [hc] at h
            exact hboth v hinted none h
        | some w =>
            simp only [hc, Option.some.injEq] at h
            subst h
            exact hcross v _ hc
  have hshifted : ∀ (v hinted : BinaryExpr L),
      (match M.setTypeHint v.Rhand none with
        | none => none
        | some rhand =>
          match M.setTypeHint v.Lhand t with
          | none => none
          | some lhand => some { v with Lhand := lhand, Rhand := rhand }) = some hinted →
      hinted.Typ = v.Typ ∧ hinted.Op = v.Op ∧
      (hinted.Lhand = v.Lhand ∨ ∃ hint, M.setTypeHint v.Lhand hint = some hinted.Lhand) ∧
      (hinted.Rhand = v.Rhand ∨ ∃ hint, M.setTypeHint v.Rhand hint = some hinted.Rhand) := by
    intro v hinted h
    cases hr : M.setTypeHint v.Rhand none with
    | none => simp [hr] at h
    | some rhand =>
        cases hl : M.setTypeHint v.Lhand t with
        | none => simp [hr, hl] at h
        | some lhand =>
            simp only [hr, hl, Option.some.injEq] at h
            subst h
            exact ⟨rfl, rfl, Or.inr ⟨_, hl⟩, Or.inr ⟨_, hr⟩⟩
  refine ⟨?_, ?_, ?_, ?_, ?_, ?_, ?_, ?_⟩
  · intro v hinted h
    simp only [UnaryExpr.setTypeHint] at h
    split at h
    · cases he : M.setTypeHint v.Expr (some (Primitive PRIMITIVE_bool)) with
      | none => simp [he] at h
      | some e =>
          simp only [he, Option.map_some', Option.some.injEq] at h
          subst h
          exact ⟨rfl, rfl, _, he⟩
    · cases he : M.setTypeHint v.Expr t with
      | none => simp [he] at h
      | some e =>
          simp only [he, Option.map_some', Option.some.injEq] at h
          subst h
          exact ⟨rfl, rfl, _, he⟩
    · cases he : M.setTypeHint v.Expr t with
      | none => simp [he] at h
      | some e =>
          simp only [he, Option.map_some', Option.some.injEq] at h
          subst h
          exact ⟨rfl, rfl, _, he⟩
    · simp at h
  · intro v hinted h
    simp only [BinaryExpr.setTypeHint] at h
    cases hc : category v.Op <;> simp only [hc] at h
    · by_cases hs : v.Op = BinOpType.BINOP_BIT_LEFT ∨ v.Op = BinOpType.BINOP_BIT_RIGHT
      · simp only [hs, if_true] at h
        exact hshifted v hinted h
      · simp only [hs, if_false] at h
        cases t with
        | none => exact hfall v hinted h
        | some ty => exact hboth v hinted _ h
    · exact hfall v hinted h
    · by_cases hs : v.Op = BinOpType.BINOP_BIT_LEFT ∨ v.Op = BinOpType.BINOP_BIT_RIGHT
      · simp only [hs, if_true] at h
        exact hshifted v hinted h
      · simp only [hs, if_false] at h
        cases t with
        | none => exact hfall v hinted h
        | some ty => exact hboth v hinted _ h
    · exact hboth v hinted _ h
    · simp at h
  · intro v hinted h
    simp only [DerefAccessExpr.setTypeHint] at h
    cases he : M.setTypeHint v.Expr (some (PointerTo t)) with
    | none => simp [he] at h
    | some e =>
        simp only [he, Option.map_some', Option.some.injEq] at h
        subst h
        exact ⟨rfl, rfl⟩
  · intro N v
    rfl
  · intro v
    exact NumericLiteral_setTypeHint_typed v t
  · intro v ty vars attrs ht hactual
    simp [CompositeLiteral.setTypeHint, ht, hactual]
  · intro v ty memberType attrs ht hactual
    simp [CompositeLiteral.setTypeHint, ht, hactual]
  · intro v ty members ht hactual
    simp [TupleLiteral.setTypeHint, ht, hactual]

/-- C29, at the expression `-5`, hinted with `s8`: the hint types the literal and leaves the
type of the unary expression `nil`; and the composite literal hinted with the struct type
`Point` is typed `Point`. -/
theorem setTypeHint_assigns_only_in_literals_witness :
    UnaryExpr.setTypeHint (Expr.methods voidFunctionHeap 1)
        (⟨UnOpType.UNOP_NEGATIVE, Expr.Other ⟨5, false, none⟩, none⟩ : UnaryExpr NumericLiteral)
        (some (Primitive PRIMITIVE_s8))
      = some ⟨UnOpType.UNOP_NEGATIVE, Expr.Other ⟨5, false, some (Primitive PRIMITIVE_s8)⟩, none⟩ ∧
    (⟨UnOpType.UNOP_NEGATIVE, Expr.Other ⟨5, false, some (Primitive PRIMITIVE_s8)⟩, none⟩ :
        UnaryExpr NumericLiteral).Typ = none ∧
    (CompositeLiteral.setTypeHint (⟨none, [], []⟩ : CompositeLiteral NumericLiteral)
        (some pointType)).Typ = some pointType :=
  ⟨rfl,
    ((setTypeHint_assigns_only_in_literals (Expr.methods voidFunctionHeap 1) voidFunctionHeap
      BinOpType.Category (some (Primitive PRIMITIVE_s8))).1
      (⟨UnOpType.UNOP_NEGATIVE, Expr.Other ⟨5, false, none⟩, none⟩ : UnaryExpr NumericLiteral)
      ⟨UnOpType.UNOP_NEGATIVE, Expr.Other ⟨5, false, some (Primitive PRIMITIVE_s8)⟩, none⟩
      (by rfl)).1,
    (setTypeHint_assigns_only_in_literals (Expr.methods voidFunctionHeap 1) voidFunctionHeap
      BinOpType.Category (some pointType)).2.2.2.2.2.1
      (⟨none, [], []⟩ : CompositeLiteral NumericLiteral) pointType
      [("x", Primitive PRIMITIVE_s32), ("y", Primitive PRIMITIVE_s32)] [] rfl rfl⟩

/-- C27: `BinaryExpr.infer` on `==` or `!=`, with a left operand that is inferred to the
type `T` and a numeric literal as the right operand: the literal is hinted with `T`, the left
operand is the inferred one, and the type of the expression is `bool`, whatever `T` is; the
literal is typed `T` when the actual type of `T` is a primitive of the kind of the literal. -/
theorem BinaryExpr_infer_equality {K : Type} [ExprNode K] (heap : FunctionHeap)
    (category : BinOpType → OpCategory) (fuel : Nat) (op : BinOpType)
    (lhand inferred : Expr (K ⊕ NumericLiteral)) (lit : NumericLiteral) (ty : Option Ty)
    (s s1 : TypeInferer) (T : Ty)
    (hop : op = BinOpType.BINOP_EQ ∨ op = BinOpType.BINOP_NOT_EQ)
    (hleft : (Expr.methods heap (fuel + 1)).infer lhand s = some (inferred, s1))
    (htype : inferred.GetType heap = some (some T)) :
    BinaryExpr.infer (Expr.methods heap (fuel + 1)) heap category
        ⟨op, lhand, Expr.Other (Sum.inr lit), ty⟩ s
      = some (⟨op, inferred, Expr.Other (Sum.inr (lit.setTypeHint (some T))),
          some (Primitive PRIMITIVE_bool)⟩, s1) ∧
    (∀ p, T.ActualType = Primitive p →
      (if lit.IsFloat = true then p.IsFloatingType = true else p.IsIntegerType = true) →
      (lit.setTypeHint (some T)).Typ = some T) := by
  constructor
  · have hhint : (Expr.methods heap (fuel + 1)).setTypeHint
        (Expr.Other (Sum.inr lit) : Expr (K ⊕ NumericLiteral)) (some T)
        = some (Expr.Other (Sum.inr (lit.setTypeHint (some T)))) := rfl
    have hinfer : (Expr.methods heap (fuel + 1)).infer
        (Expr.Other (Sum.inr (lit.setTypeHint (some T))) : Expr (K ⊕ NumericLiteral)) s1
        = some (Expr.Other (Sum.inr (lit.setTypeHint (some T))), s1) := rfl
    have hboth : BinaryExpr.inferHinted (Expr.methods heap (fuel + 1)) heap
        ⟨op, lhand, Expr.Other (Sum.inr lit), ty⟩ s
        = some (⟨op, inferred, Expr.Other (Sum.inr (lit.setTypeHint (some T))), ty⟩,
            some T, s1) := by
      simp only [BinaryExpr.inferHinted, hleft, htype, hhint, hinfer]
    rcases hop with hop | hop <;> subst hop <;> simp only [BinaryExpr.infer, hboth]
  · intro p hactual hkind
    unfold NumericLiteral.setTypeHint
    simp only [hactual]
    cases hf : lit.IsFloat <;> simp only [hf] at hkind <;> cases p <;>
      simp_all [PrimitiveType.IsFloatingType, PrimitiveType.IsIntegerType]

/-- C27, at the expression `x == 5` with `x` typed `s8`: the literal is typed `s8` and the
expression `bool`. -/
theorem BinaryExpr_infer_equality_witness :
    BinaryExpr.infer (Expr.methods voidFunctionHeap 1) voidFunctionHeap BinOpType.Category
        (⟨BinOpType.BINOP_EQ, Expr.Other (Sum.inl ⟨⟨"x", some (Primitive PRIMITIVE_s8)⟩⟩),
          Expr.Other (Sum.inr ⟨5, false, none⟩), none⟩ :
          BinaryExpr (VariableAccessExpr ⊕ NumericLiteral)) TypeInferer.start
      = some (⟨BinOpType.BINOP_EQ, Expr.Other (Sum.inl ⟨⟨"x", some (Primitive PRIMITIVE_s8)⟩⟩),
          Expr.Other (Sum.inr ⟨5, false, some (Primitive PRIMITIVE_s8)⟩),
          some (Primitive PRIMITIVE_bool)⟩, TypeInferer.start) :=
  (@BinaryExpr_infer_equality VariableAccessExpr _ voidFunctionHeap BinOpType.Category 0
    BinOpType.BINOP_EQ
    (Expr.Other (Sum.inl ⟨⟨"x", some (Primitive PRIMITIVE_s8)⟩⟩))
    (Expr.Other (Sum.inl ⟨⟨"x", some (Primitive PRIMITIVE_s8)⟩⟩)) ⟨5, false, none⟩ none
    TypeInferer.start TypeInferer.start (Primitive PRIMITIVE_s8) (Or.inl rfl) (by rfl)
    (by rfl)).1

/-! ## Composite literals -/

/-- An integer literal hinted with an integer primitive of looked-up width takes it as its
type. -/
theorem NumericLiteral_setTypeHint_integer_primitive (lit : NumericLiteral) (p : PrimitiveType)
    (w : Nat) (hint : lit.IsFloat = false) (hw : literalBits (Primitive p) = some w) :
    lit.setTypeHint (some (Primitive p)) = { lit with Typ := some (Primitive p) } := by
  simp only [NumericLiteral.setTypeHint, hint, ActualType]
  cases p <;> simp [literalBits] at hw ⊢

/-- The loop of `CompositeLiteral.infer` for a struct type, on values that are integer
literals, each under the name of a member whose type is an integer primitive: every literal
is typed with the type of its member, and nothing is reported. -/
theorem inferStructValues_integer_literals (heap : FunctionHeap) (fuel : Nat)
    (vars : List (String × Ty)) :
    ∀ (entries : List (String × NumericLiteral)) (s : TypeInferer),
      (∀ e ∈ entries, e.2.IsFloat = false ∧
        ∃ decl p w, GetVariableDecl vars e.1 = some decl ∧ decl.2 = Primitive p ∧
          literalBits (Primitive p) = some w) →
      inferStructValues (Expr.methods heap (fuel + 1)) vars
          (entries.map (fun e => Expr.Other e.2)) (entries.map (fun e => e.1)) s
        = some (entries.map (fun e => Expr.Other
            { e.2 with Typ := (GetVariableDecl vars e.1).map (fun decl => decl.2) }), s)
  | [], _, _ => rfl
  | e :: entries, s, h => by
      obtain ⟨hint, decl, p, w, hdecl, hp, hw⟩ := h e (List.mem_cons_self _ _)
      have ih := inferStructValues_integer_literals heap fuel vars entries s
        (fun e2 he2 => h e2 (List.mem_cons_of_mem _ he2))
      have hhint : (Expr.methods heap (fuel + 1)).setTypeHint
          (Expr.Other e.2 : Expr NumericLiteral) (some (Primitive p))
          = some (Expr.Other (e.2.setTypeHint (some (Primitive p)))) := rfl
      have hinfer : ∀ lit : NumericLiteral, (Expr.methods heap (fuel + 1)).infer
          (Expr.Other lit : Expr NumericLiteral) s = some (Expr.Other lit, s) := fun _ => rfl
      simp only [List.map, inferStructValues, hdecl, hhint, hinfer, ih, Option.map_some', hp,
        NumericLiteral_setTypeHint_integer_primitive e.2 p w hint hw]

/-- The loop of `CheckCompositeLiteral` for a struct type, on values that are integer
literals, each typed with the type of the member it is named after, an integer primitive:
nothing is reported. -/
theorem checkStructValues_integer_literals (heap : FunctionHeap) (vars : List (String × Ty)) :
    ∀ (entries : List (String × NumericLiteral)) (sem : SemanticAnalyzer),
      (∀ e ∈ entries, e.1 ≠ "" ∧
        ∃ decl p, GetVariableDecl vars e.1 = some decl ∧ decl.2 = Primitive p) →
      checkStructValues heap vars
          (entries.map (fun e => (Expr.Other
            { e.2 with Typ := (GetVariableDecl vars e.1).map (fun decl => decl.2) } :
              Expr NumericLiteral)))
          (entries.map (fun e => e.1)) sem
        = some sem
  | [], _, _ => rfl
  | e :: entries, sem, h => by
      obtain ⟨hname, decl, p, hdecl, hp⟩ := h e (List.mem_cons_self _ _)
      have ih := checkStructValues_integer_literals heap vars entries sem
        (fun e2 he2 => h e2 (List.mem_cons_of_mem _ he2))
      have hempty : (e.1 == "") = false := by simpa using hname
      simp only [List.map, checkStructValues, hempty, hdecl, Option.map_some', hp]
      simp [Expr.typeForCall, Expr.GetType, ExprNode.GetType, NumericLiteral.GetType, Equals, ih]

/-- C21: a composite literal whose values are integer literals, each under the name of a
member of the struct type that `S` names, a member whose type is an integer primitive at
least as wide as the bit length of the value. After `setTypeHint(S)` the literal is typed
`S`; `infer` then types every value with the declared type of its member and reports
nothing; and `CheckCompositeLiteral` on the literal and `CheckNumericLiteral` on each value
report no error and no warning. -/
theorem CompositeLiteral_of_integer_literals (heap : FunctionHeap) (fuel : Nat)
    (s : TypeInferer) (sem : SemanticAnalyzer) (S : Ty) (vars : List (String × Ty))
    (attrs : AttrGroup) (before : Option Ty) (entries : List (String × NumericLiteral))
    (hS : S.ActualType = Ty.Struct vars attrs)
    (hentries : ∀ e ∈ entries, e.2.IsFloat = false ∧ e.1 ≠ "" ∧
      ∃ decl p w, GetVariableDecl vars e.1 = some decl ∧ decl.2 = Primitive p ∧
        literalBits (Primitive p) = some w ∧ BitLen e.2.IntValue ≤ w) :
    CompositeLiteral.setTypeHint
        ⟨before, entries.map (fun e => e.1), entries.map (fun e => Expr.Other e.2)⟩ (some S)
      = ⟨some S, entries.map (fun e => e.1), entries.map (fun e => Expr.Other e.2)⟩ ∧
    CompositeLiteral.infer (Expr.methods heap (fuel + 1))
        ⟨some S, entries.map (fun e => e.1), entries.map (fun e => Expr.Other e.2)⟩ s
      = some (⟨some S, entries.map (fun e => e.1),
          entries.map (fun e => Expr.Other
            { e.2 with Typ := (GetVariableDecl vars e.1).map (fun decl => decl.2) })⟩, s) ∧
    CheckCompositeLiteral heap sem
        ⟨some S, entries.map (fun e => e.1),
          entries.map (fun e => (Expr.Other
            { e.2 with Typ := (GetVariableDecl vars e.1).map (fun decl => decl.2) } :
              Expr NumericLiteral))⟩
      = some sem ∧
    (∀ e ∈ entries,
      CheckNumericLiteral sem
          { e.2 with Typ := (GetVariableDecl vars e.1).map (fun decl => decl.2) }
        = some sem) := by
  refine ⟨?_, ?_, ?_, ?_⟩
  · simp [CompositeLiteral.setTypeHint, hS]
  · have h := inferStructValues_integer_literals heap fuel vars entries s (fun e he => by
      obtain ⟨hint, _, decl, p, w, hdecl, hp, hw, _⟩ := hentries e he
      exact ⟨hint, decl, p, w, hdecl, hp, hw⟩)
    simp only [CompositeLiteral.infer, hS, h, Option.map_some']
  · have h := checkStructValues_integer_literals heap vars entries sem (fun e he => by
      obtain ⟨_, hname, decl, p, w, hdecl, hp, _, _⟩ := hentries e he
      exact ⟨hname, decl, p, hdecl, hp⟩)
    simp only [CheckCompositeLiteral, hS, h]
  · intro e he
    obtain ⟨hint, _, decl, p, w, hdecl, hp, hw, hlen⟩ := hentries e he
    have hcheck := CheckNumericLiteral_of_integer sem e.2.IntValue (Primitive p) p w rfl hw
    have hnot : ¬ w < BitLen e.2.IntValue := by omega
    simp only [hnot, if_false] at hcheck
    have hlit : ({ e.2 with Typ := (GetVariableDecl vars e.1).map (fun decl => decl.2) } :
        NumericLiteral) = ⟨e.2.IntValue, false, some (Primitive p)⟩ := by
      simp [hdecl, hp, hint]
    rw [hlit]
    exact hcheck

/-- C21, at the struct `Point` with the members `x` and `y` of type `s32` and the literal
`Point{x: 1, y: 2}`: the hint types the literal `Point`, the inference types both values
`s32`, and the checks of the literal and of the value `1` report nothing. -/
theorem CompositeLiteral_of_integer_literals_witness :
    CompositeLiteral.setTypeHint
        (⟨none, ["x", "y"], [Expr.Other ⟨1, false, none⟩, Expr.Other ⟨2, false, none⟩]⟩ :
          CompositeLiteral NumericLiteral) (some pointType)
      = ⟨some pointType, ["x", "y"],
          [Expr.Other ⟨1, false, none⟩, Expr.Other ⟨2, false, none⟩]⟩ ∧
    CompositeLiteral.infer (Expr.methods voidFunctionHeap 1)
        ⟨some pointType, ["x", "y"],
          [Expr.Other ⟨1, false, none⟩, Expr.Other ⟨2, false, none⟩]⟩ TypeInferer.start
      = some (⟨some pointType, ["x", "y"],
          [integerLiteral 1 (Primitive PRIMITIVE_s32),
            integerLiteral 2 (Primitive PRIMITIVE_s32)]⟩, TypeInferer.start) ∧
    CheckCompositeLiteral voidFunctionHeap ⟨[]⟩
        ⟨some pointType, ["x", "y"],
          [integerLiteral 1 (Primitive PRIMITIVE_s32),
            integerLiteral 2 (Primitive PRIMITIVE_s32)]⟩
      = some ⟨[]⟩ ∧
    CheckNumericLiteral ⟨[]⟩ ⟨1, false, some (Primitive PRIMITIVE_s32)⟩ = some ⟨[]⟩ :=
  have h := CompositeLiteral_of_integer_literals voidFunctionHeap 0 TypeInferer.start ⟨[]⟩
    pointType [("x", Primitive PRIMITIVE_s32), ("y", Primitive PRIMITIVE_s32)] [] none
    [("x", ⟨1, false, none⟩), ("y", ⟨2, false, none⟩)] rfl (by
      intro e he
      simp only [List.mem_cons, List.mem_singleton, List.not_mem_nil, or_false] at he
      rcases he with rfl | rfl
      · exact ⟨rfl, by decide, ("x", Primitive PRIMITIVE_s32), PRIMITIVE_s32, 32, rfl, rfl, rfl,
          by decide⟩
      · exact ⟨rfl, by decide, ("y", Primitive PRIMITIVE_s32), PRIMITIVE_s32, 32, rfl, rfl, rfl,
          by decide⟩)
  ⟨h.1, h.2.1, h.2.2.1, h.2.2.2 ("x", ⟨1, false, none⟩) (by simp)⟩

/-! ## Inference run twice -/

/-- C24, on the code: the member access `p.x` through a pointer `p` to the named struct type
`Point`. The first inference wraps `p` in a dereference typed with the actual type of the
addressee, the struct type itself, and binds the member; every node then has a type. The
second inference keeps the structure and runs `DerefAccessExpr.infer` on the inserted node,
which types it with the addressee, the named type `Point`: the `Type` of that node is not
what the first run left, and the two types are not equal. -/
theorem StructAccessExpr_infer_twice_retypes_dereference (fuel : Nat) :
    StructAccessExpr.infer (Expr.methods voidFunctionHeap (fuel + 2)) voidFunctionHeap
        ⟨variableAccess "p" (Pointer pointType), "x", none⟩ TypeInferer.start
      = some (⟨Expr.DerefAccessExpr (variableAccess "p" (Pointer pointType)) (some pointStruct),
          "x", some ⟨"x", some (Primitive PRIMITIVE_s32)⟩⟩, TypeInferer.start) ∧
    StructAccessExpr.infer (Expr.methods voidFunctionHeap (fuel + 2)) voidFunctionHeap
        ⟨Expr.DerefAccessExpr (variableAccess "p" (Pointer pointType)) (some pointStruct),
          "x", some ⟨"x", some (Primitive PRIMITIVE_s32)⟩⟩ TypeInferer.start
      = some (⟨Expr.DerefAccessExpr (variableAccess "p" (Pointer pointType)) (some pointType),
          "x", some ⟨"x", some (Primitive PRIMITIVE_s32)⟩⟩, TypeInferer.start) ∧
    pointStruct ≠ pointType ∧
    Equals pointType (some pointStruct) = some false ∧
    Equals pointStruct (some pointType) = some false := by
  refine ⟨rfl, rfl, ?_, by decide, by decide⟩
  intro h
  have h2 : Equals pointType (some pointStruct) = Equals pointType (some pointType) := by
    rw [h]
  revert h2
  decide

/-! ## Tuple literals of literals, inferred twice -/

/-- The types of a list of types, none of them `nil`. -/
theorem allTypes_map_some : ∀ types : List Ty, allTypes (types.map some) = some types
  | [] => rfl
  | t :: types => by simp [allTypes, allTypes_map_some types]

/-- The type that `TupleLiteral.infer` builds from member types, none of them `nil`. -/
theorem tupleOfMembers_map_some (types : List Ty) :
    tupleOfMembers (types.map some) = some (some (tupleOf types)) := by
  match types with
  | [] => rfl
  | [t] => rfl
  | t1 :: t2 :: rest =>
      simp only [tupleOfMembers, List.map, allTypes, allTypes_map_some rest, Option.map_some']

/-- The loop over inferred members that all have a type reports nothing. -/
theorem collectMemberTypes_of_typed :
    ∀ (members : List LiteralExpr) (types : List Ty) (s : TypeInferer),
      members.map LiteralExpr.GetType = types.map some →
      collectMemberTypes members s = (types.map some, s)
  | [], [], _, _ => rfl
  | [], _ :: _, _, h => by simp at h
  | _ :: _, [], _, h => by simp at h
  | member :: members, t :: types, s, h => by
      simp only [List.map, List.cons.injEq] at h
      have ih := collectMemberTypes_of_typed members types s h.2
      simp [collectMemberTypes, h.1, ih]

/-- The type `tupleOf` builds is no tuple type of one member, when no given type is. -/
theorem tupleOf_not_isTupleOfOne (types : List Ty)
    (h : ∀ T ∈ types, T.isTupleOfOne = false) : (tupleOf types).isTupleOfOne = false := by
  match types with
  | [] => rfl
  | [t] => exact h t (by simp)
  | t1 :: t2 :: rest => rfl

/-- The members of a literal, each of which infers stably: hinted with `nil` and inferred
they become members that have types, none a tuple type of one member, with nothing
reported; and these members, hinted with `nil` or with their own types and inferred again,
stay as they are. -/
theorem LiteralExpr.inferMembers_stably (stringType : Ty) :
    ∀ members : List LiteralExpr,
      (∀ member ∈ members, LiteralExpr.InfersStably stringType member) →
      ∃ (inferred : List LiteralExpr) (types : List Ty),
        (∀ s, LiteralExpr.inferMembers stringType
            (members.map (fun member => member.setTypeHint none)) s = some (inferred, s)) ∧
        inferred.map LiteralExpr.GetType = types.map some ∧
        (∀ T ∈ types, T.isTupleOfOne = false) ∧
        (∀ s, LiteralExpr.inferMembers stringType
            (inferred.map (fun member => member.setTypeHint none)) s = some (inferred, s)) ∧
        (∀ s, LiteralExpr.inferMembers stringType (hintMembers inferred types) s
            = some (inferred, s))
  | [], _ =>
      ⟨[], [], fun s => by simp [LiteralExpr.inferMembers], rfl, by simp,
        fun s => by simp [LiteralExpr.inferMembers],
        fun s => by simp [hintMembers, LiteralExpr.inferMembers]⟩
  | member :: members, h => by
      obtain ⟨e1, T, hfirst, htype, hone, hnil, hown⟩ := h member (List.mem_cons_self _ _)
      obtain ⟨inferred, types, hfirsts, htypes, hones, hnils, howns⟩ :=
        LiteralExpr.inferMembers_stably stringType members
          (fun m hm => h m (List.mem_cons_of_mem _ hm))
      refine ⟨e1 :: inferred, T :: types, ?_, ?_, ?_, ?_, ?_⟩
      · intro s
        simp [LiteralExpr.inferMembers, hfirst s, hfirsts s]
      · simp [htype, htypes]
      · intro T2 hT2
        rcases List.mem_cons.1 hT2 with rfl | hT2
        · exact hone
        · exact hones T2 hT2
      · intro s
        simp [LiteralExpr.inferMembers, hnil s, hnils s]
      · intro s
        simp [hintMembers, LiteralExpr.inferMembers, hown s, howns s]

/-- A type that is no tuple type of one member gives a tuple literal a number of member types
other than one. -/
theorem tupleMemberTypes_length_ne_one (T : Ty) (h : T.isTupleOfOne = false) :
    (tupleMemberTypes (some T)).length ≠ 1 := by
  unfold Ty.isTupleOfOne at h
  unfold tupleMemberTypes
  cases hA : T.ActualType with
  | Tuple members =>
      simp only [hA] at h ⊢
      match members, h with
      | [], _ => simp
      | [_], h => simp at h
      | _ :: _ :: _, _ => simp
  | _ => simp [hA]

/-- A tuple literal without a type whose members all infer stably: the inference types it
with `tupleOf` of the types of its inferred members and reports nothing, that type is no
tuple type of one member, and the typed literal inferred again stays as it is. -/
theorem LiteralExpr.infer_tuple_stably (stringType : Ty) (members : List LiteralExpr)
    (h : ∀ member ∈ members, LiteralExpr.InfersStably stringType member) :
    ∃ (inferred : List LiteralExpr) (types : List Ty),
      (∀ s, LiteralExpr.infer stringType (LiteralExpr.TupleLiteral none members) s
        = some (LiteralExpr.TupleLiteral (some (tupleOf types)) inferred, s)) ∧
      inferred.map LiteralExpr.GetType = types.map some ∧
      (tupleOf types).isTupleOfOne = false ∧
      (∀ s, LiteralExpr.infer stringType
          (LiteralExpr.TupleLiteral (some (tupleOf types)) inferred) s
        = some (LiteralExpr.TupleLiteral (some (tupleOf types)) inferred, s)) := by
  obtain ⟨inferred, types, hfirsts, htypes, hones, hnils, howns⟩ :=
    LiteralExpr.inferMembers_stably stringType members h
  have hlen : inferred.length = types.length := by
    have := congrArg List.length htypes
    simpa using this
  refine ⟨inferred, types, ?_, htypes, tupleOf_not_isTupleOfOne types hones, ?_⟩
  · intro s
    have hhinted : (if members.length = (tupleMemberTypes none).length
        then hintMembers members (tupleMemberTypes none)
        else members.map (fun member => member.setTypeHint none))
        = members.map (fun member => member.setTypeHint none) := by
      cases members <;> simp [tupleMemberTypes, hintMembers]
    rw [LiteralExpr.infer]
    simp only [hhinted, hfirsts s, collectMemberTypes_of_typed inferred types s htypes,
      tupleOfMembers_map_some]
  · intro s
    rw [LiteralExpr.infer]
    match types, htypes, hones, hnils, howns, hlen with
    | [], _, _, hnils, howns, hlen =>
        have hmt : tupleMemberTypes (some (tupleOf [])) = [] := rfl
        simp only [hmt, hlen, List.length_nil, if_true, howns s]
    | [T], _, hones, hnils, _, hlen =>
        have hne := tupleMemberTypes_length_ne_one T (hones T (by simp))
        have htuple : tupleOf [T] = T := rfl
        have hcond : ¬ inferred.length = (tupleMemberTypes (some T)).length := by
          rw [hlen]
          simpa using fun hh => hne hh.symm
        simp only [htuple, hcond, if_false, hnils s]
    | T1 :: T2 :: rest, _, _, _, howns, hlen =>
        have hmt : tupleMemberTypes (some (tupleOf (T1 :: T2 :: rest))) = T1 :: T2 :: rest := rfl
        simp only [hmt, hlen, if_true, howns s]

/-- A member of a list has at most the number of nodes of the list. -/
theorem LiteralExpr.size_le_sizeList :
    ∀ (members : List LiteralExpr) (member : LiteralExpr),
      member ∈ members → member.size ≤ LiteralExpr.sizeList members
  | [], _, h => by simp at h
  | m :: members, member, h => by
      rcases List.mem_cons.1 h with rfl | h
      · simp only [LiteralExpr.sizeList]
        omega
      · have := LiteralExpr.size_le_sizeList members member h
        simp only [LiteralExpr.sizeList]
        omega

/-- Every member of a list without types is without types. -/
theorem LiteralExpr.untyped_of_untypedList :
    ∀ (members : List LiteralExpr) (member : LiteralExpr),
      LiteralExpr.untypedList members = true → member ∈ members → member.untyped = true
  | [], _, _, h => by simp at h
  | m :: members, member, hu, h => by
      simp only [LiteralExpr.untypedList, Bool.and_eq_true] at hu
      rcases List.mem_cons.1 h with rfl | h
      · exact hu.1
      · exact LiteralExpr.untyped_of_untypedList members member hu.2 h

/-- A literal without types infers stably, when the builtin string type is no tuple type of
one member. -/
theorem LiteralExpr.infersStably_of_untyped (stringType : Ty)
    (hstring : stringType.isTupleOfOne = false) :
    ∀ (n : Nat) (e : LiteralExpr), e.size ≤ n → e.untyped = true →
      LiteralExpr.InfersStably stringType e
  | 0, e, hn, _ => by
      cases e <;> simp [LiteralExpr.size] at hn
  | n + 1, LiteralExpr.NumericLiteral ⟨value, isFloat, ty⟩, _, _ => by
      cases isFloat
      · exact ⟨LiteralExpr.NumericLiteral ⟨value, false, some (Primitive PRIMITIVE_int)⟩,
          Primitive PRIMITIVE_int, fun s => by
            simp [LiteralExpr.setTypeHint, NumericLiteral.setTypeHint, LiteralExpr.infer],
          rfl, rfl, fun s => by
            simp [LiteralExpr.setTypeHint, NumericLiteral.setTypeHint, LiteralExpr.infer],
          fun s => by
            simp [LiteralExpr.setTypeHint, NumericLiteral.setTypeHint, LiteralExpr.infer,
              ActualType]⟩
      · exact ⟨LiteralExpr.NumericLiteral ⟨value, true, some (Primitive PRIMITIVE_f64)⟩,
          Primitive PRIMITIVE_f64, fun s => by
            simp [LiteralExpr.setTypeHint, NumericLiteral.setTypeHint, LiteralExpr.infer],
          rfl, rfl, fun s => by
            simp [LiteralExpr.setTypeHint, NumericLiteral.setTypeHint, LiteralExpr.infer],
          fun s => by
            simp [LiteralExpr.setTypeHint, NumericLiteral.setTypeHint, LiteralExpr.infer,
              ActualType]⟩
  | n + 1, LiteralExpr.StringLiteral isCString ty, _, hu => by
      have hty : ty = none := by
        cases ty with
        | none => rfl
        | some _ => simp [LiteralExpr.untyped] at hu
      subst hty
      cases isCString
      · exact ⟨LiteralExpr.StringLiteral false (some stringType), stringType,
          fun s => by simp [LiteralExpr.setTypeHint, setTypeHintEmpty, LiteralExpr.infer],
          rfl, hstring,
          fun s => by simp [LiteralExpr.setTypeHint, setTypeHintEmpty, LiteralExpr.infer],
          fun s => by simp [LiteralExpr.setTypeHint, setTypeHintEmpty, LiteralExpr.infer]⟩
      · exact ⟨LiteralExpr.StringLiteral true (some (Pointer (Primitive PRIMITIVE_u8))),
          Pointer (Primitive PRIMITIVE_u8),
          fun s => by
            simp [LiteralExpr.setTypeHint, setTypeHintEmpty, LiteralExpr.infer, PointerTo],
          rfl, rfl,
          fun s => by simp [LiteralExpr.setTypeHint, setTypeHintEmpty, LiteralExpr.infer],
          fun s => by simp [LiteralExpr.setTypeHint, setTypeHintEmpty, LiteralExpr.infer]⟩
  | n + 1, LiteralExpr.RuneLiteral, _, _ =>
      ⟨LiteralExpr.RuneLiteral, Primitive PRIMITIVE_rune,
        fun s => by simp [LiteralExpr.setTypeHint, setTypeHintEmpty, LiteralExpr.infer],
        rfl, rfl,
        fun s => by simp [LiteralExpr.setTypeHint, setTypeHintEmpty, LiteralExpr.infer],
        fun s => by simp [LiteralExpr.setTypeHint, setTypeHintEmpty, LiteralExpr.infer]⟩
  | n + 1, LiteralExpr.BoolLiteral, _, _ =>
      ⟨LiteralExpr.BoolLiteral, Primitive PRIMITIVE_bool,
        fun s => by simp [LiteralExpr.setTypeHint, setTypeHintEmpty, LiteralExpr.infer],
        rfl, rfl,
        fun s => by simp [LiteralExpr.setTypeHint, setTypeHintEmpty, LiteralExpr.infer],
        fun s => by simp [LiteralExpr.setTypeHint, setTypeHintEmpty, LiteralExpr.infer]⟩
  | n + 1, LiteralExpr.TupleLiteral ty members, hn, hu => by
      simp only [LiteralExpr.untyped, Bool.and_eq_true, Option.isNone_iff_eq_none] at hu
      obtain ⟨hty, hmembers⟩ := hu
      subst hty
      simp only [LiteralExpr.size] at hn
      have hall : ∀ member ∈ members, LiteralExpr.InfersStably stringType member := by
        intro member hmem
        have hsize := LiteralExpr.size_le_sizeList members member hmem
        exact LiteralExpr.infersStably_of_untyped stringType hstring n member (by omega)
          (LiteralExpr.untyped_of_untypedList members member hmembers hmem)
      obtain ⟨inferred, types, hfirst, _, hone, hagain⟩ :=
        LiteralExpr.infer_tuple_stably stringType members hall
      refine ⟨LiteralExpr.TupleLiteral (some (tupleOf types)) inferred, tupleOf types,
        hfirst, rfl, hone, hagain, ?_⟩
      intro s
      have hhinted : (LiteralExpr.TupleLiteral (some (tupleOf types)) inferred).setTypeHint
          (some (tupleOf types)) = LiteralExpr.TupleLiteral (some (tupleOf types)) inferred := by
        simp only [LiteralExpr.setTypeHint]
        split <;> rfl
      rw [hhinted]
      exact hagain s

/-- C23: a tuple literal without a type whose members are literals (numeric, string, rune,
bool or tuple literals of such) without types, the builtin string type being no tuple type of
one member. The inference types the literal with the type `U` that `tupleOf` builds from the
types of the inferred members, and reports nothing; after `setTypeHint(U)` a second
inference leaves the type `U` and every member, with its type, as the first one left them,
and reports nothing. -/
theorem TupleLiteral_round_trip (stringType : Ty) (members : List LiteralExpr)
    (s : TypeInferer) (hstring : stringType.isTupleOfOne = false)
    (huntyped : LiteralExpr.untypedList members = true) :
    ∃ (U : Ty) (inferred : List LiteralExpr) (types : List Ty),
      LiteralExpr.infer stringType (LiteralExpr.TupleLiteral none members) s
        = some (LiteralExpr.TupleLiteral (some U) inferred, s) ∧
      inferred.map LiteralExpr.GetType = types.map some ∧ U = tupleOf types ∧
      LiteralExpr.infer stringType
          ((LiteralExpr.TupleLiteral (some U) inferred).setTypeHint (some U)) s
        = some (LiteralExpr.TupleLiteral (some U) inferred, s) := by
  have hall : ∀ member ∈ members, LiteralExpr.InfersStably stringType member := by
    intro member hmem
    exact LiteralExpr.infersStably_of_untyped stringType hstring member.size member
      (Nat.le_refl _) (LiteralExpr.untyped_of_untypedList members member huntyped hmem)
  obtain ⟨inferred, types, hfirst, htypes, _, hagain⟩ :=
    LiteralExpr.infer_tuple_stably stringType members hall
  refine ⟨tupleOf types, inferred, types, hfirst s, htypes, rfl, ?_⟩
  have hhinted : (LiteralExpr.TupleLiteral (some (tupleOf types)) inferred).setTypeHint
      (some (tupleOf types)) = LiteralExpr.TupleLiteral (some (tupleOf types)) inferred := by
    simp only [LiteralExpr.setTypeHint]
    split <;> rfl
  rw [hhinted]
  exact hagain s

/-- C23, at the literal `("a", (1, 2.5))`: the first inference types it
`(string, (int, f64))`, and the theorem gives the second inference after the hint with that
type. -/
theorem TupleLiteral_round_trip_witness :
    LiteralExpr.infer exampleStringType nestedTupleLiteral TypeInferer.start
      = some (LiteralExpr.TupleLiteral
          (some (Tuple [exampleStringType,
            Tuple [Primitive PRIMITIVE_int, Primitive PRIMITIVE_f64]]))
          [LiteralExpr.StringLiteral false (some exampleStringType),
            LiteralExpr.TupleLiteral
              (some (Tuple [Primitive PRIMITIVE_int, Primitive PRIMITIVE_f64]))
              [LiteralExpr.NumericLiteral ⟨1, false, some (Primitive PRIMITIVE_int)⟩,
                LiteralExpr.NumericLiteral ⟨0, true, some (Primitive PRIMITIVE_f64)⟩]],
          TypeInferer.start) ∧
    ∃ (U : Ty) (inferred : List LiteralExpr) (types : List Ty),
      LiteralExpr.infer exampleStringType nestedTupleLiteral TypeInferer.start
        = some (LiteralExpr.TupleLiteral (some U) inferred, TypeInferer.start) ∧
      inferred.map LiteralExpr.GetType = types.map some ∧ U = tupleOf types ∧
      LiteralExpr.infer exampleStringType
          ((LiteralExpr.TupleLiteral (some U) inferred).setTypeHint (some U)) TypeInferer.start
        = some (LiteralExpr.TupleLiteral (some U) inferred, TypeInferer.start) :=
  ⟨by
      simp [nestedTupleLiteral, LiteralExpr.infer, LiteralExpr.inferMembers, tupleMemberTypes,
        hintMembers, LiteralExpr.setTypeHint, NumericLiteral.setTypeHint, setTypeHintEmpty,
        collectMemberTypes, tupleOfMembers, allTypes, tupleOf, LiteralExpr.GetType,
        NumericLiteral.GetType],
    TupleLiteral_round_trip exampleStringType
      [LiteralExpr.StringLiteral false none,
        LiteralExpr.TupleLiteral none
          [LiteralExpr.NumericLiteral ⟨1, false, none⟩,
            LiteralExpr.NumericLiteral ⟨0, true, none⟩]]
      TypeInferer.start rfl (by decide)⟩

/-! ## Struct types, meta-variants and casts to an alias -/

/-- The loop of `StructType.Equals` over two lists of variables of one length answers true
exactly when the names are the same and the types equal at every position. -/
theorem EqualsVariables_iff :
    ∀ vars otherVars : List (String × Ty), vars.length = otherVars.length →
      (EqualsVariables vars otherVars = some true ↔
        List.Forall₂ (fun a b => a.1 = b.1 ∧ Equals a.2 (some b.2) = some true) vars otherVars)
  | [], [], _ => by simp [EqualsVariables]
  | [], _ :: _, h => by simp at h
  | _ :: _, [], h => by simp at h
  | (name, ty) :: vars, (otherName, otherTy) :: otherVars, h => by
      have hlen : vars.length = otherVars.length := by simpa using h
      have ih := EqualsVariables_iff vars otherVars hlen
      simp only [EqualsVariables, List.forall₂_cons]
      by_cases hname : name = otherName
      · cases heq : Equals ty (some otherTy) with
        | none => simp [hname]
        | some b => cases b <;> simp [hname, ih]
      · simp [hname]

/-- C31: a struct type equals a type exactly when that type is a struct type, the attribute
groups are equal, the numbers of variables are the same, and at every position the names are
identical and the types equal; it never equals a type that is no struct type, `nil` and a
named type among them. -/
theorem StructType_Equals_iff (vars : List (String × Ty)) (attrs : AttrGroup)
    (t : Option Ty) :
    (Equals (Struct vars attrs) t = some true ↔
      ∃ otherVars otherAttrs, t = some (Struct otherVars otherAttrs) ∧
        AttrGroup.Equals attrs otherAttrs = true ∧ vars.length = otherVars.length ∧
        List.Forall₂ (fun a b => a.1 = b.1 ∧ Equals a.2 (some b.2) = some true)
          vars otherVars) ∧
    ((∀ otherVars otherAttrs, t ≠ some (Struct otherVars otherAttrs)) →
      Equals (Struct vars attrs) t = some false) := by
  constructor
  · constructor
    · intro h
      match t, h with
      | some (Struct otherVars otherAttrs), h =>
          simp only [Equals] at h
          by_cases hattrs : AttrGroup.Equals attrs otherAttrs = true
          · by_cases hlen : vars.length = otherVars.length
            · simp only [hattrs, hlen, Bool.not_true, bne_self_eq_false, Bool.false_eq_true,
                if_false] at h
              exact ⟨otherVars, otherAttrs, rfl, hattrs, hlen,
                (EqualsVariables_iff vars otherVars hlen).1 h⟩
            · simp [hattrs, hlen] at h
          · simp [hattrs] at h
      | none, h => simp [Equals] at h
      | some (Primitive _), h => simp [Equals] at h
      | some (Named _ _ _ _ _), h => simp [Equals] at h
      | some (Ty.Array _ _), h => simp [Equals] at h
      | some (ConstantReference _), h => simp [Equals] at h
      | some (MutableReference _), h => simp [Equals] at h
      | some (Pointer _), h => simp [Equals] at h
      | some PointerToNil, h => simp [Equals] at h
      | some (Tuple _), h => simp [Equals] at h
      | some (Interface _ _), h => simp [Equals] at h
      | some (Enum _ _ _), h => simp [Equals] at h
      | some (Ty.Function _ _ _ _ _), h => simp [Equals] at h
      | some (Parameter _), h => simp [Equals] at h
      | some (Substitution _ _), h => simp [Equals] at h
      | some (Unresolved _ _), h => simp [Equals] at h
    · rintro ⟨otherVars, otherAttrs, rfl, hattrs, hlen, hall⟩
      simp only [Equals, hattrs, hlen, Bool.not_true, bne_self_eq_false, Bool.false_eq_true,
        if_false]
      exact (EqualsVariables_iff vars otherVars hlen).2 hall
  · intro h
    match t, h with
    | some (Struct otherVars otherAttrs), h => exact absurd rfl (h otherVars otherAttrs)
    | none, _ => simp [Equals]
    | some (Primitive _), _ => simp [Equals]
    | some (Named _ _ _ _ _), _ => simp [Equals]
    | some (Ty.Array _ _), _ => simp [Equals]
    | some (ConstantReference _), _ => simp [Equals]
    | some (MutableReference _), _ => simp [Equals]
    | some (Pointer _), _ => simp [Equals]
    | some PointerToNil, _ => simp [Equals]
    | some (Tuple _), _ => simp [Equals]
    | some (Interface _ _), _ => simp [Equals]
    | some (Enum _ _ _), _ => simp [Equals]
    | some (Ty.Function _ _ _ _ _), _ => simp [Equals]
    | some (Parameter _), _ => simp [Equals]
    | some (Substitution _ _), _ => simp [Equals]
    | some (Unresolved _ _), _ => simp [Equals]

/-- C31, at the struct `struct {x: s32, y: s32}`: it equals itself, it does not equal the
struct with the variables `y` and `x` in the other order, and it does not equal the named
type `Point` that wraps it. -/
theorem StructType_Equals_iff_witness :
    Equals pointStruct (some pointStruct) = some true ∧
    Equals pointStruct
        (some (Struct [("y", Primitive PRIMITIVE_s32), ("x", Primitive PRIMITIVE_s32)] []))
      = some false ∧
    Equals pointStruct (some pointType) = some false :=
  ⟨(StructType_Equals_iff [("x", Primitive PRIMITIVE_s32), ("y", Primitive PRIMITIVE_s32)] []
      (some pointStruct)).1.2
      ⟨[("x", Primitive PRIMITIVE_s32), ("y", Primitive PRIMITIVE_s32)], [], rfl, rfl, rfl,
        List.Forall₂.cons ⟨rfl, by decide⟩ (List.Forall₂.cons ⟨rfl, by decide⟩ List.Forall₂.nil)⟩,
    by decide,
    (StructType_Equals_iff [("x", Primitive PRIMITIVE_s32), ("y", Primitive PRIMITIVE_s32)] []
      (some pointType)).2 (by
        intro otherVars otherAttrs h
        cases h)⟩

/-- C32: on a value of a meta-variant, `IsSigned`, `LevelsOfIndirection`, `IsIntegerType`,
`IsFloatingType`, `IsVoidType`, `Attrs`, and `CanCastTo` and `Equals` with every argument,
panic; `ActualType` returns the value itself, and `TypeName` returns: the name of a
parameter type and of a substitution type, `unresolved(...)` around the name of an
unresolved type. -/
theorem metaType_methods_panic (t : Ty) (h : t.isMetaType = true) :
    IsSigned t = none ∧ LevelsOfIndirection t = none ∧ IsIntegerType t = none ∧
    IsFloatingType t = none ∧ IsVoidType t = none ∧ (∀ x : Ty, CanCastTo t x = none) ∧
    Attrs t = none ∧ (∀ x : Option Ty, Equals t x = none) ∧ ActualType t = t ∧
    (∀ name, t = Parameter name → t.metaTypeName h = name) ∧
    (∀ name ty, t = Substitution name ty → t.metaTypeName h = name) ∧
    (∀ name ps, t = Unresolved name ps → t.metaTypeName h = "unresolved(" ++ name ++ ")") := by
  match t, h with
  | Parameter name, h =>
      refine ⟨rfl, rfl, rfl, rfl, rfl, fun x => by rw [CanCastTo], rfl,
        fun x => by simp [Equals], rfl, ?_, ?_, ?_⟩
      · intro n hn
        cases hn
        rfl
      · intro n ty hn
        cases hn
      · intro n ps hn
        cases hn
  | Substitution name ty, h =>
      refine ⟨rfl, rfl, rfl, rfl, rfl, fun x => by rw [CanCastTo], rfl,
        fun x => by simp [Equals], rfl, ?_, ?_, ?_⟩
      · intro n hn
        cases hn
      · intro n ty2 hn
        cases hn
        rfl
      · intro n ps hn
        cases hn
  | Unresolved name ps, h =>
      refine ⟨rfl, rfl, rfl, rfl, rfl, fun x => by rw [CanCastTo], rfl,
        fun x => by simp [Equals], rfl, ?_, ?_, ?_⟩
      · intro n hn
        cases hn
      · intro n ty hn
        cases hn
      · intro n ps2 hn
        cases hn
        rfl

/-- C32, at the parameter type `T`: `Equals` with `T` itself and `IsIntegerType` panic, the
actual type is `T`, and the name is `T`. -/
theorem metaType_methods_panic_witness :
    Equals (Parameter "T") (some (Parameter "T")) = none ∧
    IsIntegerType (Parameter "T") = none ∧
    ActualType (Parameter "T") = Parameter "T" ∧
    (Parameter "T").metaTypeName rfl = "T" :=
  have h := metaType_methods_panic (Parameter "T") rfl
  ⟨h.2.2.2.2.2.2.2.1 (some (Parameter "T")), h.2.2.1, h.2.2.2.2.2.2.2.2.1,
    h.2.2.2.2.2.2.2.2.2.1 "T" rfl⟩

/-- C39, on the code: for a primitive `p` that can be cast at all (integer, floating or
`rune`) and a named type `N` whose actual type is `rune`, `p.CanCastTo(N)` is false while
`p.CanCastTo(N.ActualType())` is true: the test `t == PRIMITIVE_rune` looks at the target
itself, and the tests `IsFloatingType` and `IsIntegerType`, which see through the name, are
false for `rune`. -/
theorem PrimitiveType_CanCastTo_alias_of_rune (p : PrimitiveType) (name : String) (T : Ty)
    (ps : List String) (m : ModulePtr) (ms : List FunctionPtr)
    (hT : ActualType T = Primitive PRIMITIVE_rune)
    (hp : (p.IsIntegerType || p.IsFloatingType || decide (p = PRIMITIVE_rune)) = true) :
    CanCastTo (Primitive p) (Named name T ps m ms) = some false ∧
    CanCastTo (Primitive p) (ActualType (Named name T ps m ms)) = some true := by
  have hactual : ActualType (Named name T ps m ms) = Primitive PRIMITIVE_rune := by
    rw [ActualType, hT]
  have hfloat : IsFloatingType (Named name T ps m ms) = some false := by
    rw [← ActualType_transparent IsFloatingType (fun _ _ _ _ _ => rfl) (Named name T ps m ms),
      hactual]
    rfl
  have hinteger : Ty.IsIntegerType (Named name T ps m ms) = some false := by
    rw [← ActualType_transparent Ty.IsIntegerType (fun _ _ _ _ _ => rfl)
      (Named name T ps m ms), hactual]
    rfl
  constructor
  · rw [CanCastTo]
    simp [hp, hfloat, hinteger, isPrimitive]
  · have hfloat2 : Ty.IsFloatingType (Primitive PRIMITIVE_rune) = some false := rfl
    have hinteger2 : Ty.IsIntegerType (Primitive PRIMITIVE_rune) = some false := rfl
    rw [hactual, CanCastTo]
    simp [hp, hfloat2, hinteger2, isPrimitive]

/-- C39, at the alias `Char` of `rune`: `s32` cannot be cast to `Char` and can be cast to
`rune`, the actual type of `Char`. -/
theorem PrimitiveType_CanCastTo_alias_of_rune_witness :
    CanCastTo (Primitive PRIMITIVE_s32) (Named "Char" (Primitive PRIMITIVE_rune) [] 1 [])
      = some false ∧
    CanCastTo (Primitive PRIMITIVE_s32)
        (ActualType (Named "Char" (Primitive PRIMITIVE_rune) [] 1 [])) = some true :=
  PrimitiveType_CanCastTo_alias_of_rune PRIMITIVE_s32 "Char" (Primitive PRIMITIVE_rune) [] 1 []
    rfl (by decide)

/-! ## Numeric literals after any hint -/

/-- What `NumericLiteral.setTypeHint` leaves, for every hint: the hint itself, a type whose
actual type is a floating primitive, or an integer primitive on an integer literal; or the
default type of the kind of the literal. -/
theorem NumericLiteral_setTypeHint_cases (v : NumericLiteral) (t : Option Ty) :
    (∃ ty p, t = some ty ∧ v.setTypeHint t = { v with Typ := some ty } ∧
      ActualType ty = Primitive p ∧
      (p.IsFloatingType = true ∨ (v.IsFloat = false ∧ p.IsIntegerType = true))) ∨
    (v.IsFloat = true ∧ v.setTypeHint t = { v with Typ := some (Primitive PRIMITIVE_f64) }) ∨
    (v.IsFloat = false ∧ v.setTypeHint t = { v with Typ := some (Primitive PRIMITIVE_int) }) := by
  cases hf : v.IsFloat
  · cases t with
    | none => exact Or.inr (Or.inr ⟨rfl, by simp [NumericLiteral.setTypeHint, hf]⟩)
    | some ty =>
        cases hA : ty.ActualType with
        | Primitive p =>
            cases p <;>
              first
              | exact Or.inl ⟨ty, _, rfl, by simp [NumericLiteral.setTypeHint, hf, hA], hA,
                  Or.inr ⟨rfl, rfl⟩⟩
              | exact Or.inl ⟨ty, _, rfl, by simp [NumericLiteral.setTypeHint, hf, hA], hA,
                  Or.inl rfl⟩
              | exact Or.inr (Or.inr ⟨rfl, by simp [NumericLiteral.setTypeHint, hf, hA]⟩)
        | _ => exact Or.inr (Or.inr ⟨rfl, by simp [NumericLiteral.setTypeHint, hf, hA]⟩)
  · cases t with
    | none => exact Or.inr (Or.inl ⟨rfl, by simp [NumericLiteral.setTypeHint, hf]⟩)
    | some ty =>
        cases hA : ty.ActualType with
        | Primitive p =>
            cases p <;>
              first
              | exact Or.inl ⟨ty, _, rfl, by simp [NumericLiteral.setTypeHint, hf, hA], hA,
                  Or.inl rfl⟩
              | exact Or.inr (Or.inl ⟨rfl, by simp [NumericLiteral.setTypeHint, hf, hA]⟩)
        | _ => exact Or.inr (Or.inl ⟨rfl, by simp [NumericLiteral.setTypeHint, hf, hA]⟩)

/-- The check of a numeric literal whose type has a floating primitive as its actual type
reports nothing. -/
theorem CheckNumericLiteral_of_floating (s : SemanticAnalyzer) (n : Int) (isFloat : Bool)
    (ty : Ty) (p : PrimitiveType) (hactual : ActualType ty = Primitive p)
    (hp : p.IsFloatingType = true) :
    CheckNumericLiteral s ⟨n, isFloat, some ty⟩ = some s := by
  have hint : p.IsIntegerType = false := by cases p <;> simp_all [PrimitiveType.IsFloatingType,
    PrimitiveType.IsIntegerType]
  have h1 : Ty.IsIntegerType ty = some false := by
    rw [← ActualType_transparent Ty.IsIntegerType (fun _ _ _ _ _ => rfl) ty, hactual]
    simp [Ty.IsIntegerType, hint]
  have h2 : Ty.IsFloatingType ty = some true := by
    rw [← ActualType_transparent Ty.IsFloatingType (fun _ _ _ _ _ => rfl) ty, hactual]
    simp [Ty.IsFloatingType, hp]
  cases isFloat <;> simp [CheckNumericLiteral, h1, h2]

/-- An integer primitive has a looked-up width. -/
theorem literalBits_of_integer (p : PrimitiveType) (hp : p.IsIntegerType = true) :
    ∃ w, literalBits (Primitive p) = some w := by
  cases p <;> simp [PrimitiveType.IsIntegerType] at hp <;> exact ⟨_, rfl⟩

/-- C35: after `NumericLiteral.setTypeHint` with any hint, `nil` and the meta-variants
included, the literal has a type whose actual type is an integer or a floating primitive,
floating for a float literal; and `CheckNumericLiteral` on the literal returns (no panic,
`wrong type here` included) and reports no error: nothing, or the overflow warning. -/
theorem NumericLiteral_setTypeHint_then_check (s : SemanticAnalyzer) (v : NumericLiteral)
    (t : Option Ty) :
    (∃ ty p, (v.setTypeHint t).Typ = some ty ∧ ActualType ty = Primitive p ∧
      (p.IsIntegerType = true ∨ p.IsFloatingType = true) ∧
      (v.IsFloat = true → p.IsFloatingType = true ∧ p.IsIntegerType = false)) ∧
    (v.setTypeHint t).IsFloat = v.IsFloat ∧ (v.setTypeHint t).IntValue = v.IntValue ∧
    (CheckNumericLiteral s (v.setTypeHint t) = some s ∨
      CheckNumericLiteral s (v.setTypeHint t) = some (s.Warn "Integer overflows %s")) := by
  have hnot : ∀ p : PrimitiveType, p.IsFloatingType = true → p.IsIntegerType = false := by
    intro p hp
    cases p <;> simp_all [PrimitiveType.IsFloatingType, PrimitiveType.IsIntegerType]
  have hinteger : ∀ (n : Int) (ty : Ty) (p : PrimitiveType), ActualType ty = Primitive p →
      p.IsIntegerType = true →
      (CheckNumericLiteral s ⟨n, false, some ty⟩ = some s ∨
        CheckNumericLiteral s ⟨n, false, some ty⟩ = some (s.Warn "Integer overflows %s")) := by
    intro n ty p hactual hp
    obtain ⟨w, hw⟩ := literalBits_of_integer p hp
    rw [CheckNumericLiteral_of_integer s n ty p w hactual hw]
    by_cases hlt : w < BitLen n
    · exact Or.inr (by simp [hlt])
    · exact Or.inl (by simp [hlt])
  obtain ⟨n, isFloat, old⟩ := v
  rcases NumericLiteral_setTypeHint_cases ⟨n, isFloat, old⟩ t with
    ⟨ty, p, _, hset, hactual, hkind⟩ | ⟨hf, hset⟩ | ⟨hf, hset⟩
  · rw [hset]
    rcases hkind with hp | ⟨hf, hp⟩
    · exact ⟨⟨ty, p, rfl, hactual, Or.inr hp, fun _ => ⟨hp, hnot p hp⟩⟩, rfl, rfl,
        Or.inl (CheckNumericLiteral_of_floating s n isFloat ty p hactual hp)⟩
    · have hf2 : isFloat = false := hf
      subst hf2
      exact ⟨⟨ty, p, rfl, hactual, Or.inl hp, fun h => by simp at h⟩, rfl, rfl,
        hinteger n ty p hactual hp⟩
  · rw [hset]
    exact ⟨⟨Primitive PRIMITIVE_f64, PRIMITIVE_f64, rfl, rfl, Or.inr rfl,
        fun _ => ⟨rfl, rfl⟩⟩, rfl, rfl,
      Or.inl (CheckNumericLiteral_of_floating s n isFloat (Primitive PRIMITIVE_f64)
        PRIMITIVE_f64 rfl rfl)⟩
  · have hf2 : isFloat = false := hf
    subst hf2
    rw [hset]
    exact ⟨⟨Primitive PRIMITIVE_int, PRIMITIVE_int, rfl, rfl, Or.inl rfl,
        fun h => by simp at h⟩, rfl, rfl,
      hinteger n (Primitive PRIMITIVE_int) PRIMITIVE_int rfl rfl⟩

/-! ## A bare return, dereferences of references, and tuple literals of one member -/

/-- C36, on the code: the inference of a bare return inside a function whose return type is
not `void` panics, whatever the function: the code calls `setTypeHint` on the `nil` value. A
bare return in a function that returns `void` is inferred without a change. -/
theorem ReturnStat_infer_bare_return_panics {L : Type} (M : ExprMethods L)
    (heap : FunctionHeap) (s : TypeInferer) (fn : FunctionPtr) (ret : Ty)
    (hfn : s.function = some fn) (hret : (heap fn).Typ.Return = some ret) :
    (Equals ret (some (Primitive PRIMITIVE_void)) = some false →
      ReturnStat.infer M heap ⟨none⟩ s = none) ∧
    (Equals ret (some (Primitive PRIMITIVE_void)) = some true →
      ReturnStat.infer M heap ⟨none⟩ s = some (⟨none⟩, s)) := by
  constructor
  · intro hvoid
    simp [ReturnStat.infer, hfn, hret, hvoid]
  · intro hvoid
    simp [ReturnStat.infer, hfn, hret, hvoid]

/-- C36, at a bare `return` inside `printf`, which returns `int`: the inference panics. -/
theorem ReturnStat_infer_bare_return_panics_witness :
    ReturnStat.infer (ExprMethods.idle NumericLiteral) printfHeap ⟨none⟩ ⟨[0], some 0, false, []⟩
      = none :=
  (ReturnStat_infer_bare_return_panics (ExprMethods.idle NumericLiteral) printfHeap
    ⟨[0], some 0, false, []⟩ 0 (Primitive PRIMITIVE_int) rfl rfl).1 (by decide)

/-- C37, on the code: a dereference whose operand is inferred to a constant or a mutable
reference to `r` is typed `r` by `DerefAccessExpr.infer`, and `CheckDerefAccessExpr` on the
inferred node reports the error `Cannot dereference expression`; so it does on the
dereference that `CallExpr.infer` puts around a receiver of a reference type. Only an
operand of a pointer type passes the check. -/
theorem CheckDerefAccessExpr_rejects_references {L : Type} [ExprNode L] (M : ExprMethods L)
    (heap : FunctionHeap) (s s1 : TypeInferer) (sem : SemanticAnalyzer)
    (v : DerefAccessExpr L) (inferred : Expr L) (r : Ty)
    (hinfer : M.infer v.Expr s = some (inferred, s1)) :
    (inferred.GetType heap = some (some (ConstantReference r)) ∨
        inferred.GetType heap = some (some (MutableReference r)) →
      DerefAccessExpr.infer M heap v s = some (⟨inferred, some r⟩, s1) ∧
      CheckDerefAccessExpr heap sem ⟨inferred, some r⟩
        = some (sem.Err "Cannot dereference expression of type `%s`")) ∧
    (inferred.GetType heap = some (some (ConstantReference r)) →
      CallExpr.derefConstantReference heap inferred
        = some (Expr.DerefAccessExpr inferred (some r)) ∧
      CheckDerefAccessExpr heap sem ⟨inferred, some r⟩
        = some (sem.Err "Cannot dereference expression of type `%s`")) ∧
    (inferred.GetType heap = some (some (MutableReference r)) →
      CallExpr.derefMutableReference heap inferred
        = some (Expr.DerefAccessExpr inferred (some r)) ∧
      CheckDerefAccessExpr heap sem ⟨inferred, some r⟩
        = some (sem.Err "Cannot dereference expression of type `%s`")) ∧
    (inferred.GetType heap = some (some (Pointer r)) →
      DerefAccessExpr.infer M heap v s = some (⟨inferred, some r⟩, s1) ∧
      CheckDerefAccessExpr heap sem ⟨inferred, some r⟩ = some sem) := by
  refine ⟨?_, ?_, ?_, ?_⟩
  · rintro (h | h) <;>
      simp [DerefAccessExpr.infer, hinfer, h, CheckDerefAccessExpr, errNamingType]
  · intro h
    simp [CallExpr.derefConstantReference, h, CheckDerefAccessExpr, errNamingType]
  · intro h
    simp [CallExpr.derefMutableReference, h, CheckDerefAccessExpr, errNamingType]
  · intro h
    simp [DerefAccessExpr.infer, hinfer, h, CheckDerefAccessExpr]

/-- C37, at the dereference of a variable `r` of type `&Point`: the inference types it
`Point`, and the check of the inferred node reports the error. -/
theorem CheckDerefAccessExpr_rejects_references_witness :
    DerefAccessExpr.infer (Expr.methods voidFunctionHeap 1) voidFunctionHeap
        ⟨variableAccess "r" (ConstantReference pointType), none⟩ TypeInferer.start
      = some (⟨variableAccess "r" (ConstantReference pointType), some pointType⟩,
          TypeInferer.start) ∧
    CheckDerefAccessExpr voidFunctionHeap ⟨[]⟩
        ⟨variableAccess "r" (ConstantReference pointType), some pointType⟩
      = some ⟨[Diagnostic.error "Cannot dereference expression of type `%s`"]⟩ :=
  (CheckDerefAccessExpr_rejects_references (Expr.methods voidFunctionHeap 1) voidFunctionHeap
    TypeInferer.start TypeInferer.start ⟨[]⟩
    ⟨variableAccess "r" (ConstantReference pointType), none⟩
    (variableAccess "r" (ConstantReference pointType)) pointType (by rfl)).1 (Or.inl (by rfl))

/-- The check of a tuple literal whose type has an actual type that is no tuple type is the
panic `Type of tuple literal was not TupleType`. -/
theorem CheckTupleLiteral_not_tuple_panics {L : Type} [ExprNode L] (heap : FunctionHeap)
    (sem : SemanticAnalyzer) (lit : TupleLiteral L) (ty : Ty) (hty : lit.Typ = some ty)
    (hactual : ∀ members, ty.ActualType ≠ Tuple members) :
    CheckTupleLiteral heap sem lit = none := by
  cases hA : ty.ActualType with
  | Tuple members => exact absurd hA (hactual members)
  | _ => simp [CheckTupleLiteral, hty, hA]

/-- C38, on the code: a tuple literal of exactly one member, a numeric literal, inferred
without a type: `tupleOf` of the one member type is that type, so the literal is typed with
the default type of its member, no tuple type, and `CheckTupleLiteral` on the inferred
literal is the panic `Type of tuple literal was not TupleType`. A literal of two numeric
members is typed with the tuple type of the two member types. -/
theorem TupleLiteral_of_one_member_not_tuple_typed (stringType : Ty) (heap : FunctionHeap)
    (s : TypeInferer) (sem : SemanticAnalyzer) (n m : Int) :
    LiteralExpr.infer stringType
        (LiteralExpr.TupleLiteral none [LiteralExpr.NumericLiteral ⟨n, false, none⟩]) s
      = some (LiteralExpr.TupleLiteral (some (Primitive PRIMITIVE_int))
          [LiteralExpr.NumericLiteral ⟨n, false, some (Primitive PRIMITIVE_int)⟩], s) ∧
    CheckTupleLiteral heap sem
        (⟨some (Primitive PRIMITIVE_int), [integerLiteral n (Primitive PRIMITIVE_int)]⟩ :
          TupleLiteral NumericLiteral) = none ∧
    LiteralExpr.infer stringType
        (LiteralExpr.TupleLiteral none
          [LiteralExpr.NumericLiteral ⟨n, false, none⟩,
            LiteralExpr.NumericLiteral ⟨m, false, none⟩]) s
      = some (LiteralExpr.TupleLiteral
          (some (Tuple [Primitive PRIMITIVE_int, Primitive PRIMITIVE_int]))
          [LiteralExpr.NumericLiteral ⟨n, false, some (Primitive PRIMITIVE_int)⟩,
            LiteralExpr.NumericLiteral ⟨m, false, some (Primitive PRIMITIVE_int)⟩], s) ∧
    CheckTupleLiteral heap sem
        (⟨some (Tuple [Primitive PRIMITIVE_int, Primitive PRIMITIVE_int]),
          [integerLiteral n (Primitive PRIMITIVE_int),
            integerLiteral m (Primitive PRIMITIVE_int)]⟩ : TupleLiteral NumericLiteral)
      = some sem := by
  refine ⟨?_, ?_, ?_, ?_⟩
  · simp [LiteralExpr.infer, LiteralExpr.inferMembers, tupleMemberTypes, hintMembers,
      LiteralExpr.setTypeHint, NumericLiteral.setTypeHint, collectMemberTypes, tupleOfMembers,
      LiteralExpr.GetType, NumericLiteral.GetType]
  · exact CheckTupleLiteral_not_tuple_panics heap sem _ (Primitive PRIMITIVE_int) rfl
      (fun members h => by cases h)
  · simp [LiteralExpr.infer, LiteralExpr.inferMembers, tupleMemberTypes, hintMembers,
      LiteralExpr.setTypeHint, NumericLiteral.setTypeHint, collectMemberTypes, tupleOfMembers,
      allTypes, tupleOf, LiteralExpr.GetType, NumericLiteral.GetType]
  · simp [CheckTupleLiteral, ActualType, checkTupleMembers, integerLiteral, Expr.typeForCall,
      Expr.GetType, ExprNode.GetType, NumericLiteral.GetType, Equals]

/-! ## The function stack and the pass as a whole -/

/-- After `pushFunction` the current function is the top of the stack. -/
theorem TypeInferer.pushFunction_top (v : TypeInferer) (f : FunctionPtr) :
    (v.pushFunction f).function = (v.pushFunction f).functionStack.getLast? := by
  simp [TypeInferer.pushFunction]

/-- After `popFunction` the current function is the top of the stack, `nil` on the empty
one. -/
theorem TypeInferer.popFunction_top (v v1 : TypeInferer) (h : v.popFunction = some v1) :
    v1.function = v1.functionStack.getLast? := by
  simp only [TypeInferer.popFunction] at h
  split at h
  · simp at h
  · simp only [Option.some.injEq] at h
    subst h
    by_cases hempty : v.functionStack.dropLast.length = 0
    · have hnil : v.functionStack.dropLast = [] := List.length_eq_zero.1 hempty
      simp [hnil]
    · simp only [hempty, if_false]

/-- C34: on a state whose current function is the top of the function stack (`nil` on the
empty stack), every sequence of calls of `pushFunction` and `popFunction` that does not
panic leaves such a state, in which the current function is `nil` exactly when the stack is
empty; `pushFunction(f)` followed by `popFunction` gives back the state before, stack and
current function; and `popFunction` on the empty stack panics, and only there. -/
theorem TypeInferer_function_is_top_of_stack (v : TypeInferer)
    (htop : v.function = v.functionStack.getLast?) :
    (∀ (calls : List StackCall) (v1 : TypeInferer), v.calls calls = some v1 →
      v1.function = v1.functionStack.getLast? ∧
      (v1.function = none ↔ v1.functionStack = [])) ∧
    (∀ f, (v.pushFunction f).popFunction = some v) ∧
    (v.popFunction = none ↔ v.functionStack = []) := by
  refine ⟨?_, ?_, ?_⟩
  · intro calls
    induction calls generalizing v with
    | nil =>
        intro v1 h
        simp only [TypeInferer.calls, Option.some.injEq] at h
        subst h
        exact ⟨htop, by rw [htop]; exact List.getLast?_eq_none_iff⟩
    | cons call calls ih =>
        intro v1 h
        cases call with
        | pushFunction f =>
            simp only [TypeInferer.calls] at h
            exact ih (v.pushFunction f) (TypeInferer.pushFunction_top v f) v1 h
        | popFunction =>
            simp only [TypeInferer.calls] at h
            cases hpop : v.popFunction with
            | none => simp [hpop] at h
            | some v2 =>
                simp only [hpop] at h
                exact ih v2 (TypeInferer.popFunction_top v v2 hpop) v1 h
  · intro f
    obtain ⟨stack, function, shouldExit, log⟩ := v
    simp only at htop
    subst htop
    simp only [TypeInferer.pushFunction, TypeInferer.popFunction, List.length_append,
      List.length_singleton, Nat.add_one_ne_zero, if_false, List.dropLast_concat]
    by_cases hempty : stack.length = 0
    · have hnil : stack = [] := List.length_eq_zero.1 hempty
      simp [hnil]
    · simp [hempty]
  · simp [TypeInferer.popFunction, List.length_eq_zero]

/-- C34, from the state outside every function: after `push 1, push 2, pop` the stack is
`[1]` and the current function is 1; a pop on the empty stack panics. -/
theorem TypeInferer_function_is_top_of_stack_witness :
    TypeInferer.start.calls
        [StackCall.pushFunction 1, StackCall.pushFunction 2, StackCall.popFunction]
      = some ⟨[1], some 1, false, []⟩ ∧
    ((⟨[1], some 1, false, []⟩ : TypeInferer).function
        = (⟨[1], some 1, false, []⟩ : TypeInferer).functionStack.getLast? ∧
      ((⟨[1], some 1, false, []⟩ : TypeInferer).function = none ↔
        (⟨[1], some 1, false, []⟩ : TypeInferer).functionStack = [])) ∧
    TypeInferer.start.calls [StackCall.popFunction] = none :=
  ⟨by rfl,
    (TypeInferer_function_is_top_of_stack TypeInferer.start rfl).1
      [StackCall.pushFunction 1, StackCall.pushFunction 2, StackCall.popFunction]
      ⟨[1], some 1, false, []⟩ (by rfl),
    by rfl⟩

/-- Writing nothing leaves the failure flag as it is. -/
theorem TypeInferer.Records_refl (s : TypeInferer) : TypeInferer.Records s s [] := by
  simp [TypeInferer.Records]

/-- What two steps write, one after the other. -/
theorem TypeInferer.Records_trans (s s1 s2 : TypeInferer) (a b : List Diagnostic)
    (h1 : TypeInferer.Records s s1 a) (h2 : TypeInferer.Records s1 s2 b) :
    TypeInferer.Records s s2 (a ++ b) := by
  obtain ⟨hlog1, hflag1⟩ := h1
  obtain ⟨hlog2, hflag2⟩ := h2
  refine ⟨by rw [hlog2, hlog1, List.append_assoc], ?_⟩
  rw [hflag2, hflag1, List.any_append, Bool.or_assoc]

/-- What one call of a method of the pass writes: `err` one error, with the flag set, `warn`
one warning, and `pushFunction` and `popFunction` nothing, with the flag as it was. -/
theorem TypeInferer.call_records (s s1 : TypeInferer) (call : InfererCall)
    (h : s.call call = some s1) :
    TypeInferer.Records s s1
      (match call with
        | InfererCall.err err => [Diagnostic.error err]
        | InfererCall.warn err => [Diagnostic.warning err]
        | InfererCall.pushFunction _ => []
        | InfererCall.popFunction => []) := by
  cases call with
  | err err =>
      simp only [TypeInferer.call, Option.some.injEq] at h
      subst h
      simp [TypeInferer.Records, TypeInferer.err, Diagnostic.isError]
  | warn err =>
      simp only [TypeInferer.call, Option.some.injEq] at h
      subst h
      simp [TypeInferer.Records, TypeInferer.warn, Diagnostic.isError]
  | pushFunction f =>
      simp only [TypeInferer.call, Option.some.injEq] at h
      subst h
      simp [TypeInferer.Records, TypeInferer.pushFunction]
  | popFunction =>
      simp only [TypeInferer.call, TypeInferer.popFunction] at h
      split at h
      · simp at h
      · simp only [Option.some.injEq] at h
        subst h
        simp [TypeInferer.Records]

/-- Calls of methods of the pass only add to the log, and set the failure flag exactly with
an error: they never clear it. -/
theorem TypeInferer.callAll_records :
    ∀ (calls : List InfererCall) (s s1 : TypeInferer), TypeInferer.callAll calls s = some s1 →
      ∃ added, TypeInferer.Records s s1 added
  | [], s, s1, h => by
      simp only [TypeInferer.callAll, Option.some.injEq] at h
      subst h
      exact ⟨[], TypeInferer.Records_refl s⟩
  | call :: calls, s, s1, h => by
      simp only [TypeInferer.callAll] at h
      cases hcall : s.call call with
      | none => simp [hcall] at h
      | some s2 =>
          simp only [hcall] at h
          obtain ⟨b, hb⟩ := TypeInferer.callAll_records calls s2 s1 h
          exact ⟨_, TypeInferer.Records_trans s s2 s1 _ b
            (TypeInferer.call_records s s2 call hcall) hb⟩

/-- No call leads from a state to itself. -/
theorem TypeInferer.ByCalls.refl (s : TypeInferer) : TypeInferer.ByCalls s s :=
  ⟨[], rfl⟩

/-- The calls of two steps, one after the other. -/
theorem TypeInferer.ByCalls.trans {s s1 s2 : TypeInferer} (h1 : TypeInferer.ByCalls s s1)
    (h2 : TypeInferer.ByCalls s1 s2) : TypeInferer.ByCalls s s2 := by
  obtain ⟨a, ha⟩ := h1
  obtain ⟨b, hb⟩ := h2
  refine ⟨a ++ b, ?_⟩
  induction a generalizing s with
  | nil =>
      simp only [TypeInferer.callAll, Option.some.injEq] at ha
      subst ha
      exact hb
  | cons call calls ih =>
      simp only [TypeInferer.callAll, List.cons_append] at ha ⊢
      cases hcall : s.call call with
      | none => simp [hcall] at ha
      | some s3 =>
          simp only [hcall] at ha ⊢
          exact ih ha

/-- One call of `err`. -/
theorem TypeInferer.ByCalls.err (s : TypeInferer) (msg : String) :
    TypeInferer.ByCalls s (s.err msg) :=
  ⟨[InfererCall.err msg], rfl⟩

/-- `CastExpr.infer` changes the pass by calls of its methods only, when the inference of the
children does. -/
theorem CastExpr_infer_byCalls {L : Type} (M : ExprMethods L)
    (hM : ∀ e s e1 s1, M.infer e s = some (e1, s1) → TypeInferer.ByCalls s s1)
    (v v1 : CastExpr L) (s s1 : TypeInferer) (h : CastExpr.infer M v s = some (v1, s1)) :
    TypeInferer.ByCalls s s1 := by
  simp only [CastExpr.infer] at h
  cases hhint : M.setTypeHint v.Expr none with
  | none => simp [hhint] at h
  | some hinted =>
      cases hinfer : M.infer hinted s with
      | none => simp [hhint, hinfer] at h
      | some r =>
          obtain ⟨e1, s2⟩ := r
          simp only [hhint, hinfer, Option.some.injEq, Prod.mk.injEq] at h
          rw [← h.2]
          exact hM _ _ _ _ hinfer

/-- `DerefAccessExpr.infer` changes the pass by calls of its methods only, when the inference
of the children does. -/
theorem DerefAccessExpr_infer_byCalls {L : Type} [ExprNode L] (M : ExprMethods L)
    (heap : FunctionHeap)
    (hM : ∀ e s e1 s1, M.infer e s = some (e1, s1) → TypeInferer.ByCalls s s1)
    (v v1 : DerefAccessExpr L) (s s1 : TypeInferer)
    (h : DerefAccessExpr.infer M heap v s = some (v1, s1)) : TypeInferer.ByCalls s s1 := by
  simp only [DerefAccessExpr.infer] at h
  cases hinfer : M.infer v.Expr s with
  | none => simp [hinfer] at h
  | some r =>
      obtain ⟨e1, s2⟩ := r
      cases htype : e1.GetType heap with
      | none => simp [hinfer, htype] at h
      | some operandType =>
          simp only [hinfer, htype, Option.some.injEq, Prod.mk.injEq] at h
          rw [← h.2]
          exact hM _ _ _ _ hinfer

/-- `StructAccessExpr.infer` changes the pass by calls of its methods only, when the
inference of the children does. -/
theorem StructAccessExpr_infer_byCalls {L : Type} [ExprNode L] (M : ExprMethods L)
    (heap : FunctionHeap)
    (hM : ∀ e s e1 s1, M.infer e s = some (e1, s1) → TypeInferer.ByCalls s s1)
    (v v1 : StructAccessExpr L) (s s1 : TypeInferer)
    (h : StructAccessExpr.infer M heap v s = some (v1, s1)) : TypeInferer.ByCalls s s1 := by
  simp only [StructAccessExpr.infer] at h
  cases hinfer : M.infer v.Struct s with
  | none => simp [hinfer] at h
  | some r =>
      obtain ⟨struct1, s2⟩ := r
      have hfirst := hM _ _ _ _ hinfer
      simp only [hinfer] at h
      cases htype : struct1.GetType heap with
      | none => simp [htype] at h
      | some operandType =>
          cases operandType with
          | none => simp [htype] at h
          | some structType =>
              simp only [htype] at h
              cases hlevels : structType.ActualType.LevelsOfIndirection with
              | none => simp [hlevels] at h
              | some levels =>
                  simp only [hlevels] at h
                  generalize (if (levels == 1) = true then _ else _ :
                    Option (Ty × Expr L)) = step at h
                  cases step with
                  | none => simp at h
                  | some p =>
                      obtain ⟨typ2, struct2⟩ := p
                      simp only at h
                      generalize GetVariableDecl _ v.Member = decl at h
                      cases decl <;> cases typ2 <;>
                        simp only [Option.some.injEq, Prod.mk.injEq] at h <;>
                        rw [← h.2] <;>
                        first
                        | exact hfirst
                        | exact hfirst.trans (TypeInferer.ByCalls.err _ _)
                        | exact hfirst.trans
                            ((TypeInferer.ByCalls.err _ _).trans (TypeInferer.ByCalls.err _ _))

/-- The methods `infer` of the node kinds, as Go dispatches them on an expression, change the
pass by calls of its methods only, when those of the nodes of other kinds do. -/
theorem Expr_methods_byCalls {L : Type} [ExprNode L] (heap : FunctionHeap)
    (hL : ∀ (node inferred : L) (s s1 : TypeInferer),
      ExprNode.infer node s = some (inferred, s1) → TypeInferer.ByCalls s s1) :
    ∀ (fuel : Nat) (e : Expr L) (s : TypeInferer) (e1 : Expr L) (s1 : TypeInferer),
      (Expr.methods heap fuel).infer e s = some (e1, s1) → TypeInferer.ByCalls s s1
  | 0, _, _, _, _, h => by simp [Expr.methods] at h
  | fuel + 1, Expr.Other node, s, e1, s1, h => by
      simp only [Expr.methods] at h
      cases hnode : ExprNode.infer node s with
      | none => simp [hnode] at h
      | some r =>
          obtain ⟨n1, s2⟩ := r
          simp only [hnode, Option.map_some', Option.some.injEq, Prod.mk.injEq] at h
          rw [← h.2]
          exact hL _ _ _ _ hnode
  | fuel + 1, Expr.FunctionAccessExpr fn, s, e1, s1, h => by
      simp only [Expr.methods, Option.some.injEq, Prod.mk.injEq] at h
      rw [← h.2]
      exact TypeInferer.ByCalls.refl s
  | fuel + 1, Expr.CastExpr expr ty, s, e1, s1, h => by
      simp only [Expr.methods] at h
      cases hnode : CastExpr.infer (Expr.methods heap fuel) ⟨expr, ty⟩ s with
      | none => simp [hnode] at h
      | some r =>
          obtain ⟨n1, s2⟩ := r
          simp only [hnode, Option.map_some', Option.some.injEq, Prod.mk.injEq] at h
          rw [← h.2]
          exact CastExpr_infer_byCalls _ (Expr_methods_byCalls heap hL fuel) _ _ _ _ hnode
  | fuel + 1, Expr.StructAccessExpr struct member vari, s, e1, s1, h => by
      simp only [Expr.methods] at h
      cases hnode : StructAccessExpr.infer (Expr.methods heap fuel) heap
          ⟨struct, member, vari⟩ s with
      | none => simp [hnode] at h
      | some r =>
          obtain ⟨n1, s2⟩ := r
          simp only [hnode, Option.map_some', Option.some.injEq, Prod.mk.injEq] at h
          rw [← h.2]
          exact StructAccessExpr_infer_byCalls _ heap (Expr_methods_byCalls heap hL fuel)
            _ _ _ _ hnode
  | fuel + 1, Expr.DerefAccessExpr expr ty, s, e1, s1, h => by
      simp only [Expr.methods] at h
      cases hnode : DerefAccessExpr.infer (Expr.methods heap fuel) heap ⟨expr, ty⟩ s with
      | none => simp [hnode] at h
      | some r =>
          obtain ⟨n1, s2⟩ := r
          simp only [hnode, Option.map_some', Option.some.injEq, Prod.mk.injEq] at h
          rw [← h.2]
          exact DerefAccessExpr_infer_byCalls _ heap (Expr_methods_byCalls heap hL fuel)
            _ _ _ _ hnode

/-- `VariableDecl.infer` changes the pass by calls of its methods only, when the inference of
the initializer does. -/
theorem VariableDecl_infer_byCalls {E : Type} [ExprNode E]
    (hE : ∀ (node inferred : E) (s s1 : TypeInferer),
      ExprNode.infer node s = some (inferred, s1) → TypeInferer.ByCalls s s1)
    (decl inferred : VariableDecl E) (s s1 : TypeInferer)
    (h : VariableDecl.infer decl s = some (inferred, s1)) : TypeInferer.ByCalls s s1 := by
  obtain ⟨vari, assignment⟩ := decl
  cases assignment with
  | none =>
      simp only [VariableDecl.infer, Option.some.injEq, Prod.mk.injEq] at h
      rw [← h.2]
      exact TypeInferer.ByCalls.refl s
  | some node =>
      simp only [VariableDecl.infer] at h
      cases hhint : ExprNode.setTypeHint node vari.Typ with
      | none => simp [hhint] at h
      | some hinted =>
          cases hinfer : ExprNode.infer hinted s with
          | none => simp [hhint, hinfer] at h
          | some r =>
              obtain ⟨n1, s2⟩ := r
              have hfirst := hE _ _ _ _ hinfer
              simp only [hhint, hinfer] at h
              cases hty : vari.Typ with
              | some ty =>
                  simp only [hty, Option.some.injEq, Prod.mk.injEq] at h
                  rw [← h.2]
                  exact hfirst
              | none =>
                  simp only [hty] at h
                  cases htype : ExprNode.GetType n1 with
                  | none => simp [htype] at h
                  | some aty =>
                      cases hvoid : aty.IsVoidType with
                      | none => simp [htype, hvoid] at h
                      | some isVoid =>
                          simp only [htype, hvoid, Option.some.injEq, Prod.mk.injEq] at h
                          rw [← h.2]
                          cases isVoid
                          · exact hfirst
                          · exact hfirst.trans (TypeInferer.ByCalls.err _ _)

/-- `ReturnStat.infer` changes the pass by calls of its methods only, when the inference of
the children does. -/
theorem ReturnStat_infer_byCalls {L : Type} (M : ExprMethods L) (heap : FunctionHeap)
    (hM : ∀ e s e1 s1, M.infer e s = some (e1, s1) → TypeInferer.ByCalls s s1)
    (v v1 : ReturnStat L) (s s1 : TypeInferer)
    (h : ReturnStat.infer M heap v s = some (v1, s1)) : TypeInferer.ByCalls s s1 := by
  have hfirst : TypeInferer.ByCalls s
      (if s.function.isNone then s.err "Return statement must be in a function" else s) := by
    split
    · exact TypeInferer.ByCalls.err s _
    · exact TypeInferer.ByCalls.refl s
  simp only [ReturnStat.infer] at h
  generalize (if s.function.isNone = true then
    s.err "Return statement must be in a function" else s) = s0 at h hfirst
  cases hfn : s0.function with
  | none => simp [hfn] at h
  | some fn =>
      simp only [hfn] at h
      cases hret : (heap fn).Typ.Return with
      | none => simp [hret] at h
      | some ret =>
          simp only [hret] at h
          cases hvoid : Ty.Equals ret (some (Ty.Primitive PRIMITIVE_void)) with
          | none => simp [hvoid] at h
          | some isVoid =>
              cases isVoid
              · simp only [hvoid] at h
                cases hvalue : v.Value with
                | none => simp [hvalue] at h
                | some value =>
                    simp only [hvalue] at h
                    cases hhint : M.setTypeHint value (some ret) with
                    | none => simp [hhint] at h
                    | some hinted =>
                        cases hinfer : M.infer hinted s0 with
                        | none => simp [hhint, hinfer] at h
                        | some r =>
                            obtain ⟨e1, s2⟩ := r
                            simp only [hhint, hinfer, Option.some.injEq, Prod.mk.injEq] at h
                            rw [← h.2]
                            exact hfirst.trans (hM _ _ _ _ hinfer)
              · simp only [hvoid, Option.some.injEq, Prod.mk.injEq] at h
                rw [← h.2]
                exact hfirst

/-- The loop of `CompositeLiteral.infer` over the values of an array literal changes the pass
by calls of its methods only, when the inference of the values does. -/
theorem inferArrayValues_byCalls {L : Type} (M : ExprMethods L) (memberType : Ty)
    (hM : ∀ e s e1 s1, M.infer e s = some (e1, s1) → TypeInferer.ByCalls s s1) :
    ∀ (vals inferred : List (Expr L)) (s s1 : TypeInferer),
      inferArrayValues M memberType vals s = some (inferred, s1) → TypeInferer.ByCalls s s1
  | [], inferred, s, s1, h => by
      simp only [inferArrayValues, Option.some.injEq, Prod.mk.injEq] at h
      rw [← h.2]
      exact TypeInferer.ByCalls.refl s
  | val :: vals, inferred, s, s1, h => by
      simp only [inferArrayValues] at h
      cases hhint : M.setTypeHint val (some memberType) with
      | none => simp [hhint] at h
      | some hinted =>
          cases hinfer : M.infer hinted s with
          | none => simp [hhint, hinfer] at h
          | some r =>
              obtain ⟨e1, s2⟩ := r
              cases hrest : inferArrayValues M memberType vals s2 with
              | none => simp [hhint, hinfer, hrest] at h
              | some r2 =>
                  obtain ⟨rest, s3⟩ := r2
                  simp only [hhint, hinfer, hrest, Option.some.injEq, Prod.mk.injEq] at h
                  rw [← h.2]
                  exact (hM _ _ _ _ hinfer).trans
                    (inferArrayValues_byCalls M memberType hM vals rest s2 s3 hrest)

/-- The loop of `CompositeLiteral.infer` over the values of a struct literal changes the pass
by calls of its methods only, when the inference of the values does. -/
theorem inferStructValues_byCalls {L : Type} (M : ExprMethods L) (vars : List (String × Ty))
    (hM : ∀ e s e1 s1, M.infer e s = some (e1, s1) → TypeInferer.ByCalls s s1) :
    ∀ (vals : List (Expr L)) (fields : List String) (inferred : List (Expr L))
      (s s1 : TypeInferer),
      inferStructValues M vars vals fields s = some (inferred, s1) → TypeInferer.ByCalls s s1
  | [], fields, inferred, s, s1, h => by
      simp only [inferStructValues, Option.some.injEq, Prod.mk.injEq] at h
      rw [← h.2]
      exact TypeInferer.ByCalls.refl s
  | val :: vals, [], inferred, s, s1, h => by
      simp [inferStructValues] at h
  | val :: vals, field :: fields, inferred, s, s1, h => by
      simp only [inferStructValues] at h
      generalize (match GetVariableDecl vars field with
        | some decl => some decl.2
        | none => (none : Option Ty)) = hint at h
      cases hhint : M.setTypeHint val hint with
      | none => simp [hhint] at h
      | some hinted =>
          cases hinfer : M.infer hinted s with
          | none => simp [hhint, hinfer] at h
          | some r =>
              obtain ⟨e1, s2⟩ := r
              cases hrest : inferStructValues M vars vals fields s2 with
              | none => simp [hhint, hinfer, hrest] at h
              | some r2 =>
                  obtain ⟨rest, s3⟩ := r2
                  simp only [hhint, hinfer, hrest, Option.some.injEq, Prod.mk.injEq] at h
                  rw [← h.2]
                  exact (hM _ _ _ _ hinfer).trans
                    (inferStructValues_byCalls M vars hM vals fields rest s2 s3 hrest)

/-- `CompositeLiteral.infer` changes the pass by calls of its methods only, when the inference
of the values does. -/
theorem CompositeLiteral_infer_byCalls {L : Type} (M : ExprMethods L)
    (hM : ∀ e s e1 s1, M.infer e s = some (e1, s1) → TypeInferer.ByCalls s s1)
    (v v1 : CompositeLiteral L) (s s1 : TypeInferer)
    (h : CompositeLiteral.infer M v s = some (v1, s1)) : TypeInferer.ByCalls s s1 := by
  simp only [CompositeLiteral.infer] at h
  cases hty : v.Typ with
  | none => simp [hty] at h
  | some ty =>
      simp only [hty] at h
      have herr : TypeInferer.ByCalls s
          (s.err "Invalid composite literal, expected array or structure") :=
        TypeInferer.ByCalls.err s _
      cases hact : ty.ActualType <;> simp only [hact] at h
      case Array memberType length =>
        cases hloop : inferArrayValues M memberType v.Values s with
        | none => simp [hloop] at h
        | some r =>
            obtain ⟨vals, s2⟩ := r
            simp only [hloop, Option.map_some', Option.some.injEq, Prod.mk.injEq] at h
            rw [← h.2]
            exact inferArrayValues_byCalls M memberType hM _ _ _ _ hloop
      case Struct vars packed =>
        cases hloop : inferStructValues M vars v.Values v.Fields s with
        | none => simp [hloop] at h
        | some r =>
            obtain ⟨vals, s2⟩ := r
            simp only [hloop, Option.map_some', Option.some.injEq, Prod.mk.injEq] at h
            rw [← h.2]
            exact inferStructValues_byCalls M vars hM _ _ _ _ _ hloop
      all_goals
        simp only [Option.some.injEq, Prod.mk.injEq] at h
        rw [← h.2]
        exact herr

/-- The operand inference `inferHinted` of a binary expression changes the pass by calls of
its methods only, when the inference of the operands does. -/
theorem BinaryExpr_inferHinted_byCalls {L : Type} [ExprNode L] (M : ExprMethods L)
    (heap : FunctionHeap)
    (hM : ∀ e s e1 s1, M.infer e s = some (e1, s1) → TypeInferer.ByCalls s s1)
    (v v1 : BinaryExpr L) (lht : Option Ty) (s s1 : TypeInferer)
    (h : BinaryExpr.inferHinted M heap v s = some (v1, lht, s1)) :
    TypeInferer.ByCalls s s1 := by
  simp only [BinaryExpr.inferHinted] at h
  cases hl : M.infer v.Lhand s with
  | none => simp [hl] at h
  | some r =>
      obtain ⟨lhand, s2⟩ := r
      simp only [hl] at h
      cases hty : lhand.GetType heap with
      | none => simp [hty] at h
      | some ty =>
          simp only [hty] at h
          cases hhint : M.setTypeHint v.Rhand ty with
          | none => simp [hhint] at h
          | some hinted =>
              simp only [hhint] at h
              cases hr : M.infer hinted s2 with
              | none => simp [hr] at h
              | some r2 =>
                  obtain ⟨rhand, s3⟩ := r2
                  simp only [hr, Option.some.injEq, Prod.mk.injEq] at h
                  rw [← h.2.2]
                  exact (hM _ _ _ _ hl).trans (hM _ _ _ _ hr)

/-- The operand inference `inferBoth` of a binary expression changes the pass by calls of its
methods only, when the inference of the operands does. -/
theorem BinaryExpr_inferBoth_byCalls {L : Type} [ExprNode L] (M : ExprMethods L)
    (heap : FunctionHeap)
    (hM : ∀ e s e1 s1, M.infer e s = some (e1, s1) → TypeInferer.ByCalls s s1)
    (v v1 : BinaryExpr L) (lht : Option Ty) (s s1 : TypeInferer)
    (h : BinaryExpr.inferBoth M heap v s = some (v1, lht, s1)) :
    TypeInferer.ByCalls s s1 := by
  simp only [BinaryExpr.inferBoth] at h
  cases hl : M.infer v.Lhand s with
  | none => simp [hl] at h
  | some r =>
      obtain ⟨lhand, s2⟩ := r
      simp only [hl] at h
      cases hr : M.infer v.Rhand s2 with
      | none => simp [hr] at h
      | some r2 =>
          obtain ⟨rhand, s3⟩ := r2
          simp only [hr] at h
          cases hty : lhand.GetType heap with
          | none => simp [hty] at h
          | some ty =>
              simp only [hty, Option.some.injEq, Prod.mk.injEq] at h
              rw [← h.2.2]
              exact (hM _ _ _ _ hl).trans (hM _ _ _ _ hr)

/-- `BinaryExpr.infer` changes the pass by calls of its methods only, when the inference of
the operands does. -/
theorem BinaryExpr_infer_byCalls {L : Type} [ExprNode L] (M : ExprMethods L)
    (heap : FunctionHeap) (category : BinOpType → OpCategory)
    (hM : ∀ e s e1 s1, M.infer e s = some (e1, s1) → TypeInferer.ByCalls s s1)
    (v v1 : BinaryExpr L) (s s1 : TypeInferer)
    (h : BinaryExpr.infer M heap category v s = some (v1, s1)) :
    TypeInferer.ByCalls s s1 := by
  have hlogical : ∀ r : BinaryExpr L × TypeInferer,
      (match M.infer v.Lhand s with
        | none => none
        | some (lhand, s2) =>
          match M.infer v.Rhand s2 with
          | none => none
          | some (rhand, s3) =>
              some (({ v with Lhand := lhand, Rhand := rhand,
                              Typ := some (Ty.Primitive PRIMITIVE_bool) } : BinaryExpr L), s3))
        = some r → TypeInferer.ByCalls s r.2 := by
    intro r hr
    cases hl : M.infer v.Lhand s with
    | none => simp [hl] at hr
    | some r1 =>
        obtain ⟨lhand, s2⟩ := r1
        simp only [hl] at hr
        cases hr2 : M.infer v.Rhand s2 with
        | none => simp [hr2] at hr
        | some r2 =>
            obtain ⟨rhand, s3⟩ := r2
            simp only [hr2, Option.some.injEq] at hr
            rw [← hr]
            exact (hM _ _ _ _ hl).trans (hM _ _ _ _ hr2)
  have hequal : ∀ r : BinaryExpr L × TypeInferer,
      (match BinaryExpr.inferHinted M heap v s with
        | none => none
        | some (v2, _, s2) =>
            some (({ v2 with Typ := some (Ty.Primitive PRIMITIVE_bool) } : BinaryExpr L), s2))
        = some r → TypeInferer.ByCalls s r.2 := by
    intro r hr
    cases hh : BinaryExpr.inferHinted M heap v s with
    | none => simp [hh] at hr
    | some r1 =>
        obtain ⟨v2, lht, s2⟩ := r1
        simp only [hh, Option.some.injEq] at hr
        rw [← hr]
        exact BinaryExpr_inferHinted_byCalls M heap hM _ _ _ _ _ hh
  have hshift : ∀ r : BinaryExpr L × TypeInferer,
      (match BinaryExpr.inferBoth M heap v s with
        | none => none
        | some (v2, lht, s2) => some (({ v2 with Typ := lht } : BinaryExpr L), s2))
        = some r → TypeInferer.ByCalls s r.2 := by
    intro r hr
    cases hh : BinaryExpr.inferBoth M heap v s with
    | none => simp [hh] at hr
    | some r1 =>
        obtain ⟨v2, lht, s2⟩ := r1
        simp only [hh, Option.some.injEq] at hr
        rw [← hr]
        exact BinaryExpr_inferBoth_byCalls M heap hM _ _ _ _ _ hh
  have harith : ∀ r : BinaryExpr L × TypeInferer,
      (match BinaryExpr.inferHinted M heap v s with
        | none => none
        | some (v2, lht, s2) =>
          match category v.Op with
          | OpCategory.OP_ARITHMETIC => some (({ v2 with Typ := lht } : BinaryExpr L), s2)
          | OpCategory.OP_COMPARISON =>
              some ({ v2 with Typ := some (Ty.Primitive PRIMITIVE_bool) }, s2)
          | _ => some (v2, s2.err "invalid operands specified `%s`"))
        = some r → TypeInferer.ByCalls s r.2 := by
    intro r hr
    cases hh : BinaryExpr.inferHinted M heap v s with
    | none => simp [hh] at hr
    | some r1 =>
        obtain ⟨v2, lht, s2⟩ := r1
        have hfirst := BinaryExpr_inferHinted_byCalls M heap hM _ _ _ _ _ hh
        simp only [hh] at hr
        cases hc : category v.Op <;> simp only [hc, Option.some.injEq] at hr <;> rw [← hr] <;>
          first
            | exact hfirst
            | exact hfirst.trans (TypeInferer.ByCalls.err _ _)
  simp only [BinaryExpr.infer] at h
  cases hop : v.Op <;> simp only [hop] at h hequal harith hshift hlogical <;>
    first
      | exact hequal _ h
      | exact harith _ h
      | exact hshift _ h
      | exact hlogical _ h
      | exact absurd h (by simp)

/-- The last loop of `CallExpr.infer` changes the pass by calls of its methods only, when the
inference of the arguments does. -/
theorem CallExpr_inferArguments_byCalls {L : Type} (M : ExprMethods L)
    (hM : ∀ e s e1 s1, M.infer e s = some (e1, s1) → TypeInferer.ByCalls s s1) :
    ∀ (args inferred : List (Expr L)) (s s1 : TypeInferer),
      CallExpr.inferArguments M args s = some (inferred, s1) → TypeInferer.ByCalls s s1
  | [], inferred, s, s1, h => by
      simp only [CallExpr.inferArguments, Option.some.injEq, Prod.mk.injEq] at h
      rw [← h.2]
      exact TypeInferer.ByCalls.refl s
  | arg :: args, inferred, s, s1, h => by
      simp only [CallExpr.inferArguments] at h
      cases hinfer : M.infer arg s with
      | none => simp [hinfer] at h
      | some r =>
          obtain ⟨e1, s2⟩ := r
          cases hrest : CallExpr.inferArguments M args s2 with
          | none => simp [hinfer, hrest] at h
          | some r2 =>
              obtain ⟨rest, s3⟩ := r2
              simp only [hinfer, hrest, Option.map_some', Option.some.injEq,
                Prod.mk.injEq] at h
              rw [← h.2]
              exact (hM _ _ _ _ hinfer).trans
                (CallExpr_inferArguments_byCalls M hM args rest s2 s3 hrest)

/-- The first statement of `CallExpr.infer` changes the pass by calls of its methods only,
when the inference of the children does. -/
theorem CallExpr_inferCallee_byCalls {L : Type} [ExprNode L] (M : ExprMethods L)
    (heap : FunctionHeap)
    (hM : ∀ e s e1 s1, M.infer e s = some (e1, s1) → TypeInferer.ByCalls s s1)
    (function : Option (Expr L)) (callee : Expr L) (s s1 : TypeInferer)
    (h : CallExpr.inferCallee M heap function s = some (callee, s1)) :
    TypeInferer.ByCalls s s1 := by
  cases function with
  | none => simp [CallExpr.inferCallee] at h
  | some fn =>
      cases fn with
      | StructAccessExpr struct member vari =>
          simp only [CallExpr.inferCallee] at h
          cases hinfer : M.infer struct s with
          | none => simp [hinfer] at h
          | some r =>
              obtain ⟨struct1, s2⟩ := r
              simp only [hinfer] at h
              cases hty : struct1.GetType heap with
              | none => simp [hty] at h
              | some structType =>
                  simp only [hty] at h
                  cases hstrip : TypeWithoutPointers structType with
                  | none => simp [hstrip] at h
                  | some stripped =>
                      cases stripped <;>
                        simp only [hstrip, Option.some.injEq, Prod.mk.injEq] at h <;>
                        first
                          | (rw [← h.2]; exact hM _ _ _ _ hinfer)
                          | exact Option.noConfusion h
      | Other node => exact hM _ _ _ _ (by simpa only [CallExpr.inferCallee] using h)
      | CastExpr expr ty => exact hM _ _ _ _ (by simpa only [CallExpr.inferCallee] using h)
      | FunctionAccessExpr f =>
          exact hM _ _ _ _ (by simpa only [CallExpr.inferCallee] using h)
      | DerefAccessExpr expr ty =>
          exact hM _ _ _ _ (by simpa only [CallExpr.inferCallee] using h)

/-- `CallExpr.infer` changes the pass by calls of its methods only, when the inference of the
children does. -/
theorem CallExpr_infer_byCalls {L : Type} [ExprNode L] (M : ExprMethods L)
    (heap : FunctionHeap)
    (hM : ∀ e s e1 s1, M.infer e s = some (e1, s1) → TypeInferer.ByCalls s s1)
    (v v1 : CallExpr L) (s s1 : TypeInferer)
    (h : CallExpr.infer M heap v s = some (v1, s1)) : TypeInferer.ByCalls s s1 := by
  simp only [CallExpr.infer] at h
  cases hcallee : CallExpr.inferCallee M heap v.Function s with
  | none => simp [hcallee] at h
  | some r =>
      obtain ⟨callee, s2⟩ := r
      have hfirst := CallExpr_inferCallee_byCalls M heap hM _ _ _ _ hcallee
      simp only [hcallee] at h
      cases hty : callee.GetType heap with
      | none => simp [hty] at h
      | some calleeType =>
          simp only [hty] at h
          cases hfn : asFunctionType calleeType with
          | none =>
              simp only [hfn, Option.some.injEq, Prod.mk.injEq] at h
              rw [← h.2]
              exact hfirst.trans (TypeInferer.ByCalls.err _ _)
          | some fnType =>
              simp only [hfn] at h
              generalize (match fnType.Receiver with
                | none => some v.ReceiverAccess
                | some recType =>
                    (CallExpr.inferReceiver heap recType v.ReceiverAccess).map some) = receiver
                at h
              cases receiver with
              | none => simp at h
              | some receiverAccess =>
                  simp only at h
                  cases hhint : CallExpr.hintArguments M v.Arguments fnType.Parameters with
                  | none => simp [hhint] at h
                  | some hinted =>
                      simp only [hhint] at h
                      cases hargs : CallExpr.inferArguments M hinted s2 with
                      | none => simp [hargs] at h
                      | some r2 =>
                          obtain ⟨inferred, s3⟩ := r2
                          simp only [hargs, Option.some.injEq, Prod.mk.injEq] at h
                          rw [← h.2]
                          exact hfirst.trans
                            (CallExpr_inferArguments_byCalls M hM _ _ _ _ hargs)

/-- The method `VariableAccessExpr.infer` leaves the pass as it is. -/
theorem VariableAccessExpr_infer_byCalls (node inferred : VariableAccessExpr)
    (s s1 : TypeInferer) (h : ExprNode.infer node s = some (inferred, s1)) :
    TypeInferer.ByCalls s s1 := by
  simp only [ExprNode.infer, Option.some.injEq, Prod.mk.injEq] at h
  rw [← h.2]
  exact TypeInferer.ByCalls.refl s

/-- The method `NumericLiteral.infer` leaves the pass as it is. -/
theorem NumericLiteral_infer_byCalls (node inferred : NumericLiteral)
    (s s1 : TypeInferer) (h : ExprNode.infer node s = some (inferred, s1)) :
    TypeInferer.ByCalls s s1 := by
  simp only [ExprNode.infer, NumericLiteral.infer, Option.some.injEq, Prod.mk.injEq] at h
  rw [← h.2]
  exact TypeInferer.ByCalls.refl s

/-- A node of one of two kinds changes the pass by calls of its methods only, when the nodes
of either kind do. -/
theorem Sum_infer_byCalls {A B : Type} [ExprNode A] [ExprNode B]
    (hA : ∀ (node inferred : A) (s s1 : TypeInferer),
      ExprNode.infer node s = some (inferred, s1) → TypeInferer.ByCalls s s1)
    (hB : ∀ (node inferred : B) (s s1 : TypeInferer),
      ExprNode.infer node s = some (inferred, s1) → TypeInferer.ByCalls s s1)
    (node inferred : A ⊕ B) (s s1 : TypeInferer)
    (h : ExprNode.infer node s = some (inferred, s1)) : TypeInferer.ByCalls s s1 := by
  cases node with
  | inl a =>
      simp only [ExprNode.infer] at h
      cases ha : (ExprNode.infer a s : Option (A × TypeInferer)) with
      | none => simp [ha] at h
      | some r =>
          simp only [ha, Option.map_some', Option.some.injEq, Prod.mk.injEq] at h
          rw [← h.2]
          exact hA _ _ _ _ ha
  | inr b =>
      simp only [ExprNode.infer] at h
      cases hb : (ExprNode.infer b s : Option (B × TypeInferer)) with
      | none => simp [hb] at h
      | some r =>
          simp only [hb, Option.map_some', Option.some.injEq, Prod.mk.injEq] at h
          rw [← h.2]
          exact hB _ _ _ _ hb

/-- Calls of methods of the pass set the failure flag exactly with a call of `err`. -/
theorem TypeInferer.callAll_shouldExit :
    ∀ (calls : List InfererCall) (s s1 : TypeInferer), TypeInferer.callAll calls s = some s1 →
      (s1.shouldExit = true ↔ s.shouldExit = true ∨ ∃ msg, InfererCall.err msg ∈ calls)
  | [], s, s1, h => by
      simp only [TypeInferer.callAll, Option.some.injEq] at h
      subst h
      simp
  | call :: calls, s, s1, h => by
      simp only [TypeInferer.callAll] at h
      cases hcall : s.call call with
      | none => simp [hcall] at h
      | some s2 =>
          simp only [hcall] at h
          rw [TypeInferer.callAll_shouldExit calls s2 s1 h]
          cases call with
          | err msg =>
              simp only [TypeInferer.call, Option.some.injEq] at hcall
              subst hcall
              constructor
              · intro _
                exact Or.inr ⟨msg, List.mem_cons_self _ _⟩
              · intro _
                exact Or.inl rfl
          | warn msg =>
              simp only [TypeInferer.call, Option.some.injEq] at hcall
              subst hcall
              simp [TypeInferer.warn]
          | pushFunction f =>
              simp only [TypeInferer.call, Option.some.injEq] at hcall
              subst hcall
              simp [TypeInferer.pushFunction]
          | popFunction =>
              simp only [TypeInferer.call, TypeInferer.popFunction] at hcall
              split at hcall
              · simp at hcall
              · simp only [Option.some.injEq] at hcall
                subst hcall
                simp

/-- The loop of `TypeInferer.Infer` leaves the state that folding the inference of a node over
the nodes gives, and panics when the fold does. -/
theorem TypeInferer.inferNodes_foldlM {N : Type}
    (infer : N → TypeInferer → Option (N × TypeInferer)) :
    ∀ (nodes : List N) (v : TypeInferer),
      (TypeInferer.inferNodes infer nodes v).map Prod.snd
        = nodes.foldlM (fun s n => (infer n s).map Prod.snd) v
  | [], v => rfl
  | node :: nodes, v => by
      simp only [TypeInferer.inferNodes, List.foldlM_cons]
      cases hnode : infer node v with
      | none => rfl
      | some r =>
          obtain ⟨n1, s1⟩ := r
          have ih := TypeInferer.inferNodes_foldlM infer nodes s1
          simp only [Option.map_some', Option.some_bind, Option.bind_eq_bind]
          rw [← ih]
          cases hrest : TypeInferer.inferNodes infer nodes s1 with
          | none => rfl
          | some r2 => rfl

/-- The loop of `TypeInferer.Infer` returns as many nodes as it was given, and the node at an
index is the given node at that index, inferred on the state that the nodes before it left. -/
theorem TypeInferer.inferNodes_nodes {N : Type}
    (infer : N → TypeInferer → Option (N × TypeInferer)) :
    ∀ (nodes inferred : List N) (v v1 : TypeInferer),
      TypeInferer.inferNodes infer nodes v = some (inferred, v1) →
      inferred.length = nodes.length ∧
      ∀ (i : Nat) (n : N), nodes[i]? = some n →
        ∃ si, (nodes.take i).foldlM (fun s n => (infer n s).map Prod.snd) v = some si ∧
          (infer n si).map Prod.fst = inferred[i]?
  | [], inferred, v, v1, h => by
      simp only [TypeInferer.inferNodes, Option.some.injEq, Prod.mk.injEq] at h
      rw [← h.1]
      exact ⟨rfl, fun i n hn => by simp at hn⟩
  | node :: nodes, inferred, v, v1, h => by
      simp only [TypeInferer.inferNodes] at h
      cases hnode : infer node v with
      | none => simp [hnode] at h
      | some r =>
          obtain ⟨n1, s1⟩ := r
          cases hrest : TypeInferer.inferNodes infer nodes s1 with
          | none => simp [hnode, hrest] at h
          | some r2 =>
              obtain ⟨rest, s2⟩ := r2
              simp only [hnode, hrest, Option.some.injEq, Prod.mk.injEq] at h
              obtain ⟨hlen, hat⟩ := TypeInferer.inferNodes_nodes infer nodes rest s1 s2 hrest
              rw [← h.1]
              refine ⟨by simp [hlen], ?_⟩
              intro i n hn
              cases i with
              | zero =>
                  simp only [List.getElem?_cons_zero, Option.some.injEq] at hn
                  subst hn
                  exact ⟨v, rfl, by simp [hnode]⟩
              | succ i =>
                  simp only [List.getElem?_cons_succ] at hn
                  obtain ⟨si, hsi, hout⟩ := hat i n hn
                  refine ⟨si, ?_, by simpa using hout⟩
                  simp only [List.take_succ_cons, List.foldlM_cons, hnode, Option.map_some',
                    Option.some_bind, Option.bind_eq_bind]
                  exact hsi

/-- The loop of `TypeInferer.Infer` changes the pass by calls of its methods only, when the
inference of a node does. -/
theorem TypeInferer.inferNodes_byCalls {N : Type}
    (infer : N → TypeInferer → Option (N × TypeInferer))
    (hcalls : ∀ n s n1 s1, infer n s = some (n1, s1) → TypeInferer.ByCalls s s1) :
    ∀ (nodes inferred : List N) (v v1 : TypeInferer),
      TypeInferer.inferNodes infer nodes v = some (inferred, v1) → TypeInferer.ByCalls v v1
  | [], inferred, v, v1, h => by
      simp only [TypeInferer.inferNodes, Option.some.injEq, Prod.mk.injEq] at h
      rw [← h.2]
      exact TypeInferer.ByCalls.refl v
  | node :: nodes, inferred, v, v1, h => by
      simp only [TypeInferer.inferNodes] at h
      cases hnode : infer node v with
      | none => simp [hnode] at h
      | some r =>
          obtain ⟨n1, s1⟩ := r
          cases hrest : TypeInferer.inferNodes infer nodes s1 with
          | none => simp [hnode, hrest] at h
          | some r2 =>
              obtain ⟨rest, s2⟩ := r2
              simp only [hnode, hrest, Option.some.injEq, Prod.mk.injEq] at h
              rw [← h.2]
              exact (hcalls _ _ _ _ hnode).trans
                (TypeInferer.inferNodes_byCalls infer hcalls nodes rest s1 s2 hrest)

/-- The loop of `TypeInferer.Infer` returns when the inference of every node does. -/
theorem TypeInferer.inferNodes_isSome {N : Type}
    (infer : N → TypeInferer → Option (N × TypeInferer))
    (htotal : ∀ n s, (infer n s).isSome = true) :
    ∀ (nodes : List N) (v : TypeInferer),
      (TypeInferer.inferNodes infer nodes v).isSome = true
  | [], _ => rfl
  | node :: nodes, v => by
      simp only [TypeInferer.inferNodes]
      cases hnode : infer node v with
      | none =>
          have := htotal node v
          simp [hnode] at this
      | some r =>
          obtain ⟨n1, s1⟩ := r
          have hrest := TypeInferer.inferNodes_isSome infer htotal nodes s1
          cases hr : TypeInferer.inferNodes infer nodes s1 with
          | none => simp [hr] at hrest
          | some r2 => simp [hr]

/-- C33: `err` writes one error and sets the failure flag, `warn` writes one warning and
leaves the flag, and `pushFunction` and `popFunction` leave flag and log. For top-level nodes
whose inference changes the pass by calls of these methods only, `TypeInferer.Infer` clears
the flag and infers every node in order, each on the state the one before left, whatever the
flag says: it panics exactly when folding the inference over the nodes does, and otherwise
it ends in the state of that fold, with every node replaced by its inferred node, and in
`os.Exit` exactly when an error was written during the pass, which is exactly when `err` was
called during the pass; it returns when the inference of every node does. -/
theorem TypeInferer_Infer_fails_iff_error {N : Type}
    (infer : N → TypeInferer → Option (N × TypeInferer)) (nodes : List N) (v : TypeInferer)
    (hcalls : ∀ n s n1 s1, infer n s = some (n1, s1) → TypeInferer.ByCalls s s1) :
    (∀ (s : TypeInferer) (msg : String),
      TypeInferer.Records s (s.err msg) [Diagnostic.error msg] ∧
      (s.err msg).shouldExit = true) ∧
    (∀ (s : TypeInferer) (msg : String),
      TypeInferer.Records s (s.warn msg) [Diagnostic.warning msg] ∧
      (s.warn msg).shouldExit = s.shouldExit) ∧
    (∀ (s : TypeInferer) (f : FunctionPtr), TypeInferer.Records s (s.pushFunction f) []) ∧
    (∀ s s1 : TypeInferer, s.popFunction = some s1 → TypeInferer.Records s s1 []) ∧
    (∀ (node : N) (rest : List N) (s : TypeInferer),
      TypeInferer.inferNodes infer (node :: rest) s
        = match infer node s with
          | none => none
          | some (inferred, s1) =>
            match TypeInferer.inferNodes infer rest s1 with
            | none => none
            | some (others, s2) => some (inferred :: others, s2)) ∧
    (TypeInferer.Infer infer nodes v = none ↔
      nodes.foldlM (fun s n => (infer n s).map Prod.snd)
        ({ v with shouldExit := false } : TypeInferer) = none) ∧
    (∀ (inferred : List N) (v1 : TypeInferer) (exit : Bool),
      TypeInferer.Infer infer nodes v = some (inferred, v1, exit) →
      nodes.foldlM (fun s n => (infer n s).map Prod.snd)
        ({ v with shouldExit := false } : TypeInferer) = some v1 ∧
      exit = v1.shouldExit ∧
      inferred.length = nodes.length ∧
      (∀ (i : Nat) (n : N), nodes[i]? = some n →
        ∃ si, (nodes.take i).foldlM (fun s n => (infer n s).map Prod.snd)
            ({ v with shouldExit := false } : TypeInferer) = some si ∧
          (infer n si).map Prod.fst = inferred[i]?) ∧
      (∃ added, v1.log = v.log ++ added ∧
        (exit = true ↔ ∃ d ∈ added, d.isError = true)) ∧
      (∃ calls, TypeInferer.callAll calls ({ v with shouldExit := false } : TypeInferer)
          = some v1 ∧
        (exit = true ↔ ∃ msg, InfererCall.err msg ∈ calls))) ∧
    ((∀ n s, (infer n s).isSome = true) →
      (TypeInferer.Infer infer nodes v).isSome = true) := by
  refine ⟨?_, ?_, ?_, ?_, ?_, ?_, ?_, ?_⟩
  · intro s msg
    simp [TypeInferer.Records, TypeInferer.err, Diagnostic.isError]
  · intro s msg
    simp [TypeInferer.Records, TypeInferer.warn, Diagnostic.isError]
  · intro s f
    simp [TypeInferer.Records, TypeInferer.pushFunction]
  · intro s s1 h
    simp only [TypeInferer.popFunction] at h
    split at h
    · simp at h
    · simp only [Option.some.injEq] at h
      subst h
      simp [TypeInferer.Records]
  · intro node rest s
    rfl
  · rw [← TypeInferer.inferNodes_foldlM infer nodes]
    simp only [TypeInferer.Infer]
    cases hloop : TypeInferer.inferNodes infer nodes { v with shouldExit := false } with
    | none => simp
    | some r => simp
  · intro inferred v1 exit h
    simp only [TypeInferer.Infer] at h
    cases hloop : TypeInferer.inferNodes infer nodes { v with shouldExit := false } with
    | none => simp [hloop] at h
    | some r =>
        obtain ⟨ns, s1⟩ := r
        simp only [hloop, Option.some.injEq, Prod.mk.injEq] at h
        obtain ⟨h1, h2, h3⟩ := h
        subst h1
        subst h2
        obtain ⟨hlen, hat⟩ := TypeInferer.inferNodes_nodes infer nodes ns _ s1 hloop
        obtain ⟨calls, hall⟩ := TypeInferer.inferNodes_byCalls infer hcalls nodes ns _ s1 hloop
        obtain ⟨added, hlog, hflag⟩ := TypeInferer.callAll_records calls _ s1 hall
        have hexit := TypeInferer.callAll_shouldExit calls _ s1 hall
        refine ⟨?_, h3.symm, hlen, hat, ⟨added, hlog, ?_⟩, ⟨calls, hall, ?_⟩⟩
        · rw [← TypeInferer.inferNodes_foldlM infer nodes, hloop]
          rfl
        · rw [← h3, hflag]
          simp
        · rw [← h3, hexit]
          simp
  · intro htotal
    have hloop := TypeInferer.inferNodes_isSome infer htotal nodes { v with shouldExit := false }
    simp only [TypeInferer.Infer]
    cases hr : TypeInferer.inferNodes infer nodes { v with shouldExit := false } with
    | none => simp [hr] at hloop
    | some r => simp [hr]

/-- C33, at the two declarations `a := u` and `b := w` with `u` of type `void` and `w` of
type `s8`, from a state whose failure flag is set: the first declaration is an error, the
second one is still inferred (`b` gets the type `s8`), and the pass ends in `os.Exit`, in the
state of the fold over the two declarations, `err` having been called during the pass; the
second declaration alone, from that state, ends with the flag cleared. -/
theorem TypeInferer_Infer_fails_iff_error_witness :
    TypeInferer.Infer VariableDecl.infer
        [(⟨⟨"a", none⟩, some ⟨⟨"u", some (Primitive PRIMITIVE_void)⟩⟩⟩ :
            VariableDecl VariableAccessExpr),
          ⟨⟨"b", none⟩, some ⟨⟨"w", some (Primitive PRIMITIVE_s8)⟩⟩⟩]
        ⟨[], none, true, []⟩
      = some ([⟨⟨"a", some (Primitive PRIMITIVE_void)⟩,
            some ⟨⟨"u", some (Primitive PRIMITIVE_void)⟩⟩⟩,
          ⟨⟨"b", some (Primitive PRIMITIVE_s8)⟩, some ⟨⟨"w", some (Primitive PRIMITIVE_s8)⟩⟩⟩],
        ⟨[], none, true, [Diagnostic.error "variable has incomplete type `void`"]⟩, true) ∧
    TypeInferer.Infer VariableDecl.infer
        [(⟨⟨"b", none⟩, some ⟨⟨"w", some (Primitive PRIMITIVE_s8)⟩⟩⟩ :
            VariableDecl VariableAccessExpr)]
        ⟨[], none, true, []⟩
      = some ([⟨⟨"b", some (Primitive PRIMITIVE_s8)⟩,
            some ⟨⟨"w", some (Primitive PRIMITIVE_s8)⟩⟩⟩],
        ⟨[], none, false, []⟩, false) ∧
    [(⟨⟨"a", none⟩, some ⟨⟨"u", some (Primitive PRIMITIVE_void)⟩⟩⟩ :
          VariableDecl VariableAccessExpr),
        ⟨⟨"b", none⟩, some ⟨⟨"w", some (Primitive PRIMITIVE_s8)⟩⟩⟩].foldlM
        (fun s n => (VariableDecl.infer n s).map Prod.snd)
        ({ (⟨[], none, true, []⟩ : TypeInferer) with shouldExit := false } : TypeInferer)
      = some ⟨[], none, true, [Diagnostic.error "variable has incomplete type `void`"]⟩ ∧
    (∃ added, [Diagnostic.error "variable has incomplete type `void`"]
        = ([] : List Diagnostic) ++ added ∧
      (true = true ↔ ∃ d ∈ added, d.isError = true)) ∧
    ∃ calls, TypeInferer.callAll calls
        ({ (⟨[], none, true, []⟩ : TypeInferer) with shouldExit := false } : TypeInferer)
        = some ⟨[], none, true, [Diagnostic.error "variable has incomplete type `void`"]⟩ ∧
      (true = true ↔ ∃ msg, InfererCall.err msg ∈ calls) :=
  have hpass :=
    (TypeInferer_Infer_fails_iff_error VariableDecl.infer
      [(⟨⟨"a", none⟩, some ⟨⟨"u", some (Primitive PRIMITIVE_void)⟩⟩⟩ :
          VariableDecl VariableAccessExpr),
        ⟨⟨"b", none⟩, some ⟨⟨"w", some (Primitive PRIMITIVE_s8)⟩⟩⟩]
      ⟨[], none, true, []⟩
      (fun n s n1 s1 h =>
        VariableDecl_infer_byCalls VariableAccessExpr_infer_byCalls n n1 s s1 h)).2.2.2.2.2.2.1
      [⟨⟨"a", some (Primitive PRIMITIVE_void)⟩,
          some ⟨⟨"u", some (Primitive PRIMITIVE_void)⟩⟩⟩,
        ⟨⟨"b", some (Primitive PRIMITIVE_s8)⟩, some ⟨⟨"w", some (Primitive PRIMITIVE_s8)⟩⟩⟩]
      ⟨[], none, true, [Diagnostic.error "variable has incomplete type `void`"]⟩ true
      (by rfl)
  ⟨by rfl, by rfl, hpass.1, hpass.2.2.2.2.1, hpass.2.2.2.2.2⟩

end Ark
